import Mathlib

/-!
# DB48X runtime: stack manager, safe pointers and compacting collector

Shallow embedding of `src/runtime.h` and `src/runtime.cc`, of the execution
loop of `src/program.cc` with `program::interrupted` and `redraw_periodics` of
`src/dm42/main.cc`, of `command::arg` of `src/command.h` and of the constructor
and accessors of `src/complex.h`.  The integer addition and the textual syntax,
whose code is not under `src/`, are modelled from the specification and from
the expectations of `src/tests.cc`.

* Every C++ pointer is a byte address, a `Nat`; `nullptr` is `0`.
* `W` is `sizeof(object *)`: a pointer of type `object **` moves by `W` bytes
  when it is incremented or decremented (4 on the DM42, 8 on the simulator).
* The arena is read through two maps: `bytes` for the byte-aligned objects below
  `Temporaries` (and the editor buffer above it), `slots` for the word-aligned
  cells of the data stack and of the return stack, keyed by the byte address of
  the cell.
* `size` is `object::size`, declared in `object.h`; it is a parameter of
  every function that walks the heap.  `object` has no data member, so
  arithmetic on `object *` is byte arithmetic.
* The chain of `gcptr::next` links rooted at `RT.GCSafe` is the list `GCSafe`;
  the head of the list is the most recently constructed safe pointer.
* The two views of the arena do not overlap as long as the editor buffer ends
  at or below `StackTop`.  No operation enforces this (`available()` does not
  count `Editing`), so `Temporaries + Editing <= StackTop` is a hypothesis of
  every theorem about a collection that speaks of the editor buffer or of the
  values left in the stack slots.
* Differences of addresses (`int delta`, `int size`, `size_t recycled`) are
  exact: the arena is far smaller than `2 ^ 31` bytes.  The only wrapping
  subtraction is the one of `available()`, which is modelled.
* `Editing`, `move` and `close_editor` are used by `runtime.cc`; `Editing` is
  the length of the editor buffer that sits at `Temporaries`.
* Texts are sequences of code points, each a `Nat`.
-/

namespace DB48X

/-! ## Data model -/

/-- One `runtime::gcptr`: `self` is the address of the C++ object itself
    (`this`), `safe` the protected address. -/
structure gcptr where
  self : Nat
  safe : Nat
deriving DecidableEq

/-- The fields of `struct runtime`, plus the two views of the arena. -/
structure runtime where
  Error : Option String
  Code : Nat
  LowMem : Nat
  Globals : Nat
  Temporaries : Nat
  Editing : Nat
  StackTop : Nat
  StackBottom : Nat
  Returns : Nat
  HighMem : Nat
  GCSafe : List gcptr
  bytes : Nat → Nat
  slots : Nat → Nat

/-- Amount of space kept between stack top and temporaries. -/
def redzone : Nat := 8

/-- Source `runtime::error(cstring)`: set the error message. -/
def error (rt : runtime) (message : String) : runtime :=
  { rt with Error := some message }

/-- Source `runtime::skip`: the address following the object at `obj`. -/
def skip (size : (Nat → Nat) → Nat → Nat) (rt : runtime) (obj : Nat) : Nat :=
  obj + size rt.bytes obj

/-! ## Safe pointers -/

/-- Constructor `gcptr(ptr)`: `safe(ptr), next(RT.GCSafe)`, then
    `RT.GCSafe = this`. -/
def gcptr_ctor (rt : runtime) (this ptr : Nat) : runtime :=
  { rt with GCSafe := { self := this, safe := ptr } :: rt.GCSafe }

/-- The list rooted at `RT.GCSafe` after the assignment `node->next = tail`,
    where `tail` is a chain of safe pointers. -/
def setNext (node : Nat) (tail : List gcptr) : List gcptr → List gcptr
  | [] => []
  | g :: rest =>
    if g.self = node then g :: tail else g :: setNext node tail rest

/-- The loop of `~gcptr()`.  `whole` is the list rooted at `RT.GCSafe`, the
    last argument is the chain starting at the loop variable `gc`, and `last`
    is the local of that name (`none` for `nullptr`).  The body first executes
    `last = gc`, then tests `gc == this`. -/
def gcptr_dtor_loop (this : Nat) (whole : List gcptr) :
    Option Nat → List gcptr → List gcptr
  | _, [] => whole
  | _, gc :: rest =>
    let last : Option Nat := some gc.self
    if gc.self = this then
      match last with
      | some l => setNext l rest whole
      | none => rest
    else gcptr_dtor_loop this whole last rest

/-- Destructor `~gcptr()` of the safe pointer at address `this`. -/
def gcptr_dtor (rt : runtime) (this : Nat) : runtime :=
  { rt with GCSafe := gcptr_dtor_loop this rt.GCSafe none rt.GCSafe }

/-! ## Garbage collector -/

/-- Addresses visited by `for (s = StackTop; s < StackBottom; s++)`. -/
def stackAddrs (W : Nat) (rt : runtime) : List Nat :=
  (List.range ((rt.StackBottom - rt.StackTop + W - 1) / W)).map
    (fun i => rt.StackTop + i * W)

/-- The value of `found` after the two scans of `gc()` for the object
    `[obj, next)`: the stack scan tests `*s >= obj && *s < next`, the scan of
    the safe pointers tests `p->safe >= obj && p->safe <= next`. -/
def found (W : Nat) (rt : runtime) (obj next : Nat) : Bool :=
  let found := (stackAddrs W rt).any
    (fun s => decide (obj ≤ rt.slots s) && decide (rt.slots s < next))
  if !found then
    rt.GCSafe.any (fun p => decide (obj ≤ p.safe) && decide (p.safe ≤ next))
  else found

/-- Source `runtime::move(first, last, to)`: `memmove` of `[first, last)` to `to`, then
    every stack slot and every safe pointer holding an address in
    `[first, last)` is shifted by `delta = to - first`. -/
def move (W : Nat) (rt : runtime) (first last to_ : Nat) : runtime :=
  if to_ = first then rt
  else if last ≤ first then rt
  else
    { rt with
      bytes := fun a =>
        if to_ ≤ a ∧ a < to_ + (last - first) then rt.bytes (first + (a - to_))
        else rt.bytes a
      slots := fun s =>
        if s ∈ stackAddrs W rt ∧ first ≤ rt.slots s ∧ rt.slots s < last then
          rt.slots s + to_ - first
        else rt.slots s
      GCSafe := rt.GCSafe.map (fun p =>
        if first ≤ p.safe ∧ p.safe < last then
          { p with safe := p.safe + to_ - first }
        else p) }

/-- The heap walk of `gc()`: `for (obj = first; obj < last; obj = next)`, with
    the locals `free` and `recycled`.  Each iteration costs one unit of fuel;
    `none` means the fuel ran out. -/
def gc_loop (W : Nat) (size : (Nat → Nat) → Nat → Nat) (last : Nat) :
    Nat → runtime → Nat → Nat → Nat → Option (runtime × Nat × Nat)
  | 0, _, _, _, _ => none
  | fuel + 1, rt, obj, free, recycled =>
    if obj < last then
      let next := skip size rt obj
      if found W rt obj next then
        gc_loop W size last fuel (move W rt obj next free) next
          (free + (next - obj)) recycled
      else
        gc_loop W size last fuel rt next free (recycled + (next - obj))
    else some (rt, free, recycled)

/-- The end of `gc()`, after the heap walk: "Move the command line" (when
    `Editing` is not 0, the editor buffer above `Temporaries` moves down by
    `recycled`), then "Adjust Temporaries" (`Temporaries -= recycled`). -/
def gc_finish (W : Nat) (rt : runtime) (recycled : Nat) : runtime :=
  let rt2 :=
    if rt.Editing ≠ 0 then
      move W rt rt.Temporaries (rt.Temporaries + rt.Editing)
        (rt.Temporaries - recycled)
    else rt
  { rt2 with Temporaries := rt2.Temporaries - recycled }

/-- Source `runtime::gc()`: returns the state after the collection and the number of
    recycled bytes.  An object of size 0 below `Temporaries` makes the C++ loop
    spin for ever; the walk then exhausts its fuel and the result is `none`. -/
def gc (W : Nat) (size : (Nat → Nat) → Nat → Nat) (rt : runtime) :
    Option (runtime × Nat) :=
  match gc_loop W size rt.Temporaries (rt.Temporaries - rt.Globals + 1) rt
      rt.Globals rt.Globals 0 with
  | none => none
  | some (rt1, _, recycled) => some (gc_finish W rt1 recycled, recycled)

/-! ## Temporaries -/

/-- Source `runtime::available()`: `(byte *) StackTop - (byte *) Temporaries - redzone`
    as a `size_t` of `8 * W` bits; the subtraction wraps when fewer than
    `redzone` bytes separate the two cursors. -/
def available (W : Nat) (rt : runtime) : Nat :=
  if rt.Temporaries + redzone ≤ rt.StackTop then
    rt.StackTop - rt.Temporaries - redzone
  else 2 ^ (8 * W) - (rt.Temporaries + redzone - rt.StackTop)

/-- Source `runtime::available(size_t size)`: `gc()` when `available() < size`,
    otherwise `size`. -/
def available_size (W : Nat) (size : (Nat → Nat) → Nat → Nat) (rt : runtime)
    (sz : Nat) : Option (runtime × Nat) :=
  if available W rt < sz then gc W size rt else some (rt, sz)

/-! ## Stack -/

/-- Source `runtime::depth()`: `StackBottom - StackTop`, counted in slots. -/
def depth (W : Nat) (rt : runtime) : Nat :=
  (rt.StackBottom - rt.StackTop) / W

/-- Source `runtime::push(obj)`: nothing is written when the availability
    check fails; otherwise `*(--StackTop) = obj`. -/
def push (W : Nat) (size : (Nat → Nat) → Nat → Nat) (rt : runtime)
    (obj : Nat) : Option runtime :=
  match available_size W size rt W with
  | none => none
  | some (rt1, avail) =>
    if avail < W then some rt1
    else
      some { rt1 with
        StackTop := rt1.StackTop - W
        slots := Function.update rt1.slots (rt1.StackTop - W) obj }

/-- Source `runtime::top()`: the object in the top slot, null on an empty
    stack. -/
def top (rt : runtime) : Nat :=
  if rt.StackTop < rt.StackBottom then rt.slots rt.StackTop else 0

/-- Source `runtime::top(obj)`: overwrite the top slot. -/
def top_set (rt : runtime) (obj : Nat) : runtime :=
  if rt.StackTop ≥ rt.StackBottom then error rt "Cannot replace empty stack"
  else { rt with slots := Function.update rt.slots rt.StackTop obj }

/-- Source `runtime::pop()`: the returned object and the new state. -/
def pop (W : Nat) (rt : runtime) : Nat × runtime :=
  if rt.StackTop ≥ rt.StackBottom then (0, error rt "Not enough arguments")
  else (rt.slots rt.StackTop, { rt with StackTop := rt.StackTop + W })

/-- Source `runtime::stack(idx)`: the returned object and the new state. -/
def stack (W : Nat) (rt : runtime) (idx : Nat) : Nat × runtime :=
  if idx ≥ depth W rt then (0, error rt "Insufficient stack depth")
  else (rt.slots (rt.StackTop + idx * W), rt)

/-- Source `runtime::stack(idx, obj)`: overwrite slot `idx`. -/
def stack_set (W : Nat) (rt : runtime) (idx obj : Nat) : runtime :=
  if idx ≥ depth W rt then error rt "Insufficient stack depth"
  else { rt with slots := Function.update rt.slots (rt.StackTop + idx * W) obj }


/-! ## Arena set-up, allocation, return stack -/

/-- Source `runtime::memory(memory, size)`: bind the arena `[mem, mem + sz)`. -/
def memory (rt : runtime) (mem sz : Nat) : runtime :=
  { rt with
    LowMem := mem
    HighMem := mem + sz
    Returns := mem + sz
    StackBottom := mem + sz
    StackTop := mem + sz
    Temporaries := mem
    Globals := mem }

/-- Source `runtime::make(size, ty)`: the returned pointer (0 for `nullptr`)
    and the new state. -/
def make (W : Nat) (size : (Nat → Nat) → Nat → Nat) (rt : runtime)
    (sz _ty : Nat) : Option (Nat × runtime) :=
  match available_size W size rt sz with
  | none => none
  | some (rt1, avail) =>
    if avail < sz then some (0, rt1)
    else some (rt1.Temporaries, { rt1 with Temporaries := rt1.Temporaries + sz })

/-- Modelled from the spec: `runtime::unused(obj, next)` is declared in
    `runtime.h` and defined nowhere under `src/`; the spec says of a disposed
    object that is not the last temporary that it "is left as dead space
    (reclaimed at the next collection)", so the state is unchanged. -/
def unused (rt : runtime) (_obj _next : Nat) : runtime := rt

/-- Source `runtime::dispose(object)`. -/
def dispose (size : (Nat → Nat) → Nat → Nat) (rt : runtime) (object : Nat) :
    runtime :=
  if skip size rt object = rt.Temporaries then { rt with Temporaries := object }
  else unused rt object (skip size rt object)

/-- The loop `for (s = lo; s < hi; s++) s[0] = s[1];` on cells of `W` bytes. -/
def shiftDown (W lo hi : Nat) (slots : Nat → Nat) : Nat → Nat :=
  ((List.range ((hi - lo + W - 1) / W)).map (fun i => lo + i * W)).foldl
    (fun sl s => Function.update sl s (sl (s + W))) slots

/-- The loop `for (s = hi; s > lo; s--) s[0] = s[-1];` on cells of `W` bytes. -/
def shiftUp (W hi lo : Nat) (slots : Nat → Nat) : Nat → Nat :=
  ((List.range ((hi - lo + W - 1) / W)).map (fun i => hi - i * W)).foldl
    (fun sl s => Function.update sl s (sl (s - W))) slots

/-- Source `runtime::call(callee)`: after the availability check, `StackTop--`,
    `StackBottom--`, the loop from `StackBottom` up to `StackTop`, then
    `*(--Returns) = Code` and `Code = callee`. -/
def call (W : Nat) (size : (Nat → Nat) → Nat → Nat) (rt : runtime)
    (callee : Nat) : Option runtime :=
  match available_size W size rt W with
  | none => none
  | some (rt1, avail) =>
    if avail < W then some (error rt1 "Too many recursive calls")
    else
      let rt2 := { rt1 with
        StackTop := rt1.StackTop - W
        StackBottom := rt1.StackBottom - W }
      let rt3 := { rt2 with
        slots := shiftDown W rt2.StackBottom rt2.StackTop rt2.slots }
      some { rt3 with
        Returns := rt3.Returns - W
        slots := Function.update rt3.slots (rt3.Returns - W) rt3.Code
        Code := callee }

/-- Source `runtime::ret()`: `Code = *Returns++`, `StackTop++`,
    `StackBottom++`, then the loop from `StackTop` down to `StackTop`. -/
def ret (W : Nat) (rt : runtime) : runtime :=
  if rt.Returns ≥ rt.HighMem then error rt "Cannot return without a caller"
  else
    let rt1 := { rt with
      Code := rt.slots rt.Returns
      Returns := rt.Returns + W }
    let rt2 := { rt1 with
      StackTop := rt1.StackTop + W
      StackBottom := rt1.StackBottom + W }
    { rt2 with slots := shiftUp W rt2.StackTop rt2.StackTop rt2.slots }

/-! ## Program execution (`program.cc`, `dm42/main.cc`) -/

/-- The values of `object::result` that the sources under `src/` use. -/
inductive result where
  | OK
  | SKIP
  | ERROR
deriving DecidableEq

/-- Source `program::interrupted()`: `key_empty` and `key_tail` are the
    values returned by the DMCP calls of these names, `KEY_EXIT` is the code of
    the EXIT key. -/
def interrupted (KEY_EXIT : Nat) (key_empty : Bool) (key_tail : Nat) : Bool :=
  if !key_empty then key_tail == KEY_EXIT else false

/-- The loop of `EXEC_BODY(program)` over the children still to visit, with the
    local `r`.  `poll s` is what `interrupted()` returns in the state `s`, and
    `evaluate obj s` is `obj->evaluate()`: its result and the state it leaves. -/
def execute_loop {σ : Type} (poll : σ → Bool) (evaluate : Nat → σ → result × σ) :
    List Nat → result → σ → result × σ
  | [], r, s => (r, s)
  | obj :: rest, r, s =>
    if poll s || r != result.OK then (r, s)
    else execute_loop poll evaluate rest (evaluate obj s).1 (evaluate obj s).2

/-- Source `EXEC_BODY(program)`: `r = OK`, the loop over the children, then
    `return r`. -/
def execute {σ : Type} (poll : σ → Bool) (evaluate : Nat → σ → result × σ)
    (children : List Nat) (s : σ) : result × σ :=
  execute_loop poll evaluate children result.OK s

/-! ## Encoded objects: the editor, typed arguments, complex numbers -/

/-- Modelled from the spec: `leb128.h` is not under `src/`; the glossary
    defines LEB128 as the "variable-length unsigned integer encoding using 7
    data bits per byte with a continuation bit".  Bytes of the encoding of `v`,
    low-order group first; the first argument bounds the number of bytes. -/
def leb128bytesAux : Nat → Nat → List Nat
  | 0, _ => []
  | fuel + 1, v =>
    if v < 128 then [v] else (v % 128 + 128) :: leb128bytesAux fuel (v / 128)

/-- Modelled from the spec: the LEB128 encoding of `v` (see `leb128bytesAux`). -/
def leb128bytes (v : Nat) : List Nat := leb128bytesAux (v + 1) v

/-- Modelled from the spec: `leb128size(v)`, the number of bytes of the LEB128
    encoding of `v`. -/
def leb128size (v : Nat) : Nat := (leb128bytes v).length

/-- The memory `m` after the bytes `bs` have been stored from address `p`. -/
def writeBytes (m : Nat → Nat) (p : Nat) (bs : List Nat) : Nat → Nat :=
  fun a => if p ≤ a ∧ a < p + bs.length then bs.getD (a - p) 0 else m a

/-- Modelled from the spec: `leb128(p, v)` stores the LEB128 encoding of `v`
    at `p` and returns the address that follows it. -/
def leb128 (m : Nat → Nat) (p v : Nat) : (Nat → Nat) × Nat :=
  (writeBytes m p (leb128bytes v), p + leb128size v)

/-- Copy of `n` bytes from `src` to `dst` (`memmove`, and `memcpy` on ranges
    that do not overlap). -/
def memcpy (m : Nat → Nat) (dst src n : Nat) : Nat → Nat :=
  fun a => if dst ≤ a ∧ a < dst + n then m (src + (a - dst)) else m a

/-- Source `runtime::close_editor()`: the returned pointer (0 for `nullptr`)
    and the new state.  `ID_string` is `object::ID_string`. -/
def close_editor (W : Nat) (size : (Nat → Nat) → Nat → Nat) (ID_string : Nat)
    (rt : runtime) : Option (Nat × runtime) :=
  let hdrsize := leb128size ID_string + leb128size (rt.Editing + 1)
  match available_size W size rt hdrsize with
  | none => none
  | some (rt1, avail) =>
    if avail < hdrsize then some (0, rt1)
    else
      let ed := rt1.Temporaries
      let str := ed + hdrsize
      let m1 := memcpy rt1.bytes str ed rt1.Editing
      let m2 := Function.update m1 (str + rt1.Editing) 0
      let w1 := leb128 m2 ed ID_string
      let w2 := leb128 w1.1 w1.2 (rt1.Editing + 1)
      some (str, { rt1 with
        bytes := w2.1
        Temporaries := str + rt1.Editing + 1
        Editing := 0 })

/-- Source `command::arg<Obj>(level, def)`: the returned pointer and the state
    `RT.stack(level)` leaves.  `type m obj` is `obj->type()` read in the memory
    `m`, and `static_type` is `Obj::static_type()`. -/
def arg (W : Nat) (type : (Nat → Nat) → Nat → Nat) (static_type : Nat)
    (rt : runtime) (level def_ : Nat) : Nat × runtime :=
  let r := stack W rt level
  if r.1 ≠ 0 ∧ type r.2.bytes r.1 = static_type then (r.1, r.2) else (def_, r.2)

/-- Source `complex::required_memory(i, x, y)`. -/
def required_memory (size : (Nat → Nat) → Nat → Nat) (m : Nat → Nat)
    (i x y : Nat) : Nat :=
  leb128size i + size m x + size m y

/-- Modelled from the spec: the constructor `object(id)` of `object.h`, which
    `algebraic(type)` runs, is not under `src/`; "every object is a
    variable-length record of the form `<type_id><payload…>`, where `type_id`
    is a LEB128-encoded unsigned integer", so it stores the type id at `this`. -/
def object_ctor (m : Nat → Nat) (this ty : Nat) : Nat → Nat :=
  (leb128 m this ty).1

/-- Source `complex::complex(x, y, type)`: the memory after the constructor
    has run on the object at `this`.  `payload m obj` is `payload(obj)` of
    `object.h`, read in the memory `m`. -/
def complex_ctor (size : (Nat → Nat) → Nat → Nat)
    (payload : (Nat → Nat) → Nat → Nat) (m : Nat → Nat) (this x y ty : Nat) :
    Nat → Nat :=
  let m0 := object_ctor m this ty
  let p := payload m0 this
  let xs := size m0 x
  let ys := size m0 y
  let m1 := memcpy m0 p x xs
  let p := p + xs
  memcpy m1 p y ys

/-- Source `complex::x()`. -/
def complex_x (payload : (Nat → Nat) → Nat → Nat) (m : Nat → Nat) (this : Nat) :
    Nat :=
  payload m this

/-- Source `complex::y()`. -/
def complex_y (size : (Nat → Nat) → Nat → Nat)
    (payload : (Nat → Nat) → Nat → Nat) (m : Nat → Nat) (this : Nat) : Nat :=
  let p := payload m this
  p + size m p

/-! ## Display loop (`dm42/main.cc`) -/

/-- Source `redraw_periodics()`: the period given to `sys_timer_start`.
    `period` is the value of the local of that name after the three `draw_`
    calls (60000 when they leave it alone), `now` is what the second call of
    `sys_current_ms()` returns; the subtraction is on 32-bit `uint`. -/
def redraw_periodics (period now last_keystroke_time : Nat) : Nat :=
  let dawdle_time := (now % 2 ^ 32 + 2 ^ 32 - last_keystroke_time % 2 ^ 32) % 2 ^ 32
  let period :=
    if dawdle_time > 180000 then 60000
    else if dawdle_time > 60000 then 10000
    else period
  let period := if dawdle_time > 10000 then 3000 else period
  period

/-- The heap walk of `gc()` again, this time returning what it records for
    each iteration ("Scanning object", "Moving ... to ..."): the object, its
    end, and the value of `free` when the object is examined. -/
def gc_walk (W : Nat) (size : (Nat → Nat) → Nat → Nat) (last : Nat) :
    Nat → runtime → Nat → Nat → List (Nat × Nat × Nat)
  | 0, _, _, _ => []
  | fuel + 1, rt, obj, free =>
    if obj < last then
      let next := skip size rt obj
      if found W rt obj next then
        (obj, next, free) ::
          gc_walk W size last fuel (move W rt obj next free) next (free + (next - obj))
      else
        (obj, next, free) :: gc_walk W size last fuel rt next free
    else []

/-! ## Integer arithmetic (modelled from the spec and from `tests.cc`) -/

/-- Modelled from the spec: the type ids of the integer family ("signed
    integer, negative integer, ... arbitrary-precision bignum
    (positive/negative)"), of the based integers, and of symbols, texts, lists
    and programs; `object.h` is not under `src/`, the names are the ones
    `tests.cc` checks.  The ids of the commands are not modelled. -/
inductive object_id where
  | ID_integer
  | ID_neg_integer
  | ID_bignum
  | ID_neg_bignum
  | ID_bin_integer
  | ID_oct_integer
  | ID_dec_integer
  | ID_hex_integer
  | ID_symbol
  | ID_text
  | ID_list
  | ID_program
deriving DecidableEq

/-- Modelled from the spec: an object of the integer family, its type id and
    its magnitude; the sign is carried by the type id. -/
structure integer_object where
  type : object_id
  magnitude : Nat
deriving DecidableEq

/-- Modelled from the spec: the type id is one of the two negative ones. -/
def is_negative (t : object_id) : Bool :=
  match t with
  | object_id.ID_neg_integer => true
  | object_id.ID_neg_bignum => true
  | _ => false

/-- Modelled from the spec: the integer object of a sign and a magnitude that
    fits in 64 bits; zero is an `ID_integer` (`tests.cc`: `1 + -1` gives
    `ID_integer` "0"). -/
def make_integer (negative : Bool) (magnitude : Nat) : integer_object :=
  if negative && decide (magnitude ≠ 0) then
    { type := object_id.ID_neg_integer, magnitude := magnitude }
  else { type := object_id.ID_integer, magnitude := magnitude }

/-- Modelled from the spec: the bignum object of a sign and a magnitude. -/
def make_bignum (negative : Bool) (magnitude : Nat) : integer_object :=
  if negative then { type := object_id.ID_neg_bignum, magnitude := magnitude }
  else { type := object_id.ID_bignum, magnitude := magnitude }

/-- Modelled from the spec: `+` on two objects of type `ID_integer` or
    `ID_neg_integer`, on 64-bit unsigned magnitudes.  With equal signs the
    magnitudes are added modulo `2^64`; a wrapped sum is smaller than its first
    operand, and the result is then "promoted" to a bignum that holds the whole
    sum.  With opposite signs the smaller magnitude is subtracted from the
    larger one, whose sign the result takes. -/
def add_integers (x y : integer_object) : integer_object :=
  let xv := x.magnitude % 2 ^ 64
  let yv := y.magnitude % 2 ^ 64
  if is_negative x.type = is_negative y.type then
    let sum := (xv + yv) % 2 ^ 64
    if sum < xv then make_bignum (is_negative x.type) (xv + yv)
    else make_integer (is_negative x.type) sum
  else if yv ≤ xv then make_integer (is_negative x.type) (xv - yv)
  else make_integer (is_negative y.type) (yv - xv)

/-- Modelled from the spec: the rendering of an object of the integer family,
    its decimal digits after a `-` for the negative type ids (`tests.cc`:
    `ID_neg_integer` "-1", `ID_neg_bignum` "-18446744073709551617"). -/
def integer_render (o : integer_object) : String :=
  if is_negative o.type then "-" ++ Nat.repr o.magnitude else Nat.repr o.magnitude

/-! ## Textual syntax (modelled from the spec, section 6.6, and from `tests.cc`) -/

/-- Modelled from the spec: the four bases of the based integers ("`#` digits
    (in chosen base) suffix letter (`b`/`o`/`d`/`h`, case-insensitive)"). -/
inductive radix where
  | bin
  | oct
  | dec
  | hex
deriving DecidableEq

/-- Modelled from the spec: the base of a based integer. -/
def radix.base : radix → Nat
  | radix.bin => 2
  | radix.oct => 8
  | radix.dec => 10
  | radix.hex => 16

/-- Modelled from the spec: the suffix letter a based integer is rendered
    with, in lower case (`tests.cc`: "#101B" is shown as "#101b"). -/
def radix.letter : radix → Nat
  | radix.bin => 98
  | radix.oct => 111
  | radix.dec => 100
  | radix.hex => 104

/-- Modelled from the spec: the base a suffix letter stands for, in either
    case. -/
def radix_of_suffix (c : Nat) : Option radix :=
  if c = 98 ∨ c = 66 then some radix.bin
  else if c = 111 ∨ c = 79 then some radix.oct
  else if c = 100 ∨ c = 68 then some radix.dec
  else if c = 104 ∨ c = 72 then some radix.hex
  else none

/-- Modelled from the spec: an object as the parser produces it and the
    renderer reads it.  Texts are sequences of code points.  The children of a
    list or of a program ("a list-like container of child objects") are a chain
    of `item` cells closed by `no_item`; these two are not objects of their
    own. -/
inductive rpl_object where
  | integer (n : Nat)
  | neg_integer (n : Nat)
  | based_integer (base : radix) (n : Nat)
  | symbol (name : List Nat)
  | text (chars : List Nat)
  | command (name : List Nat)
  | list (items : rpl_object)
  | program (items : rpl_object)
  | no_item
  | item (head : rpl_object) (tail : rpl_object)
deriving DecidableEq

/-- Modelled from the spec: the type id of an object; none for the commands,
    whose ids are not modelled, and for the cells of a chain of children. -/
def rpl_type : rpl_object → Option object_id
  | rpl_object.integer _ => some object_id.ID_integer
  | rpl_object.neg_integer _ => some object_id.ID_neg_integer
  | rpl_object.based_integer radix.bin _ => some object_id.ID_bin_integer
  | rpl_object.based_integer radix.oct _ => some object_id.ID_oct_integer
  | rpl_object.based_integer radix.dec _ => some object_id.ID_dec_integer
  | rpl_object.based_integer radix.hex _ => some object_id.ID_hex_integer
  | rpl_object.symbol _ => some object_id.ID_symbol
  | rpl_object.text _ => some object_id.ID_text
  | rpl_object.list _ => some object_id.ID_list
  | rpl_object.program _ => some object_id.ID_program
  | _ => none

/-- Modelled from the spec: the character of a digit, `0` to `9` then `A` to
    `F` (`tests.cc`: "#1234ABCDh"). -/
def digit_char (d : Nat) : Nat := if d < 10 then 48 + d else 55 + d

/-- Modelled from the spec: the value of a digit character, with the letters
    in either case; none for any other character. -/
def digit_value (c : Nat) : Option Nat :=
  if 48 ≤ c ∧ c ≤ 57 then some (c - 48)
  else if 65 ≤ c ∧ c ≤ 70 then some (c - 55)
  else if 97 ≤ c ∧ c ≤ 102 then some (c - 87)
  else none

/-- Modelled from the spec: the digits of `n` in base `b`, most significant
    first; the first argument bounds their number. -/
def digits_aux (b : Nat) : Nat → Nat → List Nat
  | 0, _ => []
  | fuel + 1, n =>
    if n < b then [digit_char n]
    else digits_aux b fuel (n / b) ++ [digit_char (n % b)]

/-- Modelled from the spec: the digits of `n` in base `b`. -/
def digits (b n : Nat) : List Nat := digits_aux b (n + 1) n

/-- Modelled from the spec: the number a sequence of digits stands for in
    base `b`. -/
def number (b : Nat) (cs : List Nat) : Nat :=
  cs.foldl (fun acc c => acc * b + (digit_value c).getD 0) 0

/-- Modelled from the spec: the character is a digit of base `b`. -/
def valid_digit (b c : Nat) : Bool :=
  match digit_value c with
  | some d => decide (d < b)
  | none => false

/-- Modelled from the spec: a decimal digit. -/
def is_digit (c : Nat) : Bool := decide (48 ≤ c ∧ c ≤ 57)

/-- Modelled from the spec: a letter. -/
def is_alpha (c : Nat) : Bool :=
  decide ((65 ≤ c ∧ c ≤ 90) ∨ (97 ≤ c ∧ c ≤ 122))

/-- Modelled from the spec: a character of an identifier ("letters/digits,
    starting with a letter"). -/
def is_alnum (c : Nat) : Bool := is_alpha c || is_digit c

/-- Modelled from the spec: a character of the name of a command that is not
    an identifier, such as `+`: visible, not of an identifier and not one of
    the delimiters `"`, `#`, the single quote, `{`, `}`, `«`, `»`. -/
def is_operator (c : Nat) : Bool :=
  decide (32 < c) && !is_alnum c &&
    decide (c ≠ 34 ∧ c ≠ 35 ∧ c ≠ 39 ∧ c ≠ 123 ∧ c ≠ 125 ∧ c ≠ 171 ∧ c ≠ 187)

/-- Modelled from the spec: the rendering of an object: the decimal digits of
    an integer, after `-` for a negative integer; `#`, the digits and the
    suffix letter for a based integer; the name of a symbol or of a command; a
    text between double quotes; the children of a list between `{` and `}` and
    those of a program between `«` and `»`, each followed by a space
    (`tests.cc`: "{ A 1 3 }", "« 1 + sin »"). -/
def render : rpl_object → List Nat
  | rpl_object.integer n => digits 10 n
  | rpl_object.neg_integer n => 45 :: digits 10 n
  | rpl_object.based_integer b n => 35 :: (digits b.base n ++ [b.letter])
  | rpl_object.symbol name => name
  | rpl_object.text chars => 34 :: (chars ++ [34])
  | rpl_object.command name => name
  | rpl_object.list items => 123 :: 32 :: (render items ++ [125])
  | rpl_object.program items => 171 :: 32 :: (render items ++ [187])
  | rpl_object.no_item => []
  | rpl_object.item head tail => render head ++ 32 :: render tail

/-- Modelled from the spec: the based integer spelled by the characters that
    follow `#`: digits of the base that the last character names. -/
def parse_based (w : List Nat) : Option rpl_object :=
  match w.reverse with
  | [] => none
  | letter :: rev =>
    match radix_of_suffix letter with
    | none => none
    | some b =>
      if rev ≠ [] ∧ rev.reverse.all (valid_digit b.base) = true then
        some (rpl_object.based_integer b (number b.base rev.reverse))
      else none

/-- Modelled from the spec: the parser, "trying each applicable type id's
    parse routine" (numeric literals, based integers, delimited forms, then
    identifiers and command names).  With `mode = none` one object is read at
    the start of the input; with `mode = some close` the children of a list or
    program are read up to the character `close`, after the spaces that
    separate them.  The result is the object and the rest of the input.
    `command_of` is the table of the commands, which is not under `src/`: for a
    word it gives the name of the command the word spells, "case-insensitively",
    and none when the word spells no command.  An identifier that spells a
    command is that command ("commands are identifiers that match a known
    command name"), any other identifier is a symbol.  Each level of nesting
    and each child costs one unit of fuel. -/
def parse_at (command_of : List Nat → Option (List Nat)) :
    Nat → Option Nat → List Nat → Option (rpl_object × List Nat)
  | 0, _, _ => none
  | fuel + 1, some close, s =>
    match s.dropWhile (fun c => decide (c = 32)) with
    | [] => none
    | c :: r =>
      if c = close then some (rpl_object.no_item, r)
      else
        match parse_at command_of fuel none (c :: r) with
        | none => none
        | some (o, rest) =>
          match parse_at command_of fuel (some close) rest with
          | none => none
          | some (os, rest2) => some (rpl_object.item o os, rest2)
  | fuel + 1, none, s =>
    match s with
    | [] => none
    | c :: r =>
      if is_digit c = true then
        some (rpl_object.integer (number 10 (s.takeWhile is_digit)),
          s.dropWhile is_digit)
      else if c = 45 ∧ (r.head?.map is_digit) = some true then
        some (rpl_object.neg_integer (number 10 (r.takeWhile is_digit)),
          r.dropWhile is_digit)
      else if c = 35 then
        (parse_based (r.takeWhile is_alnum)).map
          (fun o => (o, r.dropWhile is_alnum))
      else if c = 34 then
        match r.dropWhile (fun x => decide (x ≠ 34)) with
        | [] => none
        | _ :: rest =>
          some (rpl_object.text (r.takeWhile (fun x => decide (x ≠ 34))), rest)
      else if c = 123 then
        (parse_at command_of fuel (some 125) r).map
          (fun p => (rpl_object.list p.1, p.2))
      else if c = 171 then
        (parse_at command_of fuel (some 187) r).map
          (fun p => (rpl_object.program p.1, p.2))
      else if is_alpha c = true then
        match command_of (s.takeWhile is_alnum) with
        | some name => some (rpl_object.command name, s.dropWhile is_alnum)
        | none => some (rpl_object.symbol (s.takeWhile is_alnum), s.dropWhile is_alnum)
      else
        match command_of (s.takeWhile is_operator) with
        | some name => some (rpl_object.command name, s.dropWhile is_operator)
        | none => none

/-- Modelled from the spec: the object a whole text spells, when the parser
    reads one object and nothing follows it. -/
def parse (command_of : List Nat → Option (List Nat)) (s : List Nat) :
    Option rpl_object :=
  match parse_at command_of (s.length + 1) none s with
  | some (o, []) => some o
  | _ => none

/-! ## Heap layout and relocation (specification side) -/

/-- Hypothesis on `object::size`: the size of an object is read from the
    bytes of the object itself, so a byte-identical copy has the same size. -/
def SizeByContent (size : (Nat → Nat) → Nat → Nat) : Prop :=
  ∀ (m m' : Nat → Nat) (o o' : Nat),
    (∀ i, i < size m o → m' (o' + i) = m (o + i)) → size m' o' = size m o

/-- Walk of the heap from `obj` to `last` by `skip`: the list of the pairs
    `(obj, skip obj)`.  The result is `none` when an object has size 0 or
    reaches beyond `last`. -/
def heapWalk (size : (Nat → Nat) → Nat → Nat) (m : Nat → Nat) (last : Nat) :
    Nat → Nat → Option (List (Nat × Nat))
  | 0, _ => none
  | fuel + 1, obj =>
    if obj = last then some []
    else if 0 < size m obj ∧ obj + size m obj ≤ last then
      (heapWalk size m last fuel (obj + size m obj)).map
        (fun os => (obj, obj + size m obj) :: os)
    else none

/-- The temporaries of a well-formed heap: objects of positive size laid end
    to end from `Globals` exactly up to `Temporaries`. -/
def heapObjects (size : (Nat → Nat) → Nat → Nat) (rt : runtime) :
    Option (List (Nat × Nat)) :=
  heapWalk size rt.bytes rt.Temporaries (rt.Temporaries - rt.Globals + 1) rt.Globals

/-- The list `os` is the chain of objects from `a` to `b` in the memory `m`. -/
def IsChain (size : (Nat → Nat) → Nat → Nat) (m : Nat → Nat) :
    Nat → Nat → List (Nat × Nat) → Prop
  | a, b, [] => a = b
  | a, b, ob :: rest =>
    ob.1 = a ∧ ob.2 = a + size m a ∧ 0 < size m a ∧ ob.2 ≤ b ∧
      IsChain size m ob.2 b rest

/-- Sum of the sizes of the objects of a list. -/
def totalSize (os : List (Nat × Nat)) : Nat :=
  (os.map (fun ob => ob.2 - ob.1)).sum

/-- The objects of `os` that `keep` retains, in their original order. -/
def survivors (keep : Nat → Nat → Bool) (os : List (Nat × Nat)) :
    List (Nat × Nat) :=
  os.filter (fun ob => keep ob.1 ob.2)

/-- The objects of `os` that `keep` does not retain. -/
def recycledObjects (keep : Nat → Nat → Bool) (os : List (Nat × Nat)) :
    List (Nat × Nat) :=
  os.filter (fun ob => !keep ob.1 ob.2)

/-- Where the address `a` ends up when the retained objects of `os` are packed
    from `free` upwards: an address inside a retained object keeps its offset
    in the object, any other address is unchanged. -/
def relocate (keep : Nat → Nat → Bool) : List (Nat × Nat) → Nat → Nat → Nat
  | [], _, a => a
  | ob :: rest, free, a =>
    if keep ob.1 ob.2 then
      if ob.1 ≤ a ∧ a < ob.2 then free + (a - ob.1)
      else relocate keep rest (free + (ob.2 - ob.1)) a
    else relocate keep rest free a

/-- New address, after `gc()`, of the address `a` of the heap whose objects
    are `os`: the retained objects are the ones for which the scan of `gc()`
    sets `found`. -/
def newAddress (W : Nat) (rt : runtime) (os : List (Nat × Nat)) (a : Nat) : Nat :=
  relocate (found W rt) os rt.Globals a

/-- Some stack slot or some registered safe pointer holds an address of the
    half-open range `[obj, next)`. -/
def referenced (W : Nat) (rt : runtime) (obj next : Nat) : Prop :=
  (∃ s ∈ stackAddrs W rt, obj ≤ rt.slots s ∧ rt.slots s < next) ∨
  (∃ p ∈ rt.GCSafe, obj ≤ p.safe ∧ p.safe < next)

instance (W : Nat) (rt : runtime) (obj next : Nat) :
    Decidable (referenced W rt obj next) := by
  unfold referenced
  infer_instance

/-- Effect of the last `move` of `gc()` ("Move the command line") on an
    address `v`: an address inside the editor buffer moves down by `recycled`. -/
def editorShift (rt : runtime) (recycled v : Nat) : Nat :=
  if rt.Temporaries ≤ v ∧ v < rt.Temporaries + rt.Editing then
    v + (rt.Temporaries - recycled) - rt.Temporaries
  else v

/-! ## Operations and invariants (specification side) -/

/-- The operations of the runtime that the arena invariants speak of. -/
inductive Op where
  | make (sz ty : Nat)
  | dispose (obj : Nat)
  | push (obj : Nat)
  | pop
  | top
  | top_set (obj : Nat)
  | stack (idx : Nat)
  | stack_set (idx obj : Nat)
  | call (callee : Nat)
  | ret
  | gc

/-- The state an operation returns in; `none` when its collection does not
    terminate. -/
def step (W : Nat) (size : (Nat → Nat) → Nat → Nat) (rt : runtime) :
    Op → Option runtime
  | Op.make sz ty => (make W size rt sz ty).map (fun r => r.2)
  | Op.dispose obj => some (dispose size rt obj)
  | Op.push obj => push W size rt obj
  | Op.pop => some (pop W rt).2
  | Op.top => some rt
  | Op.top_set obj => some (top_set rt obj)
  | Op.stack idx => some (stack W rt idx).2
  | Op.stack_set idx obj => some (stack_set W rt idx obj)
  | Op.call callee => call W size rt callee
  | Op.ret => some (ret W rt)
  | Op.gc => (gc W size rt).map (fun r => r.1)

/-- The operation runs `gc()` in the state `rt`. -/
def collects (W : Nat) (rt : runtime) : Op → Bool
  | Op.make sz _ => decide (available W rt < sz)
  | Op.push _ => decide (available W rt < W)
  | Op.call _ => decide (available W rt < W)
  | Op.gc => true
  | _ => false

/-- The chain `Globals <= Temporaries <= StackTop <= StackBottom <= Returns
    <= HighMem`. -/
def arenaOrdered (rt : runtime) : Prop :=
  rt.Globals ≤ rt.Temporaries ∧ rt.Temporaries ≤ rt.StackTop ∧
  rt.StackTop ≤ rt.StackBottom ∧ rt.StackBottom ≤ rt.Returns ∧
  rt.Returns ≤ rt.HighMem

instance (rt : runtime) : Decidable (arenaOrdered rt) := by
  unfold arenaOrdered
  infer_instance

/-- The chain of the arena together with the red-zone gap and with stack
    cursors that are a whole number of cells apart. -/
def arenaInv (W : Nat) (rt : runtime) : Prop :=
  rt.Globals ≤ rt.Temporaries ∧ rt.Temporaries + redzone ≤ rt.StackTop ∧
  rt.StackTop ≤ rt.StackBottom ∧ rt.StackBottom ≤ rt.Returns ∧
  rt.Returns ≤ rt.HighMem ∧
  W ∣ (rt.StackBottom - rt.StackTop) ∧ W ∣ (rt.HighMem - rt.Returns)

instance (W : Nat) (rt : runtime) : Decidable (arenaInv W rt) := by
  unfold arenaInv
  infer_instance

/-- States reached from `memory(buf, size)` on an arena of at least `redzone`
    bytes by any sequence of operations; between two operations the callers
    may write the bytes of the arena, open or close safe pointers and edit the
    command line; the heap is well formed whenever an operation collects. -/
inductive Reachable (W : Nat) (size : (Nat → Nat) → Nat → Nat) : runtime → Prop
  | init (rt0 : runtime) (mem sz : Nat) (h : redzone ≤ sz) :
      Reachable W size (memory rt0 mem sz)
  | caller (rt : runtime) (b : Nat → Nat) (g : List gcptr) (e : Nat)
      (h : Reachable W size rt) :
      Reachable W size { rt with bytes := b, GCSafe := g, Editing := e }
  | op (rt rt' : runtime) (o : Op) (h : Reachable W size rt)
      (hwf : collects W rt o = true → (heapObjects size rt).isSome = true)
      (hstep : step W size rt o = some rt') :
      Reachable W size rt'

/-- The state after the children of a list have all been processed: no
    interruption was pending before any of them and each returned `OK`;
    `none` otherwise. -/
def runChildren {σ : Type} (poll : σ → Bool) (evaluate : Nat → σ → result × σ) :
    List Nat → σ → Option σ
  | [], s => some s
  | obj :: rest, s =>
    if poll s then none
    else if (evaluate obj s).1 = result.OK then
      runChildren poll evaluate rest (evaluate obj s).2
    else none

/-- Addresses of the cells of the return stack, from `Returns` up to
    `HighMem`. -/
def returnAddrs (W : Nat) (rt : runtime) : List Nat :=
  (List.range ((rt.HighMem - rt.Returns + W - 1) / W)).map
    (fun i => rt.Returns + i * W)

/-- The value `v` is acceptable in a slot: null, an address inside
    `[Globals, Temporaries)`, or an address of the static read-only area. -/
def validSlot (isStatic : Nat → Bool) (rt : runtime) (v : Nat) : Prop :=
  v = 0 ∨ (rt.Globals ≤ v ∧ v < rt.Temporaries) ∨ isStatic v = true

instance (isStatic : Nat → Bool) (rt : runtime) (v : Nat) :
    Decidable (validSlot isStatic rt v) := by
  unfold validSlot
  infer_instance

/-- Every slot of the data stack holds an acceptable value. -/
def dataValid (W : Nat) (isStatic : Nat → Bool) (rt : runtime) : Prop :=
  ∀ s ∈ stackAddrs W rt, validSlot isStatic rt (rt.slots s)

/-- Every slot of the return stack holds an acceptable value. -/
def returnValid (W : Nat) (isStatic : Nat → Bool) (rt : runtime) : Prop :=
  ∀ s ∈ returnAddrs W rt, validSlot isStatic rt (rt.slots s)

instance (W : Nat) (isStatic : Nat → Bool) (rt : runtime) :
    Decidable (dataValid W isStatic rt) := by
  unfold dataValid
  infer_instance

instance (W : Nat) (isStatic : Nat → Bool) (rt : runtime) :
    Decidable (returnValid W isStatic rt) := by
  unfold returnValid
  infer_instance

/-- The number an object of the integer family stands for. -/
def integer_value (o : integer_object) : Int :=
  if is_negative o.type then -(o.magnitude : Int) else (o.magnitude : Int)

/-- The object is an operand of the integer type or of the negative integer
    type, with a magnitude of 64 bits, not zero when negative. -/
def integer_operand (o : integer_object) : Prop :=
  (o.type = object_id.ID_integer ∨
    (o.type = object_id.ID_neg_integer ∧ o.magnitude ≠ 0)) ∧
  o.magnitude < 2 ^ 64

instance (o : integer_object) : Decidable (integer_operand o) := by
  unfold integer_operand
  infer_instance

/-- The name is an identifier: letters and digits, starting with a letter. -/
def is_identifier (name : List Nat) : Bool :=
  match name with
  | [] => false
  | c :: _ => is_alpha c && name.all is_alnum

/-- The name is made of operator characters only, and is not empty. -/
def is_operator_name (name : List Nat) : Bool :=
  match name with
  | [] => false
  | _ :: _ => name.all is_operator

/-- The constructable objects (`items = false`) and the chains of children
    (`items = true`): the name of a symbol is an identifier that spells no
    command, a text holds no double quote, the name of a command is an
    identifier or an operator name that the table of the commands gives for
    itself. -/
def well_formed (command_of : List Nat → Option (List Nat)) :
    Bool → rpl_object → Prop
  | false, rpl_object.integer _ => True
  | false, rpl_object.neg_integer _ => True
  | false, rpl_object.based_integer _ _ => True
  | false, rpl_object.symbol name =>
    is_identifier name = true ∧ command_of name = none
  | false, rpl_object.text chars => 34 ∉ chars
  | false, rpl_object.command name =>
    command_of name = some name ∧
      (is_identifier name = true ∨ is_operator_name name = true)
  | false, rpl_object.list items => well_formed command_of true items
  | false, rpl_object.program items => well_formed command_of true items
  | true, rpl_object.no_item => True
  | true, rpl_object.item head tail =>
    well_formed command_of false head ∧ well_formed command_of true tail
  | _, _ => False

/-- Fuel that the parser needs for the rendering of an object. -/
def parse_fuel : rpl_object → Nat
  | rpl_object.list items => parse_fuel items + 1
  | rpl_object.program items => parse_fuel items + 1
  | rpl_object.item head tail => max (parse_fuel head) (parse_fuel tail) + 1
  | _ => 1

/-- What may follow an object in a text: nothing, or a space. -/
def terminated (rest : List Nat) : Prop :=
  rest = [] ∨ ∃ r, rest = 32 :: r

/-! ## Sample states -/

/-- Sample `object::size`: the first byte of an object holds its size minus
    one, so every object has a positive size read from its own bytes. -/
def demoSize (m : Nat → Nat) (obj : Nat) : Nat := m obj + 1

/-- Arena `[100, 120)` with 4-byte pointers.  Temporaries: a dead object of
    `n` bytes at 100 and a 3-byte object at `100 + n`, referenced by the only
    stack slot (at address 116). -/
def demoHeap (n : Nat) : runtime where
  Error := none
  Code := 0
  LowMem := 100
  Globals := 100
  Temporaries := 103 + n
  Editing := 0
  StackTop := 116
  StackBottom := 120
  Returns := 120
  HighMem := 120
  GCSafe := []
  bytes := fun a => if a = 100 then n - 1 else if a = 100 + n then 2 else 0
  slots := fun s => if s = 116 then 100 + n else 0

/-- Arena `[100, 140)` with 4-byte pointers, no temporaries, and three
    objects of the static area (addresses 11, 22, 33) on the stack. -/
def demoStack : runtime where
  Error := none
  Code := 0
  LowMem := 100
  Globals := 100
  Temporaries := 100
  Editing := 0
  StackTop := 128
  StackBottom := 140
  Returns := 140
  HighMem := 140
  GCSafe := []
  bytes := fun _ => 0
  slots := fun s => if s = 128 then 11 else if s = 132 then 22 else if s = 136 then 33 else 0

/-- Arena `[100, 120)` with 4-byte pointers and an empty stack.  Temporaries:
    a 2-byte object at 100 and a 3-byte object at 102; the only safe pointer
    protects the second object (address 102). -/
def demoSafe : runtime where
  Error := none
  Code := 0
  LowMem := 100
  Globals := 100
  Temporaries := 105
  Editing := 0
  StackTop := 120
  StackBottom := 120
  Returns := 120
  HighMem := 120
  GCSafe := [{ self := 1000, safe := 102 }]
  bytes := fun a => if a = 100 then 1 else if a = 102 then 2 else 0
  slots := fun _ => 0

/-- Arena `[100, 120)` with 4-byte pointers.  Temporaries: one dead 2-byte
    object at 100.  An editor buffer of 3 bytes follows (`Editing = 3`, bytes
    102 to 104); the only stack slot and the only safe pointer hold the
    address 103 of the second character of the buffer. -/
def demoEditor : runtime where
  Error := none
  Code := 0
  LowMem := 100
  Globals := 100
  Temporaries := 102
  Editing := 3
  StackTop := 116
  StackBottom := 120
  Returns := 120
  HighMem := 120
  GCSafe := [{ self := 1000, safe := 103 }]
  bytes := fun a => if a = 100 then 1 else 65
  slots := fun s => if s = 116 then 103 else 0

/-- Arena of 4 bytes at address 100, the state `memory(100, 4)` leaves. -/
def demoTiny : runtime :=
  memory demoStack 100 4

/-- Sample evaluator state: the objects evaluated so far (most recent first)
    and the two values read from the key queue. -/
structure demoEnv where
  trace : List Nat
  key_empty : Bool
  key_tail : Nat
deriving DecidableEq

/-- Sample `evaluate`: the object is recorded; object 0 fails with `ERROR`,
    object 7 succeeds while the user presses EXIT (key code 33), every other
    object succeeds. -/
def demoEvaluate (obj : Nat) (s : demoEnv) : result × demoEnv :=
  if obj = 0 then (result.ERROR, { s with trace := obj :: s.trace })
  else if obj = 7 then
    (result.OK, { trace := obj :: s.trace, key_empty := false, key_tail := 33 })
  else (result.OK, { s with trace := obj :: s.trace })

/-- Sample interruption source: `program::interrupted()` on the key queue of
    the state, with `KEY_EXIT = 33`. -/
def demoPoll (s : demoEnv) : Bool :=
  interrupted 33 s.key_empty s.key_tail

/-- Arena `[100, 120)` with 4-byte pointers and an empty stack.  Temporaries:
    a 2-byte object at 100 and a 3-byte object at 102; the only safe pointer
    holds 105, the address that follows the second object (`Temporaries`). -/
def demoSafeEnd : runtime :=
  { demoSafe with GCSafe := [{ self := 1000, safe := 105 }] }

/-- Sample `obj->type()`: the type id is the second byte of the object (the
    first byte holds the size, see `demoSize`). -/
def demoType (m : Nat → Nat) (obj : Nat) : Nat := m (obj + 1)

/-- Arena `[100, 120)` like `demoEditor`, with the editor buffer holding the
    three distinct bytes 72, 105, 33 at 102, 103, 104. -/
def demoEditorText : runtime :=
  { demoEditor with
    bytes := fun a =>
      if a = 100 then 1 else if a = 102 then 72 else if a = 103 then 105
      else if a = 104 then 33 else 0 }

/-- Arena `[100, 112)` with 4-byte pointers and an empty stack.  Temporaries:
    one dead 4-byte object at 100; an editor buffer of 3 bytes (72, 105, 33)
    follows at 104.  `available()` is 0. -/
def demoClose : runtime where
  Error := none
  Code := 0
  LowMem := 100
  Globals := 100
  Temporaries := 104
  Editing := 3
  StackTop := 112
  StackBottom := 112
  Returns := 112
  HighMem := 112
  GCSafe := []
  bytes := fun a =>
    if a = 100 then 3 else if a = 104 then 72 else if a = 105 then 105
    else if a = 106 then 33 else 0
  slots := fun _ => 0

/-- Sample `payload(obj)`: the payload follows a type id of one byte. -/
def demoPayload (_m : Nat → Nat) (obj : Nat) : Nat := obj + 1

/-- Sample memory: a 2-byte object (bytes 1, 7) at 200 and a 3-byte object
    (bytes 2, 8, 9) at 210, sizes as `demoSize` reads them. -/
def demoPair : Nat → Nat :=
  fun a =>
    if a = 200 then 1 else if a = 201 then 7 else if a = 210 then 2
    else if a = 211 then 8 else if a = 212 then 9 else 0

/-- Arena `[100, 120)` with 4-byte pointers and an empty data stack.
    Temporaries: one 4-byte object at 100.  The return stack holds one cell, at
    116, with the address 100 of that object. -/
def demoReturn : runtime where
  Error := none
  Code := 0
  LowMem := 100
  Globals := 100
  Temporaries := 104
  Editing := 0
  StackTop := 116
  StackBottom := 116
  Returns := 116
  HighMem := 120
  GCSafe := []
  bytes := fun a => if a = 100 then 3 else 0
  slots := fun s => if s = 116 then 100 else 0

/-- The lower-case form of a letter. -/
def to_lower (c : Nat) : Nat := if 65 ≤ c ∧ c ≤ 90 then c + 32 else c

/-- Sample table of commands: `+`, `-`, `*`, `/` and `sin`, the last one in
    either case. -/
def demoCommands (word : List Nat) : Option (List Nat) :=
  if word.map to_lower ∈ [[43], [45], [42], [47], [115, 105, 110]] then
    some (word.map to_lower)
  else none

/-- Arena `[100, 124)` with 4-byte pointers.  Temporaries: a dead 4-byte
    object at 100 and a 3-byte object at 104.  The stack holds, from the top,
    the static address `0x08001234` (slot 116) and the address 104 (slot 120);
    the two safe pointers hold the same static address and null. -/
def demoFrame : runtime where
  Error := none
  Code := 0
  LowMem := 100
  Globals := 100
  Temporaries := 107
  Editing := 0
  StackTop := 116
  StackBottom := 124
  Returns := 124
  HighMem := 124
  GCSafe := [{ self := 1000, safe := 134222388 }, { self := 1008, safe := 0 }]
  bytes := fun a => if a = 100 then 3 else if a = 104 then 2 else 0
  slots := fun s => if s = 116 then 134222388 else if s = 120 then 104 else 0

/-- Arena `[100, 120)` with 4-byte pointers, as `memory`, `make(6)` and
    `push` leave it: one 6-byte temporary at 100, referenced by the only stack
    slot.  2 bytes are available and nothing can be recycled. -/
def demoFull : runtime where
  Error := none
  Code := 0
  LowMem := 100
  Globals := 100
  Temporaries := 106
  Editing := 0
  StackTop := 116
  StackBottom := 120
  Returns := 120
  HighMem := 120
  GCSafe := []
  bytes := fun a => if a = 100 then 5 else 0
  slots := fun s => if s = 116 then 100 else 0

/-! ## Frame of the collector -/

/-- The fields that `move` and the heap walk never assign. -/
def sameCursors (a b : runtime) : Prop :=
  a.Error = b.Error ∧ a.Code = b.Code ∧ a.LowMem = b.LowMem ∧
  a.Globals = b.Globals ∧ a.Temporaries = b.Temporaries ∧
  a.Editing = b.Editing ∧ a.StackTop = b.StackTop ∧
  a.StackBottom = b.StackBottom ∧ a.Returns = b.Returns ∧ a.HighMem = b.HighMem

theorem sameCursors_refl (a : runtime) : sameCursors a a := by
  simp [sameCursors]

theorem sameCursors_trans {a b c : runtime} (h1 : sameCursors a b)
    (h2 : sameCursors b c) : sameCursors a c := by
  unfold sameCursors at *
  obtain ⟨a1, a2, a3, a4, a5, a6, a7, a8, a9, a10⟩ := h1
  obtain ⟨b1, b2, b3, b4, b5, b6, b7, b8, b9, b10⟩ := h2
  exact ⟨a1.trans b1, a2.trans b2, a3.trans b3, a4.trans b4, a5.trans b5,
    a6.trans b6, a7.trans b7, a8.trans b8, a9.trans b9, a10.trans b10⟩

theorem move_sameCursors (W : Nat) (rt : runtime) (first last to_ : Nat) :
    sameCursors (move W rt first last to_) rt := by
  unfold move
  split_ifs <;> simp [sameCursors]

theorem stackAddrs_congr (W : Nat) {a b : runtime} (h : sameCursors a b) :
    stackAddrs W a = stackAddrs W b := by
  unfold sameCursors at h
  obtain ⟨-, -, -, -, -, -, h7, h8, -, -⟩ := h
  simp [stackAddrs, h7, h8]

theorem gc_loop_sameCursors (W : Nat) (size : (Nat → Nat) → Nat → Nat)
    (last : Nat) : ∀ (fuel : Nat) (rt : runtime) (obj free recycled : Nat)
      (res : runtime × Nat × Nat),
      gc_loop W size last fuel rt obj free recycled = some res →
      sameCursors res.1 rt := by
  intro fuel
  induction fuel with
  | zero => intro rt obj free recycled res h; simp [gc_loop] at h
  | succ n ih =>
    intro rt obj free recycled res h
    simp only [gc_loop] at h
    split_ifs at h with h1 h2
    · exact sameCursors_trans (ih _ _ _ _ _ h) (move_sameCursors _ _ _ _ _)
    · exact ih _ _ _ _ _ h
    · cases h; exact sameCursors_refl _

theorem gc_finish_sameCursors (W : Nat) (rt : runtime) (recycled : Nat) :
    sameCursors { gc_finish W rt recycled with Temporaries := rt.Temporaries } rt ∧
    (gc_finish W rt recycled).Temporaries = rt.Temporaries - recycled := by
  have hm := move_sameCursors W rt rt.Temporaries (rt.Temporaries + rt.Editing)
    (rt.Temporaries - recycled)
  unfold sameCursors at *
  unfold gc_finish
  obtain ⟨a1, a2, a3, a4, a5, a6, a7, a8, a9, a10⟩ := hm
  split_ifs with hE
  · simp [a1, a2, a3, a4, a5, a6, a7, a8, a9, a10]
  · simp

/-- The shape of a terminating collection: the heap walk returns, then the
    editor buffer and `Temporaries` are adjusted. -/
theorem gc_eq_some (W : Nat) (size : (Nat → Nat) → Nat → Nat) (rt rt' : runtime)
    (recycled : Nat) (h : gc W size rt = some (rt', recycled)) :
    ∃ rt1 free, gc_loop W size rt.Temporaries (rt.Temporaries - rt.Globals + 1) rt
        rt.Globals rt.Globals 0 = some (rt1, free, recycled) ∧
      rt' = gc_finish W rt1 recycled := by
  unfold gc at h
  split at h
  · cases h
  · rename_i rt1 fr rec hloop
    simp only [Option.some.injEq, Prod.mk.injEq] at h
    obtain ⟨h1, h2⟩ := h
    subst h2
    exact ⟨rt1, fr, hloop, h1.symm⟩

/-- What `gc()` leaves alone: every cursor but `Temporaries`, which moves down
    by the recycled count. -/
theorem gc_cursors (W : Nat) (size : (Nat → Nat) → Nat → Nat) (rt rt' : runtime)
    (recycled : Nat) (h : gc W size rt = some (rt', recycled)) :
    rt'.Error = rt.Error ∧ rt'.Code = rt.Code ∧ rt'.LowMem = rt.LowMem ∧
    rt'.Globals = rt.Globals ∧ rt'.Temporaries = rt.Temporaries - recycled ∧
    rt'.Editing = rt.Editing ∧ rt'.StackTop = rt.StackTop ∧
    rt'.StackBottom = rt.StackBottom ∧ rt'.Returns = rt.Returns ∧
    rt'.HighMem = rt.HighMem := by
  obtain ⟨rt1, fr, hloop, rfl⟩ := gc_eq_some W size rt rt' recycled h
  have hc := gc_loop_sameCursors W size _ _ _ _ _ _ _ hloop
  obtain ⟨hf, hT⟩ := gc_finish_sameCursors W rt1 recycled
  have := sameCursors_trans hf hc
  unfold sameCursors at this hc
  obtain ⟨a1, a2, a3, a4, a5, a6, a7, a8, a9, a10⟩ := this
  obtain ⟨-, -, -, -, c5, -⟩ := hc
  simp only at a1 a2 a3 a4 a5 a6 a7 a8 a9 a10 c5
  exact ⟨a1, a2, a3, a4, by rw [hT, c5], a6, a7, a8, a9, a10⟩


/-! ## Stack manager -/

theorem push_of_room (W : Nat) (size : (Nat → Nat) → Nat → Nat)
    (rt rt1 : runtime) (avail obj : Nat)
    (hroom : available_size W size rt W = some (rt1, avail)) (hav : W ≤ avail) :
    push W size rt obj = some { rt1 with
      StackTop := rt1.StackTop - W
      slots := Function.update rt1.slots (rt1.StackTop - W) obj } := by
  unfold push
  rw [hroom]
  simp only
  rw [if_neg (by omega)]

theorem available_size_cursors (W : Nat) (size : (Nat → Nat) → Nat → Nat)
    (rt rt1 : runtime) (sz avail : Nat)
    (h : available_size W size rt sz = some (rt1, avail)) :
    rt1.StackTop = rt.StackTop ∧ rt1.StackBottom = rt.StackBottom ∧
    rt1.Error = rt.Error ∧ (sz ≤ available W rt → rt1 = rt) := by
  unfold available_size at h
  split_ifs at h with hlt
  · obtain ⟨h1, -, -, -, -, -, h7, h8, -, -⟩ := gc_cursors W size rt rt1 avail h
    exact ⟨h7, h8, h1, fun hle => absurd hlt (by omega)⟩
  · simp only [Option.some.injEq, Prod.mk.injEq] at h
    obtain ⟨rfl, -⟩ := h
    exact ⟨rfl, rfl, rfl, fun _ => rfl⟩

theorem depth_pos (W : Nat) (rt : runtime) (k : Nat) (h : k < depth W rt) :
    0 < W ∧ rt.StackTop + (k + 1) * W ≤ rt.StackBottom := by
  unfold depth at h
  have hW : 0 < W := by
    rcases Nat.eq_zero_or_pos W with h0 | h0
    · subst h0; simp at h
    · exact h0
  refine ⟨hW, ?_⟩
  have h1 : (k + 1) * W ≤ rt.StackBottom - rt.StackTop :=
    (Nat.le_div_iff_mul_le hW).mp h
  have h2 : 0 < (k + 1) * W := Nat.mul_pos (Nat.succ_pos k) hW
  omega

/-- C6 (evaluation of the code): constructing a safe pointer and destroying it
    leaves the pointer at the head of the `GCSafe` list.  In `~gcptr()` the
    assignment `last = gc` precedes the test `gc == this`, so the unlinking
    statement is `gc->next = gc->next` and `RT.GCSafe` is never assigned. -/
theorem gcptr_dtor_keeps_pointer (rt : runtime) (this ptr : Nat) :
    (gcptr_dtor (gcptr_ctor rt this ptr) this).GCSafe
      = { self := this, safe := ptr } :: rt.GCSafe ∧
    (gcptr_dtor (gcptr_ctor rt this ptr) this).GCSafe ≠ rt.GCSafe := by
  have h : (gcptr_dtor (gcptr_ctor rt this ptr) this).GCSafe
      = { self := this, safe := ptr } :: rt.GCSafe := by
    simp [gcptr_dtor, gcptr_ctor, gcptr_dtor_loop, setNext]
  refine ⟨h, ?_⟩
  rw [h]
  intro hc
  have := congrArg List.length hc
  simp at this

/-- C7 (as stated, refuted): the arena `demoFull` is full: 2 bytes are
    available where a slot takes 4, and the only temporary is referenced, so
    the collection recycles nothing.  `push(7)` returns without pushing: the
    depth is still 1, `top()` is still 100 and 2 bytes are available. -/
theorem push_full_arena_counterexample :
    depth 4 demoFull = 1 ∧ available 4 demoFull = 2 ∧
    (gc 4 demoSize demoFull).map (fun r => (r.2, available 4 r.1)) = some (0, 2) ∧
    (push 4 demoSize demoFull 7).map (fun r => (depth 4 r, top r, available 4 r))
      = some (1, 100, 2) := by
  decide

/-- What `push(x)` does when the value that `available(sizeof(x))` returns is
    at least `sizeof(x)`: `depth()` grows by 1, `top()` returns `x`, and every
    slot of the state `rt1` that the check leaves is found one level deeper. -/
theorem push_after_check (W : Nat) (size : (Nat → Nat) → Nat → Nat)
    (rt rt1 : runtime) (avail x : Nat)
    (hroom : available_size W size rt W = some (rt1, avail)) (hav : W ≤ avail)
    (hW : 0 < W) (hlow : W ≤ rt.StackTop) (hord : rt.StackTop ≤ rt.StackBottom) :
    ∃ rt', push W size rt x = some rt' ∧
      depth W rt' = depth W rt + 1 ∧ top rt' = x ∧
      (∀ k, k < depth W rt → (stack W rt' (k + 1)).1 = (stack W rt1 k).1) ∧
      (W ≤ available W rt → rt1 = rt) := by
  obtain ⟨hT, hB, -, hsame⟩ := available_size_cursors W size rt rt1 W avail hroom
  refine ⟨_, push_of_room W size rt rt1 avail x hroom hav, ?_, ?_, ?_, hsame⟩
  · simp only [depth, hT, hB]
    have : rt.StackBottom - (rt.StackTop - W) = (rt.StackBottom - rt.StackTop) + W := by
      omega
    rw [this, Nat.add_div_right _ hW]
  · simp only [top, hT, hB]
    rw [if_pos (by omega)]
    simp
  · intro k hk
    have hd : depth W rt1 = depth W rt := by simp [depth, hT, hB]
    have hd' : depth W { rt1 with
        StackTop := rt1.StackTop - W
        slots := Function.update rt1.slots (rt1.StackTop - W) x } = depth W rt + 1 := by
      simp only [depth, hT, hB]
      have : rt.StackBottom - (rt.StackTop - W) = (rt.StackBottom - rt.StackTop) + W := by
        omega
      rw [this, Nat.add_div_right _ hW]
    unfold stack
    rw [if_neg (by rw [hd']; omega), if_neg (by rw [hd]; omega)]
    have e : rt1.StackTop - W + (k + 1) * W = rt1.StackTop + k * W := by
      rw [Nat.succ_mul]; omega
    have hne : rt1.StackTop + k * W ≠ rt1.StackTop - W := by
      have := Nat.zero_le (k * W); omega
    show Function.update rt1.slots (rt1.StackTop - W) x (rt1.StackTop - W + (k + 1) * W)
      = rt1.slots (rt1.StackTop + k * W)
    rw [e, Function.update_noteq hne]

/-- C7 (amended): in every state with at least `sizeof(x)` bytes available,
    and `sizeof(x) <= StackTop <= StackBottom`, `push(x)` makes `depth()` grow
    by 1, `top()` return `x`, and leaves every slot present before the call
    unchanged one level deeper. -/
theorem push_stack_invariant (W : Nat) (size : (Nat → Nat) → Nat → Nat)
    (rt : runtime) (x : Nat) (hav : W ≤ available W rt)
    (hW : 0 < W) (hlow : W ≤ rt.StackTop) (hord : rt.StackTop ≤ rt.StackBottom) :
    ∃ rt', push W size rt x = some rt' ∧
      depth W rt' = depth W rt + 1 ∧ top rt' = x ∧
      ∀ k, k < depth W rt → (stack W rt' (k + 1)).1 = (stack W rt k).1 := by
  have hroom : available_size W size rt W = some (rt, W) := by
    unfold available_size
    rw [if_neg (by omega)]
  obtain ⟨rt', h1, h2, h3, h4, -⟩ :=
    push_after_check W size rt rt W x hroom (le_refl _) hW hlow hord
  exact ⟨rt', h1, h2, h3, h4⟩

/-- Witness for `push_stack_invariant`: pushing 44 on the three-slot stack
    `demoStack`, which has 20 bytes available. -/
theorem push_stack_invariant_witness :
    4 ≤ available 4 demoStack ∧
    ∃ rt', push 4 demoSize demoStack 44 = some rt' ∧
      depth 4 rt' = depth 4 demoStack + 1 ∧ top rt' = 44 ∧
      (∀ k, k < depth 4 demoStack →
        (stack 4 rt' (k + 1)).1 = (stack 4 demoStack k).1) :=
  ⟨by decide,
    push_stack_invariant 4 demoSize demoStack 44 (by decide) (by decide) (by decide)
      (by decide)⟩


/-- C8 (as stated, refuted): in `demoHeap 4` the availability check of
    `push(7)` runs a collection that recycles 4 bytes and moves the object
    referenced by the stack; `pop()` then returns 7, but the slot that held
    104 before the push now holds 100. -/
theorem pop_after_push_counterexample :
    top (demoHeap 4) = 104 ∧
    (push 4 demoSize (demoHeap 4) 7).map (fun r => ((pop 4 r).1, top (pop 4 r).2))
      = some (7, 100) := by
  decide

/-- C8 (amended): on a non-empty stack `pop()` returns what `top()` returned,
    decreases `depth()` by 1 and leaves every slot and the error slot
    unchanged; on an empty stack it returns null, sets "Not enough arguments"
    and leaves `StackTop` and `StackBottom` unchanged; `pop()` after a
    successful `push(x)` returns `x` and restores `StackTop`, `StackBottom`,
    `depth()` and the error slot, the slots being those in which `push` wrote
    `x`: the slots before the call when `push` ran no collection. -/
theorem pop_contract (W : Nat) (size : (Nat → Nat) → Nat → Nat)
    (rt rt1 : runtime) (avail x : Nat) :
    (0 < depth W rt →
      (pop W rt).1 = top rt ∧
      depth W (pop W rt).2 + 1 = depth W rt ∧
      (pop W rt).2.slots = rt.slots ∧
      (pop W rt).2.Error = rt.Error ∧
      (pop W rt).2.StackBottom = rt.StackBottom ∧
      (∀ k, k + 1 < depth W rt →
        (stack W (pop W rt).2 k).1 = (stack W rt (k + 1)).1)) ∧
    (rt.StackBottom ≤ rt.StackTop →
      (pop W rt).1 = 0 ∧
      (pop W rt).2.Error = some "Not enough arguments" ∧
      (pop W rt).2.StackTop = rt.StackTop ∧
      (pop W rt).2.StackBottom = rt.StackBottom ∧
      (pop W rt).2.slots = rt.slots) ∧
    (available_size W size rt W = some (rt1, avail) → W ≤ avail → 0 < W →
      W ≤ rt.StackTop → rt.StackTop ≤ rt.StackBottom →
      ∃ rt', push W size rt x = some rt' ∧
        (pop W rt').1 = x ∧
        (pop W rt').2.StackTop = rt.StackTop ∧
        (pop W rt').2.StackBottom = rt.StackBottom ∧
        depth W (pop W rt').2 = depth W rt ∧
        (pop W rt').2.Error = rt.Error ∧
        (∀ a, a ≠ rt.StackTop - W → (pop W rt').2.slots a = rt1.slots a) ∧
        (W ≤ available W rt → rt1 = rt)) := by
  refine ⟨?_, ?_, ?_⟩
  · intro hd
    obtain ⟨hW, hle⟩ := depth_pos W rt 0 hd
    simp only [Nat.zero_add, Nat.one_mul] at hle
    have hlt : rt.StackTop < rt.StackBottom := by omega
    have hpop : pop W rt = (rt.slots rt.StackTop, { rt with StackTop := rt.StackTop + W }) := by
      unfold pop
      rw [if_neg (by omega)]
    have hdep : depth W { rt with StackTop := rt.StackTop + W } + 1 = depth W rt := by
      simp only [depth]
      have : rt.StackBottom - rt.StackTop = (rt.StackBottom - (rt.StackTop + W)) + W := by
        omega
      rw [this, Nat.add_div_right _ hW]
    rw [hpop]
    refine ⟨by simp [top, hlt], hdep, rfl, rfl, rfl, ?_⟩
    intro k hk
    unfold stack
    simp only
    rw [if_neg (by omega), if_neg (by omega)]
    show rt.slots (rt.StackTop + W + k * W) = rt.slots (rt.StackTop + (k + 1) * W)
    rw [Nat.succ_mul]
    congr 1
    omega
  · intro he
    unfold pop
    rw [if_pos (by omega)]
    simp [error]
  · intro hroom hav hW hlow hord
    obtain ⟨hT, hB, hE, hsame⟩ := available_size_cursors W size rt rt1 W avail hroom
    refine ⟨_, push_of_room W size rt rt1 avail x hroom hav, ?_⟩
    unfold pop
    rw [if_neg (by simp only [hT, hB]; omega)]
    simp only [hT, hB, hE, depth]
    refine ⟨by simp, by omega, trivial, ?_, trivial, ?_, hsame⟩
    · congr 1
      omega
    · intro a ha
      rw [← hT] at ha
      exact Function.update_noteq ha _ _

/-- Witness for `pop_contract`: the three-slot stack `demoStack`, the same
    arena with an empty stack, and `push(44)` followed by `pop()`. -/
theorem pop_contract_witness :
    (0 < depth 4 demoStack ∧ (pop 4 demoStack).1 = 11 ∧
      depth 4 (pop 4 demoStack).2 + 1 = depth 4 demoStack) ∧
    ((pop 4 { demoStack with StackTop := 140 }).1 = 0 ∧
      (pop 4 { demoStack with StackTop := 140 }).2.Error
        = some "Not enough arguments") ∧
    (∃ rt', push 4 demoSize demoStack 44 = some rt' ∧ (pop 4 rt').1 = 44 ∧
      (pop 4 rt').2.StackTop = demoStack.StackTop) := by
  have h1 := (pop_contract 4 demoSize demoStack demoStack 4 44).1 (by decide)
  have h2 := (pop_contract 4 demoSize { demoStack with StackTop := 140 }
    demoStack 4 44).2.1 (by decide)
  obtain ⟨rt', h3, h4, h5, -⟩ := (pop_contract 4 demoSize demoStack demoStack 4 44).2.2
    rfl (by decide) (by decide) (by decide) (by decide)
  exact ⟨⟨by decide, h1.1, h1.2.1⟩, ⟨h2.1, h2.2.1⟩, ⟨rt', h3, h4, h5⟩⟩

/-- What `push(obj)` does when fewer than `sizeof(obj)` bytes are available
    and the collection recycles fewer than `sizeof(obj)` bytes: it returns in
    the state the collection produced, with the cursors of the stack and the
    error slot as before the call. -/
theorem push_gives_up (W : Nat) (size : (Nat → Nat) → Nat → Nat)
    (rt rt1 : runtime) (recycled obj : Nat)
    (hlow : available W rt < W)
    (hgc : gc W size rt = some (rt1, recycled)) (hrec : recycled < W) :
    push W size rt obj = some rt1 ∧
    rt1.StackTop = rt.StackTop ∧ rt1.StackBottom = rt.StackBottom ∧
    depth W rt1 = depth W rt ∧ rt1.Error = rt.Error := by
  obtain ⟨h1, -, -, -, -, -, h7, h8, -, -⟩ := gc_cursors W size rt rt1 recycled hgc
  refine ⟨?_, h7, h8, by simp [depth, h7, h8], h1⟩
  unfold push available_size
  rw [if_pos hlow, hgc]
  simp only
  rw [if_pos hrec]

/-- C9 (evaluation of the code): in the full arena `demoFull` (2 bytes
    available, nothing to recycle, a slot takes 4) `push(7)` gives up and
    leaves the stack as it was, but the error slot is still null; on the same
    state and the same test, `call(99)` sets "Too many recursive calls". -/
theorem push_failure_not_reported :
    demoFull.Error = none ∧ available 4 demoFull = 2 ∧
    (gc 4 demoSize demoFull).map (fun r => (r.2, available 4 r.1)) = some (0, 2) ∧
    (push 4 demoSize demoFull 7).map
        (fun r => (r.Error, r.StackTop, depth 4 r, top r))
      = some (none, 116, 1, 100) ∧
    (call 4 demoSize demoFull 99).map (fun r => r.Error)
      = some (some "Too many recursive calls") := by
  decide

/-- C10: for `k < depth()`, `stack(k)` returns slot `k` from the top and
    leaves the state (hence the error slot) as it is, and `stack(k, o)`
    overwrites slot `k` only: every other slot, `depth()`, the cursors and the
    error slot are unchanged.  For `k >= depth()` both forms set "Insufficient
    stack depth" and leave the stack unchanged, the read returning null. -/
theorem stack_indexed_access (W : Nat) (rt : runtime) (k o : Nat) :
    (k < depth W rt →
      stack W rt k = (rt.slots (rt.StackTop + k * W), rt) ∧
      (stack_set W rt k o).slots (rt.StackTop + k * W) = o ∧
      (∀ a, a ≠ rt.StackTop + k * W → (stack_set W rt k o).slots a = rt.slots a) ∧
      (stack W (stack_set W rt k o) k).1 = o ∧
      (∀ j, j ≠ k → (stack W (stack_set W rt k o) j).1 = (stack W rt j).1) ∧
      depth W (stack_set W rt k o) = depth W rt ∧
      (stack_set W rt k o).Error = rt.Error ∧
      (stack_set W rt k o).StackTop = rt.StackTop ∧
      (stack_set W rt k o).StackBottom = rt.StackBottom) ∧
    (depth W rt ≤ k →
      (stack W rt k).1 = 0 ∧
      (stack W rt k).2.Error = some "Insufficient stack depth" ∧
      (stack W rt k).2.slots = rt.slots ∧
      (stack W rt k).2.StackTop = rt.StackTop ∧
      (stack W rt k).2.StackBottom = rt.StackBottom ∧
      (stack_set W rt k o).Error = some "Insufficient stack depth" ∧
      (stack_set W rt k o).slots = rt.slots ∧
      (stack_set W rt k o).StackTop = rt.StackTop ∧
      (stack_set W rt k o).StackBottom = rt.StackBottom) := by
  constructor
  · intro hk
    obtain ⟨hW, -⟩ := depth_pos W rt k hk
    have hset : stack_set W rt k o
        = { rt with slots := Function.update rt.slots (rt.StackTop + k * W) o } := by
      unfold stack_set
      rw [if_neg (by omega)]
    have hdep : depth W (stack_set W rt k o) = depth W rt := by
      rw [hset]; rfl
    refine ⟨?_, ?_, ?_, ?_, ?_, hdep, ?_, ?_, ?_⟩
    · unfold stack
      rw [if_neg (by omega)]
    · rw [hset]; simp
    · intro a ha
      rw [hset]
      exact Function.update_noteq ha _ _
    · unfold stack
      rw [if_neg (by rw [hdep]; omega), hset]
      simp
    · intro j hj
      unfold stack
      rw [hdep]
      by_cases hjd : j ≥ depth W rt
      · rw [if_pos hjd, if_pos hjd]
      · rw [if_neg hjd, if_neg hjd, hset]
        have hne : rt.StackTop + j * W ≠ rt.StackTop + k * W := by
          intro hc
          have : j * W = k * W := by omega
          exact hj (Nat.eq_of_mul_eq_mul_right hW this)
        show Function.update rt.slots (rt.StackTop + k * W) o (rt.StackTop + j * W) = _
        rw [Function.update_noteq hne]
    · rw [hset]
    · rw [hset]
    · rw [hset]
  · intro hk
    have hget : stack W rt k = (0, error rt "Insufficient stack depth") := by
      unfold stack
      rw [if_pos hk]
    have hset : stack_set W rt k o = error rt "Insufficient stack depth" := by
      unfold stack_set
      rw [if_pos hk]
    rw [hget, hset]
    simp [error]

/-- Witness for `stack_indexed_access`: slot 1 of the three-slot stack
    `demoStack`, and the absent slot 3. -/
theorem stack_indexed_access_witness :
    (1 < depth 4 demoStack ∧ stack 4 demoStack 1 = (22, demoStack) ∧
      (stack 4 (stack_set 4 demoStack 1 55) 1).1 = 55 ∧
      (stack 4 (stack_set 4 demoStack 1 55) 2).1 = 33) ∧
    (depth 4 demoStack ≤ 3 ∧ (stack 4 demoStack 3).1 = 0 ∧
      (stack 4 demoStack 3).2.Error = some "Insufficient stack depth" ∧
      (stack_set 4 demoStack 3 55).slots = demoStack.slots) := by
  have h1 := (stack_indexed_access 4 demoStack 1 55).1 (by decide)
  have h2 := (stack_indexed_access 4 demoStack 3 55).2 (by decide)
  refine ⟨⟨by decide, h1.1, h1.2.2.2.1, ?_⟩, ⟨by decide, h2.1, h2.2.1, h2.2.2.2.2.2.2.1⟩⟩
  rw [h1.2.2.2.2.1 2 (by decide)]
  decide


/-! ## The collector: `move` and the scan -/

theorem move_slots (W : Nat) (rt : runtime) (first last to_ s : Nat) :
    (move W rt first last to_).slots s =
      if s ∈ stackAddrs W rt ∧ first ≤ rt.slots s ∧ rt.slots s < last then
        rt.slots s + to_ - first
      else rt.slots s := by
  unfold move
  by_cases h1 : to_ = first
  · subst h1
    rw [if_pos rfl]
    split_ifs <;> omega
  · rw [if_neg h1]
    by_cases h2 : last ≤ first
    · rw [if_pos h2, if_neg (by omega)]
    · rw [if_neg h2]

theorem move_bytes (W : Nat) (rt : runtime) (first last to_ a : Nat) :
    (move W rt first last to_).bytes a =
      if to_ ≤ a ∧ a < to_ + (last - first) then rt.bytes (first + (a - to_))
      else rt.bytes a := by
  unfold move
  by_cases h1 : to_ = first
  · subst h1
    rw [if_pos rfl]
    split_ifs with h
    · congr 1; omega
    · rfl
  · rw [if_neg h1]
    by_cases h2 : last ≤ first
    · rw [if_pos h2, if_neg (by omega)]
    · rw [if_neg h2]

theorem move_GCSafe (W : Nat) (rt : runtime) (first last to_ : Nat) :
    (move W rt first last to_).GCSafe =
      rt.GCSafe.map (fun p =>
        if first ≤ p.safe ∧ p.safe < last then
          { p with safe := p.safe + to_ - first }
        else p) := by
  unfold move
  split_ifs with h1 h2
  · subst h1
    symm
    conv_rhs => rw [← List.map_id rt.GCSafe]
    apply List.map_congr_left
    intro p _
    split_ifs with h
    · cases p
      simp only [id, gcptr.mk.injEq, true_and]
      simp only at h
      omega
    · rfl
  · symm
    conv_rhs => rw [← List.map_id rt.GCSafe]
    apply List.map_congr_left
    intro p _
    rw [if_neg (by omega)]
    rfl
  · rfl

theorem found_iff (W : Nat) (rt : runtime) (obj next : Nat) :
    found W rt obj next = true ↔
      (∃ s ∈ stackAddrs W rt, obj ≤ rt.slots s ∧ rt.slots s < next) ∨
      (∃ p ∈ rt.GCSafe, obj ≤ p.safe ∧ p.safe ≤ next) := by
  unfold found
  simp only [List.any_eq_true, Bool.and_eq_true, decide_eq_true_eq]
  by_cases h : ∃ s ∈ stackAddrs W rt, obj ≤ rt.slots s ∧ rt.slots s < next
  · have hb : ((stackAddrs W rt).any
        (fun s => decide (obj ≤ rt.slots s) && decide (rt.slots s < next))) = true := by
      simpa [List.any_eq_true] using h
    simp [hb, h]
  · have hb : ((stackAddrs W rt).any
        (fun s => decide (obj ≤ rt.slots s) && decide (rt.slots s < next))) = false := by
      rw [Bool.eq_false_iff]
      intro hc
      apply h
      simpa [List.any_eq_true] using hc
    simp only [hb, Bool.not_false, if_true, List.any_eq_true, Bool.and_eq_true,
      decide_eq_true_eq]
    constructor
    · intro hp; exact Or.inr hp
    · rintro (hs | hp)
      · exact absurd hs h
      · exact hp

/-- An object referenced in the half-open sense is found by the scan. -/
theorem found_of_referenced (W : Nat) (rt : runtime) (obj next : Nat)
    (h : referenced W rt obj next) : found W rt obj next = true := by
  rw [found_iff]
  rcases h with ⟨s, hs, h1, h2⟩ | ⟨p, hp, h1, h2⟩
  · exact Or.inl ⟨s, hs, h1, h2⟩
  · exact Or.inr ⟨p, hp, h1, by omega⟩

/-- Moving `[o, n)` down to `free` does not change what the scan finds for an
    object that starts at or after `n`. -/
theorem found_move (W : Nat) (rt : runtime) (o n free o2 n2 : Nat)
    (hfree : free ≤ o) (ho2 : n ≤ o2) :
    found W (move W rt o n free) o2 n2 = found W rt o2 n2 := by
  rw [Bool.eq_iff_iff, found_iff, found_iff,
    stackAddrs_congr W (move_sameCursors W rt o n free), move_GCSafe]
  constructor
  · rintro (⟨s, hs, h1, h2⟩ | ⟨p, hp, h1, h2⟩)
    · rw [move_slots] at h1 h2
      split_ifs at h1 h2 with hc
      · omega
      · exact Or.inl ⟨s, hs, h1, h2⟩
    · rw [List.mem_map] at hp
      obtain ⟨q, hq, rfl⟩ := hp
      split_ifs at h1 h2 with hc
      · simp only at h1; omega
      · exact Or.inr ⟨q, hq, h1, h2⟩
  · rintro (⟨s, hs, h1, h2⟩ | ⟨p, hp, h1, h2⟩)
    · refine Or.inl ⟨s, hs, ?_⟩
      rw [move_slots, if_neg (by omega)]
      exact ⟨h1, h2⟩
    · refine Or.inr ⟨_, List.mem_map_of_mem _ hp, ?_⟩
      rw [if_neg (by omega)]
      exact ⟨h1, h2⟩


/-! ## Chains of objects -/

theorem IsChain_le (size : (Nat → Nat) → Nat → Nat) (m : Nat → Nat) :
    ∀ (os : List (Nat × Nat)) (a b : Nat), IsChain size m a b os → a ≤ b := by
  intro os
  induction os with
  | nil => intro a b h; simp [IsChain] at h; omega
  | cons ob rest ih =>
    intro a b h
    obtain ⟨h1, h2, h3, h4, h5⟩ := h
    omega

theorem IsChain_mem (size : (Nat → Nat) → Nat → Nat) (m : Nat → Nat) :
    ∀ (os : List (Nat × Nat)) (a b : Nat), IsChain size m a b os →
      ∀ ob ∈ os, a ≤ ob.1 ∧ ob.1 < ob.2 ∧ ob.2 ≤ b ∧ ob.2 = ob.1 + size m ob.1 := by
  intro os
  induction os with
  | nil => intro a b _ ob hob; simp at hob
  | cons hd rest ih =>
    intro a b h ob hob
    obtain ⟨h1, h2, h3, h4, h5⟩ := h
    rcases List.mem_cons.mp hob with rfl | hr
    · refine ⟨by omega, by omega, h4, ?_⟩
      rw [h2, h1]
    · obtain ⟨g1, g2, g3, g4⟩ := ih _ _ h5 ob hr
      exact ⟨by omega, g2, g3, g4⟩

theorem IsChain_totalSize (size : (Nat → Nat) → Nat → Nat) (m : Nat → Nat) :
    ∀ (os : List (Nat × Nat)) (a b : Nat), IsChain size m a b os →
      a + totalSize os = b ∧ os.length ≤ totalSize os := by
  intro os
  induction os with
  | nil => intro a b h; simp [IsChain] at h; simp [totalSize, h]
  | cons hd rest ih =>
    intro a b h
    obtain ⟨h1, h2, h3, h4, h5⟩ := h
    obtain ⟨g1, g2⟩ := ih _ _ h5
    simp only [totalSize, List.map_cons, List.sum_cons, List.length_cons] at *
    omega

theorem totalSize_split (keep : Nat → Nat → Bool) (os : List (Nat × Nat)) :
    totalSize (survivors keep os) + totalSize (recycledObjects keep os)
      = totalSize os := by
  induction os with
  | nil => rfl
  | cons hd rest ih =>
    unfold survivors recycledObjects totalSize at *
    by_cases hk : keep hd.1 hd.2 = true
    · simp only [List.filter_cons, hk, if_true, Bool.not_true, List.map_cons,
        List.sum_cons] at *
      simp only [Bool.false_eq_true, if_false]
      omega
    · simp only [Bool.not_eq_true] at hk
      simp only [List.filter_cons, hk, Bool.not_false, if_true, List.map_cons,
        List.sum_cons] at *
      simp only [Bool.false_eq_true, if_false]
      omega

theorem IsChain_congr (size : (Nat → Nat) → Nat → Nat) (hsz : SizeByContent size)
    (m m' : Nat → Nat) :
    ∀ (os : List (Nat × Nat)) (a b : Nat), (∀ x, a ≤ x → m' x = m x) →
      IsChain size m a b os → IsChain size m' a b os := by
  intro os
  induction os with
  | nil => intro a b _ h; exact h
  | cons hd rest ih =>
    intro a b hm h
    obtain ⟨h1, h2, h3, h4, h5⟩ := h
    have hs : size m' a = size m a := hsz m m' a a (fun i _ => hm _ (by omega))
    refine ⟨h1, by rw [hs]; exact h2, by rw [hs]; exact h3, h4, ?_⟩
    exact ih _ _ (fun x hx => hm x (by omega)) h5

theorem heapWalk_chain (size : (Nat → Nat) → Nat → Nat) (m : Nat → Nat)
    (last : Nat) : ∀ (fuel a : Nat) (os : List (Nat × Nat)),
      heapWalk size m last fuel a = some os → IsChain size m a last os := by
  intro fuel
  induction fuel with
  | zero => intro a os h; simp [heapWalk] at h
  | succ n ih =>
    intro a os h
    simp only [heapWalk] at h
    split_ifs at h with h1 h2
    · cases h; exact h1
    · rw [Option.map_eq_some'] at h
      obtain ⟨rest, hr, rfl⟩ := h
      exact ⟨rfl, rfl, h2.1, h2.2, ih _ _ hr⟩

theorem chain_heapWalk (size : (Nat → Nat) → Nat → Nat) (m : Nat → Nat)
    (last : Nat) : ∀ (os : List (Nat × Nat)) (fuel a : Nat),
      IsChain size m a last os → os.length < fuel →
      heapWalk size m last fuel a = some os := by
  intro os
  induction os with
  | nil =>
    intro fuel a h hf
    cases fuel with
    | zero => omega
    | succ n => simp only [IsChain] at h; simp [heapWalk, h]
  | cons hd rest ih =>
    intro fuel a h hf
    cases fuel with
    | zero => omega
    | succ n =>
      obtain ⟨h1, h2, h3, h4, h5⟩ := h
      have hle := IsChain_le size m rest _ _ h5
      simp only [heapWalk]
      rw [if_neg (by omega), if_pos ⟨h3, by omega⟩]
      rw [← h2, ih n hd.2 h5 (by simp at hf; omega)]
      simp only [Option.map_some']
      congr 2
      rw [← h1]

/-! ## Relocation -/

theorem relocate_outside (size : (Nat → Nat) → Nat → Nat) (m : Nat → Nat)
    (keep : Nat → Nat → Bool) :
    ∀ (os : List (Nat × Nat)) (a b free x : Nat), IsChain size m a b os →
      (x < a ∨ b ≤ x) → relocate keep os free x = x := by
  intro os
  induction os with
  | nil => intro a b free x _ _; rfl
  | cons hd rest ih =>
    intro a b free x h hx
    obtain ⟨h1, h2, h3, h4, h5⟩ := h
    have hle := IsChain_le size m rest _ _ h5
    simp only [relocate]
    split_ifs with hk hin
    · omega
    · exact ih _ _ _ _ h5 (by omega)
    · exact ih _ _ _ _ h5 (by omega)

theorem relocate_inside (size : (Nat → Nat) → Nat → Nat) (m : Nat → Nat)
    (keep : Nat → Nat → Bool) :
    ∀ (os : List (Nat × Nat)) (a b free : Nat), IsChain size m a b os →
      ∀ ob ∈ os, keep ob.1 ob.2 = true →
        free ≤ relocate keep os free ob.1 ∧
        relocate keep os free ob.1 + (ob.2 - ob.1)
          ≤ free + totalSize (survivors keep os) ∧
        ∀ x, ob.1 ≤ x → x < ob.2 →
          relocate keep os free x = relocate keep os free ob.1 + (x - ob.1) := by
  intro os
  induction os with
  | nil => intro a b free _ ob hob; simp at hob
  | cons hd rest ih =>
    intro a b free h ob hob hk
    obtain ⟨h1, h2, h3, h4, h5⟩ := h
    have hts : ∀ k : Bool, totalSize (survivors keep (hd :: rest)) =
        (if keep hd.1 hd.2 = true then hd.2 - hd.1 else 0)
          + totalSize (survivors keep rest) := by
      intro _
      unfold survivors totalSize
      by_cases hkh : keep hd.1 hd.2 = true
      · simp [List.filter_cons, hkh]
      · simp [List.filter_cons, hkh]
    rcases List.mem_cons.mp hob with rfl | hr
    · simp only [relocate, hk, if_true]
      rw [hts true, if_pos hk]
      refine ⟨?_, ?_, ?_⟩
      · rw [if_pos ⟨le_refl _, by omega⟩]; omega
      · rw [if_pos ⟨le_refl _, by omega⟩]; omega
      · intro x hx1 hx2
        rw [if_pos ⟨hx1, hx2⟩, if_pos ⟨le_refl _, by omega⟩]
        omega
    · obtain ⟨g1, g2, g3, g4⟩ := IsChain_mem size m rest _ _ h5 ob hr
      have hnot : ∀ x, ob.1 ≤ x → ¬ (hd.1 ≤ x ∧ x < hd.2) := by
        intro x hx; omega
      simp only [relocate]
      rw [hts true]
      by_cases hkh : keep hd.1 hd.2 = true
      · simp only [hkh, if_true]
        obtain ⟨i1, i2, i3⟩ := ih _ _ (free + (hd.2 - hd.1)) h5 ob hr hk
        rw [if_neg (hnot _ (le_refl _))]
        refine ⟨by omega, by omega, ?_⟩
        intro x hx1 hx2
        rw [if_neg (hnot _ hx1)]
        exact i3 x hx1 hx2
      · rw [if_neg hkh, if_neg hkh]
        obtain ⟨i1, i2, i3⟩ := ih _ _ free h5 ob hr hk
        refine ⟨i1, by omega, ?_⟩
        intro x hx1 hx2
        rw [if_neg hkh]
        exact i3 x hx1 hx2


/-! ## The heap walk of the collector -/

theorem totalSize_survivors_cons (keep : Nat → Nat → Bool) (hd : Nat × Nat)
    (rest : List (Nat × Nat)) :
    totalSize (survivors keep (hd :: rest)) =
      (if keep hd.1 hd.2 = true then hd.2 - hd.1 else 0)
        + totalSize (survivors keep rest) := by
  unfold survivors totalSize
  by_cases hkh : keep hd.1 hd.2 = true
  · simp [List.filter_cons, hkh]
  · simp [List.filter_cons, hkh]

theorem totalSize_recycled_cons (keep : Nat → Nat → Bool) (hd : Nat × Nat)
    (rest : List (Nat × Nat)) :
    totalSize (recycledObjects keep (hd :: rest)) =
      (if keep hd.1 hd.2 = true then 0 else hd.2 - hd.1)
        + totalSize (recycledObjects keep rest) := by
  unfold recycledObjects totalSize
  by_cases hkh : keep hd.1 hd.2 = true
  · simp [List.filter_cons, hkh]
  · simp [List.filter_cons, hkh]

theorem gcptr_eta (p : gcptr) : ({ p with safe := p.safe } : gcptr) = p := by
  cases p; rfl

/-- Effect of the heap walk started at `obj` on a chain `os` of objects: the
    retained objects are packed from `free` upwards, every stack slot and every
    safe pointer is relocated, and the bytes of the retained objects are
    copied. -/
theorem gc_loop_spec (W : Nat) (size : (Nat → Nat) → Nat → Nat)
    (hsz : SizeByContent size) (keep : Nat → Nat → Bool) (last : Nat) :
    ∀ (os : List (Nat × Nat)) (fuel : Nat) (rt : runtime) (obj free recycled : Nat),
      IsChain size rt.bytes obj last os →
      os.length < fuel →
      free ≤ obj →
      (∀ ob ∈ os, found W rt ob.1 ob.2 = keep ob.1 ob.2) →
      ∃ rt', gc_loop W size last fuel rt obj free recycled
          = some (rt', free + totalSize (survivors keep os),
              recycled + totalSize (recycledObjects keep os)) ∧
        (∀ s, rt'.slots s =
          if s ∈ stackAddrs W rt then relocate keep os free (rt.slots s)
          else rt.slots s) ∧
        rt'.GCSafe =
          rt.GCSafe.map (fun p => { p with safe := relocate keep os free p.safe }) ∧
        (∀ a, a < free ∨ last ≤ a → rt'.bytes a = rt.bytes a) ∧
        (∀ ob ∈ os, keep ob.1 ob.2 = true → ∀ i, i < ob.2 - ob.1 →
          rt'.bytes (relocate keep os free ob.1 + i) = rt.bytes (ob.1 + i)) := by
  intro os
  induction os with
  | nil =>
    intro fuel rt obj free recycled hch hf _ _
    simp only [IsChain] at hch
    cases fuel with
    | zero => simp at hf
    | succ n =>
      refine ⟨rt, ?_, ?_, ?_, ?_, ?_⟩
      · simp only [gc_loop]
        rw [if_neg (by omega)]
        simp [survivors, recycledObjects, totalSize]
      · intro s; simp [relocate]
      · simp only [relocate, gcptr_eta]
        exact (List.map_id _).symm
      · intro a _; rfl
      · intro ob hob; simp at hob
  | cons hd rest ih =>
    intro fuel rt obj free recycled hch hf hfree hkeep
    obtain ⟨h1, h2, h3, h4, h5⟩ := hch
    obtain ⟨o, nx⟩ := hd
    simp only at h1 h2 h3 h4 h5
    subst h1
    cases fuel with
    | zero => simp at hf
    | succ n =>
      have hlen : rest.length < n := by simp at hf; omega
      have hnext : skip size rt o = nx := by rw [h2]; rfl
      have hfound : found W rt o nx = keep o nx :=
        hkeep (o, nx) (List.mem_cons_self _ _)
      have hrestmem := IsChain_mem size rt.bytes rest _ _ h5
      simp only [gc_loop]
      rw [if_pos (by omega), hnext, hfound]
      rw [totalSize_survivors_cons, totalSize_recycled_cons]
      simp only [relocate]
      by_cases hk : keep o nx = true
      · -- the object is live: it moves down to `free`
        simp only [hk, if_true]
        have hbytes_hi : ∀ x, nx ≤ x →
            (move W rt o nx free).bytes x = rt.bytes x := by
          intro x hx
          rw [move_bytes, if_neg (by omega)]
        obtain ⟨rt', e1, e2, e3, e4, e5⟩ := ih n (move W rt o nx free) nx
          (free + (nx - o)) recycled
          (IsChain_congr size hsz rt.bytes _ rest _ _ hbytes_hi h5) hlen (by omega)
          (fun ob hob => by
            rw [found_move W rt o nx free ob.1 ob.2 hfree (hrestmem ob hob).1]
            exact hkeep ob (List.mem_cons_of_mem _ hob))
        refine ⟨rt', ?_, ?_, ?_, ?_, ?_⟩
        · rw [e1]
          simp only [Option.some.injEq, Prod.mk.injEq, true_and]
          constructor <;> omega
        · intro s
          rw [e2 s, stackAddrs_congr W (move_sameCursors W rt o nx free), move_slots]
          by_cases hs : s ∈ stackAddrs W rt
          · rw [if_pos hs, if_pos hs]
            by_cases hin : o ≤ rt.slots s ∧ rt.slots s < nx
            · rw [if_pos ⟨hs, hin⟩, if_pos hin]
              rw [relocate_outside size rt.bytes keep rest _ _ _ _ h5 (Or.inl (by omega))]
              omega
            · rw [if_neg (fun hc => hin hc.2), if_neg hin]
          · rw [if_neg hs, if_neg hs, if_neg (fun hc => hs hc.1)]
        · rw [e3, move_GCSafe, List.map_map]
          apply List.map_congr_left
          intro p _
          simp only [Function.comp]
          by_cases hin : o ≤ p.safe ∧ p.safe < nx
          · rw [if_pos hin, if_pos hin]
            simp only
            rw [relocate_outside size rt.bytes keep rest _ _ _ _ h5 (Or.inl (by omega))]
            congr 1
            omega
          · rw [if_neg hin, if_neg hin]
        · intro a ha
          rw [e4 a (by omega), move_bytes, if_neg (by omega)]
        · intro ob hob hkob i hi
          rcases List.mem_cons.mp hob with rfl | hr
          · simp only at hi
            rw [if_pos ⟨le_refl _, by omega⟩]
            rw [e4 _ (Or.inl (by omega)), move_bytes, if_pos (by omega)]
            congr 1
            omega
          · obtain ⟨g1, g2, g3, g4⟩ := hrestmem ob hr
            rw [if_neg (by omega), e5 ob hr hkob i hi, hbytes_hi _ (by omega)]
      · -- the object is dead: it is skipped
        simp only [hk, Bool.false_eq_true, if_false]
        obtain ⟨rt', e1, e2, e3, e4, e5⟩ := ih n rt nx free
          (recycled + (nx - o)) h5 hlen (by omega)
          (fun ob hob => hkeep ob (List.mem_cons_of_mem _ hob))
        refine ⟨rt', ?_, e2, e3, e4, ?_⟩
        · rw [e1]
          simp only [Option.some.injEq, Prod.mk.injEq, true_and]
          constructor <;> omega
        · intro ob hob hkob i hi
          rcases List.mem_cons.mp hob with rfl | hr
          · exact absurd hkob hk
          · exact e5 ob hr hkob i hi


/-! ## The whole collection -/

theorem gc_finish_slots (W : Nat) (rt : runtime) (recycled s : Nat) :
    (gc_finish W rt recycled).slots s =
      if s ∈ stackAddrs W rt then editorShift rt recycled (rt.slots s)
      else rt.slots s := by
  unfold gc_finish editorShift
  by_cases hE : rt.Editing ≠ 0
  · simp only [hE, if_true, ne_eq, not_false_eq_true]
    rw [move_slots]
    by_cases hs : s ∈ stackAddrs W rt
    · simp only [hs, true_and, if_true]
    · simp only [hs, false_and, if_false]
  · simp only [hE, if_false]
    have h0 : rt.Editing = 0 := by omega
    by_cases hs : s ∈ stackAddrs W rt
    · rw [if_pos hs, if_neg (by omega)]
    · rw [if_neg hs]

theorem gc_finish_GCSafe (W : Nat) (rt : runtime) (recycled : Nat) :
    (gc_finish W rt recycled).GCSafe =
      rt.GCSafe.map (fun p => { p with safe := editorShift rt recycled p.safe }) := by
  unfold gc_finish editorShift
  by_cases hE : rt.Editing ≠ 0
  · simp only [hE, if_true, ne_eq, not_false_eq_true]
    rw [move_GCSafe]
    apply List.map_congr_left
    intro p _
    split_ifs with h
    · rfl
    · exact (gcptr_eta p).symm
  · simp only [hE, if_false]
    have h0 : rt.Editing = 0 := by omega
    conv_lhs => rw [← List.map_id rt.GCSafe]
    apply List.map_congr_left
    intro p _
    rw [if_neg (by omega)]
    exact (gcptr_eta p).symm

theorem gc_finish_bytes (W : Nat) (rt : runtime) (recycled a : Nat)
    (ha : a < rt.Temporaries - recycled) :
    (gc_finish W rt recycled).bytes a = rt.bytes a := by
  unfold gc_finish
  by_cases hE : rt.Editing ≠ 0
  · simp only [hE, if_true, ne_eq, not_false_eq_true]
    rw [move_bytes, if_neg (by omega)]
  · simp only [hE, if_false]

/-- Summary of `gc()` on a well-formed heap whose objects are `os`. -/
theorem gc_spec (W : Nat) (size : (Nat → Nat) → Nat → Nat)
    (hsz : SizeByContent size) (rt : runtime) (os : List (Nat × Nat))
    (hwf : heapObjects size rt = some os) :
    ∃ rt', gc W size rt
        = some (rt', totalSize (recycledObjects (found W rt) os)) ∧
      rt.Globals + totalSize (survivors (found W rt) os)
        + totalSize (recycledObjects (found W rt) os) = rt.Temporaries ∧
      rt'.Temporaries = rt.Globals + totalSize (survivors (found W rt) os) ∧
      (∀ s, rt'.slots s =
        if s ∈ stackAddrs W rt then
          editorShift rt (totalSize (recycledObjects (found W rt) os))
            (newAddress W rt os (rt.slots s))
        else rt.slots s) ∧
      rt'.GCSafe = rt.GCSafe.map (fun p =>
        { p with safe :=
            (editorShift rt (totalSize (recycledObjects (found W rt) os))
              (newAddress W rt os p.safe)) }) ∧
      (∀ ob ∈ os, found W rt ob.1 ob.2 = true → ∀ i, i < ob.2 - ob.1 →
        rt'.bytes (newAddress W rt os ob.1 + i) = rt.bytes (ob.1 + i)) := by
  have hch : IsChain size rt.bytes rt.Globals rt.Temporaries os :=
    heapWalk_chain size rt.bytes rt.Temporaries _ _ _ hwf
  obtain ⟨htot, hlen⟩ := IsChain_totalSize size rt.bytes os _ _ hch
  have hsplit := totalSize_split (found W rt) os
  obtain ⟨rt1, e1, e2, e3, e4, e5⟩ := gc_loop_spec W size hsz (found W rt)
    rt.Temporaries os (rt.Temporaries - rt.Globals + 1) rt rt.Globals rt.Globals 0
    hch (by omega) (le_refl _) (fun _ _ => rfl)
  have hc := gc_loop_sameCursors W size _ _ _ _ _ _ _ e1
  obtain ⟨-, -, -, c4, c5, c6, -, -, -, -⟩ := hc
  simp only at c4 c5 c6
  have hshift : ∀ v, editorShift rt1 (totalSize (recycledObjects (found W rt) os)) v
      = editorShift rt (totalSize (recycledObjects (found W rt) os)) v := by
    intro v; simp only [editorShift, c5, c6]
  refine ⟨gc_finish W rt1 (totalSize (recycledObjects (found W rt) os)), ?_, by omega,
    ?_, ?_, ?_, ?_⟩
  · unfold gc
    rw [e1]
    simp only [Nat.zero_add]
  · rw [(gc_finish_sameCursors W rt1 _).2, c5]
    omega
  · intro s
    rw [gc_finish_slots, stackAddrs_congr W (gc_loop_sameCursors W size _ _ _ _ _ _ _ e1)]
    by_cases hs : s ∈ stackAddrs W rt
    · rw [if_pos hs, if_pos hs, hshift, e2 s, if_pos hs]
      rfl
    · rw [if_neg hs, if_neg hs, e2 s, if_neg hs]
  · rw [gc_finish_GCSafe, e3, List.map_map]
    apply List.map_congr_left
    intro p _
    simp only [Function.comp, hshift]
    rfl
  · intro ob hob hk i hi
    obtain ⟨g1, g2, g3⟩ := relocate_inside size rt.bytes (found W rt) os _ _ rt.Globals
      hch ob hob hk
    rw [gc_finish_bytes W rt1 _ _ (by unfold newAddress; omega)]
    exact e5 ob hob hk i hi

/-- The retained objects, at their new addresses, form a chain from `free`. -/
theorem survivors_chain (size : (Nat → Nat) → Nat → Nat) (hsz : SizeByContent size)
    (keep : Nat → Nat → Bool) (m m' : Nat → Nat) :
    ∀ (os : List (Nat × Nat)) (a b free : Nat), IsChain size m a b os →
      (∀ ob ∈ os, keep ob.1 ob.2 = true → ∀ i, i < ob.2 - ob.1 →
        m' (relocate keep os free ob.1 + i) = m (ob.1 + i)) →
      IsChain size m' free (free + totalSize (survivors keep os))
        ((survivors keep os).map (fun ob =>
          (relocate keep os free ob.1, relocate keep os free ob.1 + (ob.2 - ob.1)))) := by
  intro os
  induction os with
  | nil =>
    intro a b free _ _
    simp [survivors, totalSize, IsChain]
  | cons hd rest ih =>
    intro a b free hch hm
    obtain ⟨h1, h2, h3, h4, h5⟩ := hch
    obtain ⟨o, nx⟩ := hd
    simp only at h1 h2 h3 h4 h5
    subst h1
    have hrestmem := IsChain_mem size m rest _ _ h5
    rw [totalSize_survivors_cons]
    by_cases hk : keep o nx = true
    · have hrel : ∀ ob ∈ rest, relocate keep ((o, nx) :: rest) free ob.1
          = relocate keep rest (free + (nx - o)) ob.1 := by
        intro ob hob
        obtain ⟨g1, -, -, -⟩ := hrestmem ob hob
        simp only [relocate]
        rw [if_pos hk, if_neg (by omega)]
      have hhead : relocate keep ((o, nx) :: rest) free o = free := by
        simp only [relocate]
        rw [if_pos hk, if_pos ⟨le_refl _, by omega⟩]
        omega
      have hsize : size m' free = size m o := by
        apply hsz
        intro i hi
        have := hm (o, nx) (List.mem_cons_self _ _) hk i (by simp only; omega)
        rw [hhead] at this
        exact this
      have ih' := ih nx b (free + (nx - o)) h5 (fun ob hob hkob i hi => by
        rw [← hrel ob hob]
        exact hm ob (List.mem_cons_of_mem _ hob) hkob i hi)
      have hsurv : survivors keep ((o, nx) :: rest) = (o, nx) :: survivors keep rest := by
        simp [survivors, List.filter_cons, hk]
      rw [hsurv, List.map_cons, if_pos hk]
      simp only
      rw [hhead]
      refine ⟨rfl, by rw [hsize]; omega, by rw [hsize]; exact h3, by omega, ?_⟩
      have hmap : (survivors keep rest).map (fun ob =>
            (relocate keep ((o, nx) :: rest) free ob.1,
              relocate keep ((o, nx) :: rest) free ob.1 + (ob.2 - ob.1)))
          = (survivors keep rest).map (fun ob =>
            (relocate keep rest (free + (nx - o)) ob.1,
              relocate keep rest (free + (nx - o)) ob.1 + (ob.2 - ob.1))) := by
        apply List.map_congr_left
        intro ob hob
        have hob' : ob ∈ rest := (List.mem_filter.mp hob).1
        rw [hrel ob hob']
      rw [hmap]
      have e : free + (nx - o + totalSize (survivors keep rest))
          = free + (nx - o) + totalSize (survivors keep rest) := by omega
      rw [e]
      exact ih'
    · have hrel : ∀ x, relocate keep ((o, nx) :: rest) free x
          = relocate keep rest free x := by
        intro x
        simp only [relocate]
        rw [if_neg hk]
      have hsurv : survivors keep ((o, nx) :: rest) = survivors keep rest := by
        simp [survivors, List.filter_cons, hk]
      rw [hsurv, if_neg hk, Nat.zero_add]
      simp only [hrel]
      exact ih nx b free h5 (fun ob hob hkob i hi => by
        rw [← hrel]
        exact hm ob (List.mem_cons_of_mem _ hob) hkob i hi)


/-! ## Properties of the collector -/

theorem demoSize_byContent : SizeByContent demoSize := by
  intro m m' o o' h
  have := h 0 (by simp [demoSize])
  simp only [Nat.add_zero] at this
  simp [demoSize, this]

theorem mem_survivors (keep : Nat → Nat → Bool) (os : List (Nat × Nat))
    (ob : Nat × Nat) :
    ob ∈ survivors keep os ↔ ob ∈ os ∧ keep ob.1 ob.2 = true := by
  simp [survivors, List.mem_filter]

/-- C1: on a well-formed heap `gc()` returns, and every object into which a
    stack slot or a safe pointer points is among the survivors; each survivor
    is found byte for byte at its new address; the survivors are a sublist of
    the original objects (same relative order), and after the collection the
    heap walk from `Globals` to the new `Temporaries` meets exactly the
    survivors at their new addresses, laid end to end with their sizes. -/
theorem gc_soundness (W : Nat) (size : (Nat → Nat) → Nat → Nat)
    (hsz : SizeByContent size) (rt : runtime) (os : List (Nat × Nat))
    (hwf : heapObjects size rt = some os) :
    ∃ rt' recycled, gc W size rt = some (rt', recycled) ∧
      (∀ ob ∈ os, referenced W rt ob.1 ob.2 → ob ∈ survivors (found W rt) os) ∧
      (∀ ob ∈ survivors (found W rt) os, ∀ i, i < ob.2 - ob.1 →
        rt'.bytes (newAddress W rt os ob.1 + i) = rt.bytes (ob.1 + i)) ∧
      (survivors (found W rt) os).Sublist os ∧
      rt'.Globals = rt.Globals ∧
      heapObjects size rt' = some ((survivors (found W rt) os).map (fun ob =>
        (newAddress W rt os ob.1, newAddress W rt os ob.1 + (ob.2 - ob.1)))) := by
  obtain ⟨rt', hgc, htot, hT, -, -, hbytes⟩ := gc_spec W size hsz rt os hwf
  have hG : rt'.Globals = rt.Globals := (gc_cursors W size rt rt' _ hgc).2.2.2.1
  have hch : IsChain size rt.bytes rt.Globals rt.Temporaries os :=
    heapWalk_chain size rt.bytes rt.Temporaries _ _ _ hwf
  refine ⟨rt', _, hgc, ?_, ?_, List.filter_sublist _, hG, ?_⟩
  · intro ob hob href
    exact (mem_survivors _ _ _).mpr ⟨hob, found_of_referenced W rt _ _ href⟩
  · intro ob hob i hi
    obtain ⟨h1, h2⟩ := (mem_survivors _ _ _).mp hob
    exact hbytes ob h1 h2 i hi
  · have hnew := survivors_chain size hsz (found W rt) rt.bytes rt'.bytes os
      rt.Globals rt.Temporaries rt.Globals hch hbytes
    obtain ⟨-, hlen⟩ := IsChain_totalSize size rt'.bytes _ _ _ hnew
    unfold heapObjects
    rw [hT, hG]
    apply chain_heapWalk size rt'.bytes _ _ _ _ hnew
    have hts : totalSize ((survivors (found W rt) os).map (fun ob =>
        (relocate (found W rt) os rt.Globals ob.1,
          relocate (found W rt) os rt.Globals ob.1 + (ob.2 - ob.1))))
        = totalSize (survivors (found W rt) os) := by
      unfold totalSize
      rw [List.map_map]
      congr 1
      apply List.map_congr_left
      intro ob _
      simp only [Function.comp]
      omega
    rw [hts] at hlen
    omega

/-- Witness for `gc_soundness`: the heap of `demoHeap 4`, a dead 4-byte object
    followed by a 3-byte object referenced from the stack. -/
theorem gc_soundness_witness :
    heapObjects demoSize (demoHeap 4) = some [(100, 104), (104, 107)] ∧
    ∃ rt' recycled, gc 4 demoSize (demoHeap 4) = some (rt', recycled) ∧
      (∀ ob ∈ [(100, 104), (104, 107)], referenced 4 (demoHeap 4) ob.1 ob.2 →
        ob ∈ survivors (found 4 (demoHeap 4)) [(100, 104), (104, 107)]) ∧
      (∀ ob ∈ survivors (found 4 (demoHeap 4)) [(100, 104), (104, 107)],
        ∀ i, i < ob.2 - ob.1 →
          rt'.bytes (newAddress 4 (demoHeap 4) [(100, 104), (104, 107)] ob.1 + i)
            = (demoHeap 4).bytes (ob.1 + i)) ∧
      (survivors (found 4 (demoHeap 4)) [(100, 104), (104, 107)]).Sublist
        [(100, 104), (104, 107)] ∧
      rt'.Globals = (demoHeap 4).Globals ∧
      heapObjects demoSize rt' =
        some ((survivors (found 4 (demoHeap 4)) [(100, 104), (104, 107)]).map
          (fun ob => (newAddress 4 (demoHeap 4) [(100, 104), (104, 107)] ob.1,
            newAddress 4 (demoHeap 4) [(100, 104), (104, 107)] ob.1 + (ob.2 - ob.1)))) :=
  ⟨by decide,
    gc_soundness 4 demoSize demoSize_byContent (demoHeap 4) _ (by decide)⟩


/-- New address of a reference into a retained object: the object's new
    address plus the offset, below the new `Temporaries`, hence outside the
    editor buffer. -/
theorem newAddress_inside (W : Nat) (size : (Nat → Nat) → Nat → Nat)
    (rt : runtime) (os : List (Nat × Nat))
    (hch : IsChain size rt.bytes rt.Globals rt.Temporaries os)
    (ob : Nat × Nat) (hob : ob ∈ os) (hk : found W rt ob.1 ob.2 = true)
    (v : Nat) (h1 : ob.1 ≤ v) (h2 : v < ob.2) :
    editorShift rt (totalSize (recycledObjects (found W rt) os)) (newAddress W rt os v)
      = newAddress W rt os ob.1 + (v - ob.1) ∧
    newAddress W rt os ob.1 + (ob.2 - ob.1)
      ≤ rt.Globals + totalSize (survivors (found W rt) os) := by
  obtain ⟨g1, g2, g3⟩ := relocate_inside size rt.bytes (found W rt) os _ _ rt.Globals
    hch ob hob hk
  obtain ⟨htot, -⟩ := IsChain_totalSize size rt.bytes os _ _ hch
  have hsplit := totalSize_split (found W rt) os
  refine ⟨?_, g2⟩
  unfold newAddress editorShift
  rw [g3 v h1 h2, if_neg (by omega)]

/-- C3 (evaluation of the code): in `demoSafe` no stack slot and no safe
    pointer holds an address of `[100, 102)`, the range of the first object,
    yet the scan sets `found` for it, because the safe pointer equal to
    `next = 102` passes the test `p->safe <= next`; the collection recycles
    nothing and `Temporaries` stays at 105. -/
theorem gc_retains_unreferenced_object :
    heapObjects demoSize demoSafe = some [(100, 102), (102, 105)] ∧
    ¬ referenced 4 demoSafe 100 102 ∧
    found 4 demoSafe 100 102 = true ∧
    (gc 4 demoSize demoSafe).map (fun r => (r.1.Temporaries, r.2)) = some (105, 0) := by
  decide

/-- C4: on a well-formed heap, after `gc()` the distance from `Globals` to
    `Temporaries` is the sum of the sizes of the retained objects, and the
    value returned is the sum of the sizes of the recycled objects, which is
    the old `Temporaries` minus the new one. -/
theorem gc_accounting (W : Nat) (size : (Nat → Nat) → Nat → Nat)
    (hsz : SizeByContent size) (rt : runtime) (os : List (Nat × Nat))
    (hwf : heapObjects size rt = some os) :
    ∃ rt' recycled, gc W size rt = some (rt', recycled) ∧
      rt'.Globals = rt.Globals ∧
      rt'.Temporaries - rt'.Globals = totalSize (survivors (found W rt) os) ∧
      recycled = totalSize (recycledObjects (found W rt) os) ∧
      rt'.Temporaries ≤ rt.Temporaries ∧
      recycled = rt.Temporaries - rt'.Temporaries := by
  obtain ⟨rt', hgc, htot, hT, -, -, -⟩ := gc_spec W size hsz rt os hwf
  have hG : rt'.Globals = rt.Globals := (gc_cursors W size rt rt' _ hgc).2.2.2.1
  exact ⟨rt', _, hgc, hG, by omega, rfl, by omega, by omega⟩

/-- Witness for `gc_accounting`: in `demoHeap 4` the 3-byte object is retained
    and the 4-byte object is recycled. -/
theorem gc_accounting_witness :
    heapObjects demoSize (demoHeap 4) = some [(100, 104), (104, 107)] ∧
    ∃ rt' recycled, gc 4 demoSize (demoHeap 4) = some (rt', recycled) ∧
      rt'.Globals = (demoHeap 4).Globals ∧
      rt'.Temporaries - rt'.Globals
        = totalSize (survivors (found 4 (demoHeap 4)) [(100, 104), (104, 107)]) ∧
      recycled
        = totalSize (recycledObjects (found 4 (demoHeap 4)) [(100, 104), (104, 107)]) ∧
      rt'.Temporaries ≤ (demoHeap 4).Temporaries ∧
      recycled = (demoHeap 4).Temporaries - rt'.Temporaries :=
  ⟨by decide, gc_accounting 4 demoSize demoSize_byContent (demoHeap 4) _ (by decide)⟩

/-- C5 (as stated, refuted): in `demoEditor` the collected range is
    `[100, 102)`; the stack slot and the safe pointer hold 103, an address of
    the editor buffer outside that range, and both hold 101 after `gc()`. -/
theorem gc_frame_counterexample :
    demoEditor.Globals = 100 ∧ demoEditor.Temporaries = 102 ∧
    demoEditor.slots 116 = 103 ∧
    demoEditor.GCSafe.map gcptr.safe = [103] ∧
    (gc 4 demoSize demoEditor).map
        (fun r => (r.1.slots 116, r.1.GCSafe.map gcptr.safe)) = some (101, [101]) := by
  decide

/-- C5 (amended): on a well-formed heap whose editor buffer ends at or below
    `StackTop`, `gc()` changes no stack slot and no safe pointer whose value
    lies outside the collected range and outside the editor buffer, that is
    outside `[Globals, Temporaries + Editing)`; it changes no cell outside
    `[StackTop, StackBottom)`; it leaves `StackTop`, `StackBottom`, `Returns`,
    `Code`, the error slot, `depth()`, `Globals`, `LowMem`, `HighMem` and
    `Editing` unchanged; and the editor buffer still ends at or below
    `StackTop`. -/
theorem gc_frame (W : Nat) (size : (Nat → Nat) → Nat → Nat)
    (hsz : SizeByContent size) (rt : runtime) (os : List (Nat × Nat))
    (hwf : heapObjects size rt = some os)
    (hlayout : rt.Temporaries + rt.Editing ≤ rt.StackTop) :
    ∃ rt' recycled, gc W size rt = some (rt', recycled) ∧
      (∀ s, rt.slots s < rt.Globals ∨ rt.Temporaries + rt.Editing ≤ rt.slots s →
        rt'.slots s = rt.slots s) ∧
      (∀ s, s ∉ stackAddrs W rt → rt'.slots s = rt.slots s) ∧
      rt'.GCSafe.map gcptr.self = rt.GCSafe.map gcptr.self ∧
      (∀ (k : Nat) (p : gcptr), rt.GCSafe[k]? = some p →
        p.safe < rt.Globals ∨ rt.Temporaries + rt.Editing ≤ p.safe →
        rt'.GCSafe[k]? = some p) ∧
      rt'.StackTop = rt.StackTop ∧ rt'.StackBottom = rt.StackBottom ∧
      rt'.Returns = rt.Returns ∧ rt'.Code = rt.Code ∧ rt'.Error = rt.Error ∧
      depth W rt' = depth W rt ∧ rt'.Globals = rt.Globals ∧
      rt'.LowMem = rt.LowMem ∧ rt'.HighMem = rt.HighMem ∧
      rt'.Editing = rt.Editing ∧
      rt'.Temporaries + rt'.Editing ≤ rt'.StackTop := by
  obtain ⟨rt', hgc, htot, hT, hslots, hsafe, -⟩ := gc_spec W size hsz rt os hwf
  have hch : IsChain size rt.bytes rt.Globals rt.Temporaries os :=
    heapWalk_chain size rt.bytes rt.Temporaries _ _ _ hwf
  obtain ⟨c1, c2, c3, c4, -, c6, c7, c8, c9, c10⟩ := gc_cursors W size rt rt' _ hgc
  have hfix : ∀ v, v < rt.Globals ∨ rt.Temporaries + rt.Editing ≤ v →
      editorShift rt (totalSize (recycledObjects (found W rt) os)) (newAddress W rt os v)
        = v := by
    intro v hv
    have hle := IsChain_le size rt.bytes os _ _ hch
    unfold newAddress
    rw [relocate_outside size rt.bytes (found W rt) os _ _ _ v hch (by omega)]
    unfold editorShift
    rw [if_neg (by omega)]
  refine ⟨rt', _, hgc, ?_, ?_, ?_, ?_, c7, c8, c9, c2, c1, ?_, c4, c3, c10, c6,
    by rw [hT, c6, c7]; omega⟩
  · intro s hv
    rw [hslots s]
    split_ifs
    · exact hfix _ hv
    · rfl
  · intro s hs
    rw [hslots s, if_neg hs]
  · rw [hsafe, List.map_map]
    rfl
  · intro k p hp hv
    rw [hsafe, List.getElem?_map, hp]
    simp only [Option.map_some', Option.some.injEq]
    rw [hfix _ hv]
  · simp [depth, c7, c8]

/-- Witness for `gc_frame`: in `demoFrame` the slot at 116 and the first safe
    pointer hold a static address, the second safe pointer is null; the
    collection recycles 4 bytes and rewrites the slot at 120 only. -/
theorem gc_frame_witness :
    heapObjects demoSize demoFrame = some [(100, 104), (104, 107)] ∧
    demoFrame.Temporaries + demoFrame.Editing ≤ demoFrame.StackTop ∧
    (gc 4 demoSize demoFrame).map (fun r => (r.2, r.1.slots 120)) = some (4, 100) ∧
    ∃ rt' recycled, gc 4 demoSize demoFrame = some (rt', recycled) ∧
      rt'.slots 116 = 134222388 ∧
      rt'.GCSafe[0]? = some { self := 1000, safe := 134222388 } ∧
      rt'.GCSafe[1]? = some { self := 1008, safe := 0 } ∧
      rt'.StackTop = demoFrame.StackTop ∧
      rt'.StackBottom = demoFrame.StackBottom ∧
      rt'.Error = demoFrame.Error ∧
      rt'.Temporaries + rt'.Editing ≤ rt'.StackTop := by
  obtain ⟨rt', r, h1, h2, -, -, h5, h6, h7, -, -, h10, -, -, -, -, -, h16⟩ :=
    gc_frame 4 demoSize demoSize_byContent demoFrame _
      (show heapObjects demoSize demoFrame = some [(100, 104), (104, 107)] by decide)
      (by decide)
  exact ⟨by decide, by decide, by decide, rt', r, h1,
    h2 116 (Or.inr (by decide)),
    h5 0 _ rfl (Or.inr (by decide)),
    h5 1 _ rfl (Or.inl (by decide)),
    h6, h7, h10, h16⟩


/-! ## Allocation -/

/-- On a well-formed heap the collection lowers `Temporaries` by the recycled
    count and keeps it at or above `Globals`. -/
theorem gc_bounds (W : Nat) (size : (Nat → Nat) → Nat → Nat)
    (hsz : SizeByContent size) (rt rt' : runtime) (recycled : Nat)
    (hwf : (heapObjects size rt).isSome = true)
    (hgc : gc W size rt = some (rt', recycled)) :
    rt.Globals ≤ rt'.Temporaries ∧ rt'.Temporaries + recycled = rt.Temporaries := by
  obtain ⟨os, hos⟩ := Option.isSome_iff_exists.mp hwf
  obtain ⟨rt'', h1, h2, h3, -⟩ := gc_spec W size hsz rt os hos
  rw [hgc] at h1
  simp only [Option.some.injEq, Prod.mk.injEq] at h1
  obtain ⟨rfl, rfl⟩ := h1
  omega

/-- C13: whenever `available() >= size`, `available(size)` returns `size`
    without collecting and `make(size, ty)` returns the old `Temporaries`; the
    new state is the old one with `Temporaries` advanced by `size`, so the data
    stack, the return stack, `Globals` and the error slot are unchanged. -/
theorem make_success (W : Nat) (size : (Nat → Nat) → Nat → Nat) (rt : runtime)
    (sz ty : Nat) (h : sz ≤ available W rt) :
    available_size W size rt sz = some (rt, sz) ∧
    make W size rt sz ty
      = some (rt.Temporaries, { rt with Temporaries := rt.Temporaries + sz }) := by
  have h1 : available_size W size rt sz = some (rt, sz) := by
    unfold available_size
    rw [if_neg (by omega)]
  refine ⟨h1, ?_⟩
  unfold make
  rw [h1]
  simp

/-- Witness for `make_success`: 5 bytes in the arena of `demoStack`, where
    20 are available. -/
theorem make_success_witness :
    5 ≤ available 4 demoStack ∧
    available_size 4 demoSize demoStack 5 = some (demoStack, 5) ∧
    make 4 demoSize demoStack 5 0
      = some (demoStack.Temporaries,
          { demoStack with Temporaries := demoStack.Temporaries + 5 }) :=
  ⟨by decide, make_success 4 demoSize demoStack 5 0 (by decide)⟩

/-- C14 (evaluation of the code): in `demoHeap 2`, 3 bytes are available and
    the collection recycles 2, which leaves 5 bytes available; `make(4, ty)`
    still returns null, because `available(size)` returns the recycled count
    `gc()` and `make` compares that count with `size`. -/
theorem make_fails_with_room :
    available 4 (demoHeap 2) = 3 ∧
    (gc 4 demoSize (demoHeap 2)).map (fun r => (r.2, available 4 r.1)) = some (2, 5) ∧
    (make 4 demoSize (demoHeap 2) 4 0).map
        (fun r => (r.1, r.2.Temporaries, available 4 r.2)) = some (0, 103, 5) := by
  decide

/-- C15 (as stated, refuted): in `demoHeap 4`, where `Temporaries` is 107,
    `make(3, ty)` collects 4 bytes and returns 103; once the caller has
    written a 3-byte object there, `dispose` rewinds `Temporaries` to 103, not
    to its value before the `make`. -/
theorem make_dispose_counterexample :
    (demoHeap 4).Temporaries = 107 ∧
    (make 4 demoSize (demoHeap 4) 3 0).map (fun r =>
        (r.1, r.2.Temporaries,
          demoSize (fun a => if a = r.1 then 2 else r.2.bytes a) r.1,
          (dispose demoSize
            { r.2 with bytes := fun a => if a = r.1 then 2 else r.2.bytes a }
            r.1).Temporaries))
      = some (103, 106, 3, 103) := by
  decide

/-- C15 (amended): `dispose(o)` sets `Temporaries` to `o` when
    `skip(o) == Temporaries` and otherwise leaves the state as it is; it changes
    nothing else, in particular not the stack.  When the check of `make(size)`
    passes, `make` returns the value `Temporaries` has at that moment, and
    disposing of the returned object once its encoded size is `size` restores
    that value: the value before the `make` when no collection ran, that value
    minus the recycled bytes otherwise. -/
theorem dispose_contract (W : Nat) (size : (Nat → Nat) → Nat → Nat)
    (rt rt1 : runtime) (o sz ty avail : Nat) :
    (skip size rt o = rt.Temporaries →
      dispose size rt o = { rt with Temporaries := o }) ∧
    (skip size rt o ≠ rt.Temporaries → dispose size rt o = rt) ∧
    (dispose size rt o).StackTop = rt.StackTop ∧
    (dispose size rt o).StackBottom = rt.StackBottom ∧
    (dispose size rt o).slots = rt.slots ∧
    (available_size W size rt sz = some (rt1, avail) → sz ≤ avail →
      make W size rt sz ty
        = some (rt1.Temporaries, { rt1 with Temporaries := rt1.Temporaries + sz }) ∧
      (∀ b : Nat → Nat, size b rt1.Temporaries = sz →
        (dispose size { rt1 with Temporaries := rt1.Temporaries + sz, bytes := b }
          rt1.Temporaries).Temporaries = rt1.Temporaries) ∧
      (sz ≤ available W rt → rt1 = rt) ∧
      (available W rt < sz → rt1.Temporaries = rt.Temporaries - avail)) := by
  have ha : skip size rt o = rt.Temporaries →
      dispose size rt o = { rt with Temporaries := o } := by
    intro h
    unfold dispose
    rw [if_pos h]
  have hb : skip size rt o ≠ rt.Temporaries → dispose size rt o = rt := by
    intro h
    unfold dispose
    rw [if_neg h]
    rfl
  refine ⟨ha, hb, ?_, ?_, ?_, ?_⟩
  · by_cases h : skip size rt o = rt.Temporaries
    · rw [ha h]
    · rw [hb h]
  · by_cases h : skip size rt o = rt.Temporaries
    · rw [ha h]
    · rw [hb h]
  · by_cases h : skip size rt o = rt.Temporaries
    · rw [ha h]
    · rw [hb h]
  · intro hroom hav
    refine ⟨?_, ?_, (available_size_cursors W size rt rt1 sz avail hroom).2.2.2, ?_⟩
    · unfold make
      rw [hroom]
      simp only
      rw [if_neg (by omega)]
    · intro b hb'
      unfold dispose skip
      simp only [hb']
      rw [if_pos trivial]
    · intro hlt
      unfold available_size at hroom
      rw [if_pos hlt] at hroom
      exact (gc_cursors W size rt rt1 avail hroom).2.2.2.2.1

/-- Witness for `dispose_contract`: disposing of the last temporary of
    `demoHeap 4` (at 104) and of its first one (at 100), and `make(5)` followed
    by `dispose` in `demoStack`. -/
theorem dispose_contract_witness :
    (skip demoSize (demoHeap 4) 104 = (demoHeap 4).Temporaries ∧
      (dispose demoSize (demoHeap 4) 104).Temporaries = 104) ∧
    (skip demoSize (demoHeap 4) 100 ≠ (demoHeap 4).Temporaries ∧
      dispose demoSize (demoHeap 4) 100 = demoHeap 4) ∧
    (make 4 demoSize demoStack 5 0
        = some (demoStack.Temporaries,
            { demoStack with Temporaries := demoStack.Temporaries + 5 }) ∧
      (dispose demoSize
        { demoStack with Temporaries := demoStack.Temporaries + 5,
                         bytes := fun _ => 4 }
        demoStack.Temporaries).Temporaries = demoStack.Temporaries) := by
  have h := dispose_contract 4 demoSize (demoHeap 4) (demoHeap 4) 104 0 0 0
  have h' := dispose_contract 4 demoSize (demoHeap 4) (demoHeap 4) 100 0 0 0
  have h'' := (dispose_contract 4 demoSize demoStack demoStack 0 5 0 5).2.2.2.2.2
    rfl (by decide)
  refine ⟨⟨by decide, ?_⟩, ⟨by decide, h'.2.1 (by decide)⟩, ⟨h''.1, ?_⟩⟩
  · rw [h.1 (by decide)]
  · exact h''.2.1 (fun _ => 4) (by decide)


/-! ## Return stack -/

theorem shiftDown_empty (W lo hi : Nat) (slots : Nat → Nat) (h : hi ≤ lo) :
    shiftDown W lo hi slots = slots := by
  unfold shiftDown
  have h0 : (hi - lo + W - 1) / W = 0 := by
    rcases Nat.eq_zero_or_pos W with hW | hW
    · subst hW; simp
    · apply Nat.div_eq_of_lt; omega
  rw [h0]
  rfl

theorem shiftUp_empty (W hi : Nat) (slots : Nat → Nat) :
    shiftUp W hi hi slots = slots := by
  unfold shiftUp
  have h0 : (hi - hi + W - 1) / W = 0 := by
    rcases Nat.eq_zero_or_pos W with hW | hW
    · subst hW; simp
    · apply Nat.div_eq_of_lt; omega
  rw [h0]
  rfl

/-- The state a successful `call` returns in, when `StackTop <= StackBottom`:
    the copy loop does not run. -/
theorem call_of_room (W : Nat) (size : (Nat → Nat) → Nat → Nat)
    (rt rt1 : runtime) (avail callee : Nat)
    (hroom : available_size W size rt W = some (rt1, avail)) (hav : W ≤ avail)
    (hord : rt.StackTop ≤ rt.StackBottom) :
    call W size rt callee = some { rt1 with
      StackTop := rt1.StackTop - W
      StackBottom := rt1.StackBottom - W
      Returns := rt1.Returns - W
      slots := Function.update rt1.slots (rt1.Returns - W) rt1.Code
      Code := callee } := by
  obtain ⟨hT, hB, -, -⟩ := available_size_cursors W size rt rt1 W avail hroom
  unfold call
  rw [hroom]
  simp only
  rw [if_neg (by omega), shiftDown_empty W _ _ _ (by omega)]

theorem ret_of_caller (W : Nat) (rt : runtime) (h : rt.Returns < rt.HighMem) :
    ret W rt = { rt with
      Code := rt.slots rt.Returns
      Returns := rt.Returns + W
      StackTop := rt.StackTop + W
      StackBottom := rt.StackBottom + W } := by
  unfold ret
  rw [if_neg (by omega)]
  simp only [shiftUp_empty]

theorem ret_of_empty (W : Nat) (rt : runtime) (h : rt.HighMem ≤ rt.Returns) :
    ret W rt = { rt with Error := some "Cannot return without a caller" } := by
  unfold ret
  rw [if_pos h]
  rfl

/-- C16 (evaluation of the code): in `demoStack`, with `Code = 77`, the stack
    holds 11, 22, 33 from the top.  After `call(99)` the depth is still 3 but
    the slots read 0, 11, 22: the window moved down one cell and the loop meant
    to copy the contents runs from `StackBottom` up to `StackTop`, that is not
    at all.  After the following `ret()` the slots read 11, 22, 77: the cell of
    the bottom object received the saved `Code`. -/
theorem call_corrupts_stack :
    depth 4 { demoStack with Code := 77 } = 3 ∧
    (List.range 3).map (fun k => (stack 4 { demoStack with Code := 77 } k).1)
      = [11, 22, 33] ∧
    (call 4 demoSize { demoStack with Code := 77 } 99).map (fun r =>
        (depth 4 r, (List.range 3).map (fun k => (stack 4 r k).1)))
      = some (3, [0, 11, 22]) ∧
    (call 4 demoSize { demoStack with Code := 77 } 99).map (fun r =>
        (depth 4 (ret 4 r), (List.range 3).map (fun k => (stack 4 (ret 4 r) k).1)))
      = some (3, [11, 22, 77]) := by
  decide

/-- A successful `call` followed by `ret`, in a state that satisfies the
    ordering of the arena. -/
theorem call_then_ret (W : Nat) (size : (Nat → Nat) → Nat → Nat)
    (rt rt1 : runtime) (avail callee : Nat)
    (hroom : available_size W size rt W = some (rt1, avail)) (hav : W ≤ avail)
    (hW : 0 < W) (hlow : W ≤ rt.StackTop) (hord : arenaOrdered rt) :
    ∃ rt', call W size rt callee = some rt' ∧
      rt'.Code = callee ∧ rt'.slots rt'.Returns = rt.Code ∧
      rt'.Returns + W = rt.Returns ∧ rt'.Error = rt.Error ∧
      rt'.HighMem = rt.HighMem ∧
      ret W rt' = { rt' with
        Code := rt.Code
        Returns := rt.Returns
        StackTop := rt.StackTop
        StackBottom := rt.StackBottom } := by
  obtain ⟨-, -, h3, h4, h5⟩ := hord
  obtain ⟨hT, hB, hE, -⟩ := available_size_cursors W size rt rt1 W avail hroom
  have hsame : rt1.Returns = rt.Returns ∧ rt1.HighMem = rt.HighMem ∧
      rt1.Code = rt.Code := by
    unfold available_size at hroom
    split_ifs at hroom with hlt
    · obtain ⟨-, c2, -, -, -, -, -, -, c9, c10⟩ := gc_cursors W size rt rt1 avail hroom
      exact ⟨c9, c10, c2⟩
    · simp only [Option.some.injEq, Prod.mk.injEq] at hroom
      obtain ⟨rfl, -⟩ := hroom
      exact ⟨rfl, rfl, rfl⟩
  obtain ⟨hR, hH, hC⟩ := hsame
  refine ⟨_, call_of_room W size rt rt1 avail callee hroom hav h3, rfl, ?_, ?_, hE, hH, ?_⟩
  · simp only [Function.update_same, hC]
  · simp only [hR]; omega
  · rw [ret_of_caller W _ (by simp only [hR, hH]; omega)]
    simp only [Function.update_same, hC, hT, hB, hR]
    have e1 : rt.Returns - W + W = rt.Returns := by omega
    have e2 : rt.StackTop - W + W = rt.StackTop := by omega
    have e3 : rt.StackBottom - W + W = rt.StackBottom := by omega
    rw [e1, e2, e3]

/-- C17: after a successful `call(callee)`, in a state that satisfies the
    ordering of the arena, `Code` is `callee` and the top cell of the return
    stack holds the previous `Code`; the following `ret()` sets no error and
    restores `Code`, `StackTop`, `StackBottom` and `Returns` to their values
    before the call. -/
theorem call_ret_roundtrip (W : Nat) (size : (Nat → Nat) → Nat → Nat)
    (rt rt1 : runtime) (avail callee : Nat)
    (hroom : available_size W size rt W = some (rt1, avail)) (hav : W ≤ avail)
    (hW : 0 < W) (hlow : W ≤ rt.StackTop) (hord : arenaOrdered rt) :
    ∃ rt', call W size rt callee = some rt' ∧
      rt'.Code = callee ∧ rt'.slots rt'.Returns = rt.Code ∧
      rt'.Returns + W = rt.Returns ∧ rt'.Error = rt.Error ∧
      (ret W rt').Code = rt.Code ∧
      (ret W rt').StackTop = rt.StackTop ∧
      (ret W rt').StackBottom = rt.StackBottom ∧
      (ret W rt').Returns = rt.Returns ∧
      (ret W rt').Error = rt.Error := by
  obtain ⟨rt', h1, h2, h3, h4, h5, -, h7⟩ :=
    call_then_ret W size rt rt1 avail callee hroom hav hW hlow hord
  refine ⟨rt', h1, h2, h3, h4, h5, ?_⟩
  rw [h7]
  exact ⟨rfl, rfl, rfl, rfl, h5⟩

/-- Witness for `call_ret_roundtrip`: `call(99)` in `demoStack`, where 20
    bytes are available. -/
theorem call_ret_roundtrip_witness :
    arenaOrdered demoStack ∧
    ∃ rt', call 4 demoSize demoStack 99 = some rt' ∧
      rt'.Code = 99 ∧ rt'.slots rt'.Returns = demoStack.Code ∧
      rt'.Returns + 4 = demoStack.Returns ∧ rt'.Error = demoStack.Error ∧
      (ret 4 rt').Code = demoStack.Code ∧
      (ret 4 rt').StackTop = demoStack.StackTop ∧
      (ret 4 rt').StackBottom = demoStack.StackBottom ∧
      (ret 4 rt').Returns = demoStack.Returns ∧
      (ret 4 rt').Error = demoStack.Error :=
  ⟨by decide, call_ret_roundtrip 4 demoSize demoStack demoStack 4 99 rfl (by decide)
    (by decide) (by decide) (by decide)⟩

/-- C18: with `Returns` at or above `HighMem`, as `memory()` leaves it and as
    a successful `call` followed by `ret` leaves it again, `ret()` sets "Cannot
    return without a caller" and changes nothing else; with `Returns` below
    `HighMem`, `ret()` leaves the error slot as it is. -/
theorem ret_empty (W : Nat) (size : (Nat → Nat) → Nat → Nat)
    (rt rt0 rt1 : runtime) (mem sz avail callee : Nat) :
    (rt.HighMem ≤ rt.Returns →
      ret W rt = { rt with Error := some "Cannot return without a caller" }) ∧
    (rt.Returns < rt.HighMem → (ret W rt).Error = rt.Error) ∧
    (memory rt0 mem sz).Returns = (memory rt0 mem sz).HighMem ∧
    (rt.Returns = rt.HighMem → available_size W size rt W = some (rt1, avail) →
      W ≤ avail → 0 < W → W ≤ rt.StackTop → arenaOrdered rt →
      ∃ rt', call W size rt callee = some rt' ∧
        (ret W rt').Returns = (ret W rt').HighMem ∧
        (ret W (ret W rt')).Error = some "Cannot return without a caller") := by
  refine ⟨ret_of_empty W rt, ?_, rfl, ?_⟩
  · intro h
    rw [ret_of_caller W rt h]
  · intro hRH hroom hav hW hlow hord
    obtain ⟨rt', h1, -, -, h4, -, hH', h7⟩ :=
      call_then_ret W size rt rt1 avail callee hroom hav hW hlow hord
    have h9 : (ret W rt').Returns = rt.Returns := by rw [h7]
    have hH'' : (ret W rt').HighMem = rt.HighMem := by rw [h7]; exact hH'
    refine ⟨rt', h1, by rw [h9, hH'', hRH], ?_⟩
    rw [ret_of_empty W (ret W rt') (by rw [h9, hH'', hRH])]

/-- Witness for `ret_empty`: `demoStack`, whose return stack is empty, and the
    same state after `call(99)`. -/
theorem ret_empty_witness :
    (demoStack.HighMem ≤ demoStack.Returns ∧
      (ret 4 demoStack).Error = some "Cannot return without a caller" ∧
      (ret 4 demoStack).Code = demoStack.Code ∧
      (ret 4 demoStack).Returns = demoStack.Returns ∧
      (ret 4 demoStack).StackTop = demoStack.StackTop ∧
      (ret 4 demoStack).slots = demoStack.slots) ∧
    (∃ rt', call 4 demoSize demoStack 99 = some rt' ∧
      (ret 4 rt').Returns = (ret 4 rt').HighMem ∧
      (ret 4 (ret 4 rt')).Error = some "Cannot return without a caller") := by
  have h := ret_empty 4 demoSize demoStack demoStack demoStack 0 0 4 99
  have h1 := h.1 (by decide)
  refine ⟨⟨by decide, ?_, ?_, ?_, ?_, ?_⟩,
    h.2.2.2 (by decide) rfl (by decide) (by decide) (by decide) (by decide)⟩ <;>
  rw [h1]


/-! ## Program execution -/

theorem execute_loop_failed {σ : Type} (poll : σ → Bool)
    (evaluate : Nat → σ → result × σ) (rest : List Nat) (r : result) (s : σ)
    (hr : r ≠ result.OK) : execute_loop poll evaluate rest r s = (r, s) := by
  cases rest with
  | nil => rfl
  | cons c rest =>
    simp only [execute_loop]
    rw [if_pos]
    simp [hr]

theorem execute_loop_append {σ : Type} (poll : σ → Bool)
    (evaluate : Nat → σ → result × σ) :
    ∀ (pre rest : List Nat) (s s' : σ), runChildren poll evaluate pre s = some s' →
      execute_loop poll evaluate (pre ++ rest) result.OK s
        = execute_loop poll evaluate rest result.OK s' := by
  intro pre
  induction pre with
  | nil =>
    intro rest s s' h
    simp only [runChildren, Option.some.injEq] at h
    subst h
    rfl
  | cons c pre ih =>
    intro rest s s' h
    simp only [runChildren] at h
    split_ifs at h with h1 h2
    simp only [List.cons_append, execute_loop]
    rw [if_neg (by simp [h1]), h2]
    exact ih rest _ _ h

/-- C19: with no interruption pending, `execute` on the empty program returns
    `OK`; when every child returns `OK` it evaluates them all in order and
    returns `OK`; when the children before `c` return `OK` and `c` does not,
    it returns what `evaluate(c)` returns, in the state `evaluate(c)` leaves, so
    no later child is evaluated; and it returns `OK` exactly when every child
    returned `OK`. -/
theorem execute_order {σ : Type} (poll : σ → Bool)
    (evaluate : Nat → σ → result × σ) (hno : ∀ s, poll s = false)
    (children : List Nat) (s : σ) :
    execute poll evaluate [] s = (result.OK, s) ∧
    (∀ s', runChildren poll evaluate children s = some s' →
      execute poll evaluate children s = (result.OK, s')) ∧
    (∀ pre c post s', children = pre ++ c :: post →
      runChildren poll evaluate pre s = some s' →
      (evaluate c s').1 ≠ result.OK →
      execute poll evaluate children s = evaluate c s') ∧
    ((execute poll evaluate children s).1 = result.OK ↔
      (runChildren poll evaluate children s).isSome = true) := by
  refine ⟨rfl, ?_, ?_, ?_⟩
  · intro s' h
    have := execute_loop_append poll evaluate children [] s s' h
    rw [List.append_nil] at this
    unfold execute
    rw [this]
    rfl
  · intro pre c post s' hc hrun hfail
    subst hc
    unfold execute
    rw [execute_loop_append poll evaluate pre (c :: post) s s' hrun]
    simp only [execute_loop]
    rw [if_neg (by simp [hno s'])]
    exact execute_loop_failed poll evaluate post _ _ hfail
  · unfold execute
    induction children generalizing s with
    | nil => simp [execute_loop, runChildren]
    | cons c rest ih =>
      simp only [execute_loop, runChildren]
      rw [if_neg (by simp [hno s]), if_neg (by simp [hno s])]
      by_cases hc : (evaluate c s).1 = result.OK
      · rw [if_pos hc, hc]
        exact ih (evaluate c s).2
      · rw [if_neg hc, execute_loop_failed poll evaluate rest _ _ hc]
        simp [hc]

/-- Witness for `execute_order`: the program 3 0 5 with no key pressed; object
    0 fails, object 5 is not evaluated. -/
theorem execute_order_witness :
    execute (fun _ => false) demoEvaluate [3, 0, 5]
        { trace := [], key_empty := true, key_tail := 0 }
      = (result.ERROR, { trace := [0, 3], key_empty := true, key_tail := 0 }) := by
  have h := (execute_order (fun _ => false) demoEvaluate (fun _ => rfl) [3, 0, 5]
    { trace := [], key_empty := true, key_tail := 0 }).2.2.1 [3] 0 [5]
    { trace := [3], key_empty := true, key_tail := 0 } rfl (by decide) (by decide)
  rw [h]
  decide

/-- C20 (as stated, refuted): in the program 3 7 5, EXIT is pressed while
    object 7 is evaluated; `interrupted()` is true when object 5 is about to be
    evaluated, the loop stops there, and `execute` returns `OK`. -/
theorem execute_interrupted_counterexample :
    demoPoll { trace := [7, 3], key_empty := false, key_tail := 33 } = true ∧
    execute demoPoll demoEvaluate [3, 7, 5]
        { trace := [], key_empty := true, key_tail := 0 }
      = (result.OK, { trace := [7, 3], key_empty := false, key_tail := 33 }) := by
  decide

/-- C20 (amended): if the children before `c` have been processed (no
    interruption was pending before any of them and each returned `OK`) and an
    interruption is pending when `c` is about to be evaluated, the loop stops
    there: neither `c` nor any later child is evaluated, the state is the one
    the processed children left, and `execute` returns the value of `r`, which
    is `OK`. -/
theorem execute_interrupted {σ : Type} (poll : σ → Bool)
    (evaluate : Nat → σ → result × σ) (pre : List Nat) (c : Nat)
    (post : List Nat) (s s' : σ)
    (hrun : runChildren poll evaluate pre s = some s') (hint : poll s' = true) :
    execute poll evaluate (pre ++ c :: post) s = (result.OK, s') := by
  unfold execute
  rw [execute_loop_append poll evaluate pre (c :: post) s s' hrun]
  simp only [execute_loop]
  rw [if_pos (by simp [hint])]

/-- Witness for `execute_interrupted`: the program 3 7 5 with EXIT pressed
    during the evaluation of object 7. -/
theorem execute_interrupted_witness :
    runChildren demoPoll demoEvaluate [3, 7]
        { trace := [], key_empty := true, key_tail := 0 }
      = some { trace := [7, 3], key_empty := false, key_tail := 33 } ∧
    execute demoPoll demoEvaluate ([3, 7] ++ 5 :: [])
        { trace := [], key_empty := true, key_tail := 0 }
      = (result.OK, { trace := [7, 3], key_empty := false, key_tail := 33 }) :=
  ⟨by decide, execute_interrupted demoPoll demoEvaluate [3, 7] 5 []
    { trace := [], key_empty := true, key_tail := 0 }
    { trace := [7, 3], key_empty := false, key_tail := 33 } (by decide) (by decide)⟩


/-! ## Invariants of the arena -/

/-- Outcome of the availability check in a state that has the red-zone gap. -/
theorem available_size_redzone (W : Nat) (size : (Nat → Nat) → Nat → Nat)
    (hsz : SizeByContent size) (rt rt1 : runtime) (sz avail : Nat)
    (hred : rt.Temporaries + redzone ≤ rt.StackTop)
    (hwf : available W rt < sz → (heapObjects size rt).isSome = true)
    (h : available_size W size rt sz = some (rt1, avail)) :
    sameCursors { rt1 with Temporaries := rt.Temporaries } rt ∧
    rt1.Temporaries ≤ rt.Temporaries ∧
    (rt.Globals ≤ rt.Temporaries → rt.Globals ≤ rt1.Temporaries) ∧
    (sz ≤ avail → rt1.Temporaries + sz + redzone ≤ rt.StackTop) := by
  unfold available_size at h
  split_ifs at h with hlt
  · obtain ⟨g1, g2⟩ := gc_bounds W size hsz rt rt1 avail (hwf hlt) h
    obtain ⟨c1, c2, c3, c4, c5, c6, c7, c8, c9, c10⟩ := gc_cursors W size rt rt1 avail h
    refine ⟨?_, by omega, fun _ => g1, fun _ => by omega⟩
    simp [sameCursors, c1, c2, c3, c4, c6, c7, c8, c9, c10]
  · simp only [Option.some.injEq, Prod.mk.injEq] at h
    obtain ⟨rfl, rfl⟩ := h
    refine ⟨sameCursors_refl _, le_refl _, fun h => h, fun _ => ?_⟩
    unfold available at hlt
    rw [if_pos hred] at hlt
    omega

/-- Every operation preserves the chain of the arena together with the
    red-zone gap and the alignment of the stack cursors. -/
theorem step_arenaInv (W : Nat) (size : (Nat → Nat) → Nat → Nat)
    (hsz : SizeByContent size) (hW : 0 < W) (rt rt' : runtime) (o : Op)
    (hinv : arenaInv W rt)
    (hwf : collects W rt o = true → (heapObjects size rt).isSome = true)
    (hvalid : ∀ obj, o = Op.dispose obj → rt.Globals ≤ obj)
    (hstep : step W size rt o = some rt') : arenaInv W rt' := by
  obtain ⟨i1, i2, i3, i4, i5, i6, i7⟩ := hinv
  cases o with
  | make sz ty =>
    simp only [step, make, Option.map_eq_some'] at hstep
    obtain ⟨⟨p, r⟩, hm, rfl⟩ := hstep
    split at hm
    · cases hm
    · rename_i rt1 avail hroom
      obtain ⟨hc, h2, h3, h4⟩ := available_size_redzone W size hsz rt rt1 sz avail i2
        (fun h => hwf (by simp [collects, h])) hroom
      obtain ⟨-, -, -, c4, -, -, c7, c8, c9, c10⟩ := hc
      simp only at c4 c7 c8 c9 c10
      split_ifs at hm with hlt
      · simp only [Option.some.injEq, Prod.mk.injEq] at hm
        obtain ⟨-, rfl⟩ := hm
        have := h3 i1
        simp only [arenaInv, c4, c7, c8, c9, c10]
        exact ⟨this, by omega, i3, i4, i5, i6, i7⟩
      · simp only [Option.some.injEq, Prod.mk.injEq] at hm
        obtain ⟨-, rfl⟩ := hm
        have := h3 i1
        have := h4 (by omega)
        simp only [arenaInv, c4, c7, c8, c9, c10]
        exact ⟨by omega, by omega, i3, i4, i5, i6, i7⟩
  | dispose obj =>
    simp only [step, Option.some.injEq] at hstep
    subst hstep
    have hv := hvalid obj rfl
    unfold dispose
    split_ifs with hs
    · unfold skip at hs
      simp only [arenaInv]
      exact ⟨hv, by omega, i3, i4, i5, i6, i7⟩
    · exact ⟨i1, i2, i3, i4, i5, i6, i7⟩
  | push obj =>
    simp only [step, push] at hstep
    split at hstep
    · cases hstep
    · rename_i rt1 avail hroom
      obtain ⟨hc, h2, h3, h4⟩ := available_size_redzone W size hsz rt rt1 W avail i2
        (fun h => hwf (by simp [collects, h])) hroom
      obtain ⟨-, -, -, c4, -, -, c7, c8, c9, c10⟩ := hc
      simp only at c4 c7 c8 c9 c10
      have := h3 i1
      split_ifs at hstep with hlt
      · simp only [Option.some.injEq] at hstep
        subst hstep
        simp only [arenaInv, c4, c7, c8, c9, c10]
        exact ⟨this, by omega, i3, i4, i5, i6, i7⟩
      · simp only [Option.some.injEq] at hstep
        subst hstep
        have := h4 (by omega)
        simp only [arenaInv, c4, c7, c8, c9, c10]
        refine ⟨by omega, by omega, by omega, i4, i5, ?_, i7⟩
        have e : rt.StackBottom - (rt.StackTop - W) = (rt.StackBottom - rt.StackTop) + W := by
          omega
        rw [e]
        exact Dvd.dvd.add i6 (dvd_refl W)
  | pop =>
    simp only [step, Option.some.injEq] at hstep
    subst hstep
    unfold pop
    split_ifs with he
    · exact ⟨i1, i2, i3, i4, i5, i6, i7⟩
    · have hle : W ≤ rt.StackBottom - rt.StackTop := Nat.le_of_dvd (by omega) i6
      simp only [arenaInv]
      refine ⟨i1, by omega, by omega, i4, i5, ?_, i7⟩
      have e : rt.StackBottom - (rt.StackTop + W) = (rt.StackBottom - rt.StackTop) - W := by
        omega
      rw [e]
      exact Nat.dvd_sub' i6 (dvd_refl W)
  | top =>
    simp only [step, Option.some.injEq] at hstep
    subst hstep
    exact ⟨i1, i2, i3, i4, i5, i6, i7⟩
  | top_set obj =>
    simp only [step, Option.some.injEq] at hstep
    subst hstep
    unfold top_set
    split_ifs <;> exact ⟨i1, i2, i3, i4, i5, i6, i7⟩
  | stack idx =>
    simp only [step, Option.some.injEq] at hstep
    subst hstep
    unfold stack
    split_ifs <;> exact ⟨i1, i2, i3, i4, i5, i6, i7⟩
  | stack_set idx obj =>
    simp only [step, Option.some.injEq] at hstep
    subst hstep
    unfold stack_set
    split_ifs <;> exact ⟨i1, i2, i3, i4, i5, i6, i7⟩
  | call callee =>
    simp only [step, call] at hstep
    split at hstep
    · cases hstep
    · rename_i rt1 avail hroom
      obtain ⟨hc, h2, h3, h4⟩ := available_size_redzone W size hsz rt rt1 W avail i2
        (fun h => hwf (by simp [collects, h])) hroom
      obtain ⟨-, -, -, c4, -, -, c7, c8, c9, c10⟩ := hc
      simp only at c4 c7 c8 c9 c10
      have := h3 i1
      split_ifs at hstep with hlt
      · simp only [Option.some.injEq] at hstep
        subst hstep
        simp only [arenaInv, error, c4, c7, c8, c9, c10]
        exact ⟨this, by omega, i3, i4, i5, i6, i7⟩
      · simp only [Option.some.injEq] at hstep
        subst hstep
        have := h4 (by omega)
        simp only [arenaInv, c4, c7, c8, c9, c10]
        refine ⟨by omega, by omega, by omega, by omega, by omega, ?_, ?_⟩
        · have e : rt.StackBottom - W - (rt.StackTop - W)
              = rt.StackBottom - rt.StackTop := by omega
          rw [e]
          exact i6
        · have e : rt.HighMem - (rt.Returns - W) = (rt.HighMem - rt.Returns) + W := by
            omega
          rw [e]
          exact Dvd.dvd.add i7 (dvd_refl W)
  | ret =>
    simp only [step, Option.some.injEq] at hstep
    subst hstep
    by_cases he : rt.HighMem ≤ rt.Returns
    · rw [ret_of_empty W rt he]
      exact ⟨i1, i2, i3, i4, i5, i6, i7⟩
    · rw [ret_of_caller W rt (by omega)]
      have hle : W ≤ rt.HighMem - rt.Returns := Nat.le_of_dvd (by omega) i7
      simp only [arenaInv]
      refine ⟨i1, by omega, by omega, by omega, by omega, ?_, ?_⟩
      · have e : rt.StackBottom + W - (rt.StackTop + W)
            = rt.StackBottom - rt.StackTop := by omega
        rw [e]
        exact i6
      · have e : rt.HighMem - (rt.Returns + W) = (rt.HighMem - rt.Returns) - W := by
          omega
        rw [e]
        exact Nat.dvd_sub' i7 (dvd_refl W)
  | gc =>
    simp only [step, Option.map_eq_some'] at hstep
    obtain ⟨⟨r1, rec⟩, hgc, rfl⟩ := hstep
    obtain ⟨g1, g2⟩ := gc_bounds W size hsz rt r1 rec (hwf rfl) hgc
    obtain ⟨-, -, -, c4, -, -, c7, c8, c9, c10⟩ := gc_cursors W size rt r1 rec hgc
    simp only [arenaInv, c4, c7, c8, c9, c10]
    exact ⟨g1, by omega, i3, i4, i5, i6, i7⟩


/-- C11 (as stated, refuted): `memory(100, 4)` establishes the chain on an
    arena of 4 bytes, where `available()` wraps around to `2 ^ 32 - 4`; the
    check of `make(50, ty)` passes and `Temporaries` becomes 150, above
    `StackTop = 104`. -/
theorem arena_ordering_counterexample :
    arenaOrdered demoTiny ∧ available 4 demoTiny = 2 ^ 32 - 4 ∧
    (step 4 demoSize demoTiny (Op.make 50 0)).map
        (fun r => (r.Temporaries, r.StackTop, decide (arenaOrdered r)))
      = some (150, 104, false) := by
  decide

/-- C11 (amended): `memory(buf, size)` establishes the chain `Globals <=
    Temporaries <= StackTop <= StackBottom <= Returns <= HighMem` with an empty
    data stack and an empty return stack, and, on an arena of at least
    `redzone` bytes, the red-zone gap and aligned stack cursors as well; every
    operation (make, dispose of a temporary at or above `Globals`, push, pop,
    top, stack, call, ret, gc) run in a state that has the chain, the gap and
    the alignment returns in such a state, the heap being well formed whenever
    the operation collects. -/
theorem arena_ordering (W : Nat) (size : (Nat → Nat) → Nat → Nat)
    (hsz : SizeByContent size) (hW : 0 < W) (rt0 : runtime) (mem sz : Nat)
    (rt rt' : runtime) (o : Op) :
    (arenaOrdered (memory rt0 mem sz) ∧ depth W (memory rt0 mem sz) = 0 ∧
      (memory rt0 mem sz).Returns = (memory rt0 mem sz).HighMem) ∧
    (redzone ≤ sz → arenaInv W (memory rt0 mem sz)) ∧
    (arenaInv W rt → arenaOrdered rt) ∧
    (arenaInv W rt →
      (collects W rt o = true → (heapObjects size rt).isSome = true) →
      (∀ obj, o = Op.dispose obj → rt.Globals ≤ obj) →
      step W size rt o = some rt' → arenaInv W rt' ∧ arenaOrdered rt') := by
  have hweak : ∀ r : runtime, arenaInv W r → arenaOrdered r := by
    intro r h
    obtain ⟨i1, i2, i3, i4, i5, -, -⟩ := h
    exact ⟨i1, by omega, i3, i4, i5⟩
  refine ⟨⟨?_, ?_, rfl⟩, ?_, hweak rt, ?_⟩
  · simp [arenaOrdered, memory]
  · simp [depth, memory]
  · intro h
    simp only [arenaInv, memory, Nat.sub_self, dvd_zero, and_true]
    omega
  · intro hinv hwf hvalid hstep
    have := step_arenaInv W size hsz hW rt rt' o hinv hwf hvalid hstep
    exact ⟨this, hweak rt' this⟩

/-- Witness for `arena_ordering`: the arena `memory(100, 40)` and a push in
    it. -/
theorem arena_ordering_witness :
    arenaInv 4 (memory demoStack 100 40) ∧
    (∃ rt', step 4 demoSize (memory demoStack 100 40) (Op.push 11) = some rt' ∧
      arenaInv 4 rt' ∧ arenaOrdered rt') := by
  have h := arena_ordering 4 demoSize demoSize_byContent (by decide) demoStack 100 40
    (memory demoStack 100 40)
    { memory demoStack 100 40 with
      StackTop := 136
      slots := Function.update demoStack.slots 136 11 }
    (Op.push 11)
  exact ⟨h.2.1 (by decide),
    _, rfl, h.2.2.2 (h.2.1 (by decide)) (fun hc => absurd hc (by decide))
      (fun obj hc => by cases hc) rfl⟩

/-- Every operation preserves the red-zone gap. -/
theorem step_redzone (W : Nat) (size : (Nat → Nat) → Nat → Nat)
    (hsz : SizeByContent size) (rt rt' : runtime) (o : Op)
    (hred : rt.Temporaries + redzone ≤ rt.StackTop)
    (hwf : collects W rt o = true → (heapObjects size rt).isSome = true)
    (hstep : step W size rt o = some rt') :
    rt'.Temporaries + redzone ≤ rt'.StackTop := by
  cases o with
  | make sz ty =>
    simp only [step, make, Option.map_eq_some'] at hstep
    obtain ⟨⟨p, r⟩, hm, rfl⟩ := hstep
    split at hm
    · cases hm
    · rename_i rt1 avail hroom
      obtain ⟨hc, h2, -, h4⟩ := available_size_redzone W size hsz rt rt1 sz avail hred
        (fun h => hwf (by simp [collects, h])) hroom
      obtain ⟨-, -, -, -, -, -, c7, -, -, -⟩ := hc
      simp only at c7
      split_ifs at hm with hlt
      · simp only [Option.some.injEq, Prod.mk.injEq] at hm
        obtain ⟨-, rfl⟩ := hm
        simp only [c7]
        omega
      · simp only [Option.some.injEq, Prod.mk.injEq] at hm
        obtain ⟨-, rfl⟩ := hm
        have := h4 (by omega)
        simp only [c7]
        omega
  | dispose obj =>
    simp only [step, Option.some.injEq] at hstep
    subst hstep
    unfold dispose
    split_ifs with hs
    · unfold skip at hs
      simp only
      omega
    · exact hred
  | push obj =>
    simp only [step, push] at hstep
    split at hstep
    · cases hstep
    · rename_i rt1 avail hroom
      obtain ⟨hc, h2, -, h4⟩ := available_size_redzone W size hsz rt rt1 W avail hred
        (fun h => hwf (by simp [collects, h])) hroom
      obtain ⟨-, -, -, -, -, -, c7, -, -, -⟩ := hc
      simp only at c7
      split_ifs at hstep with hlt
      · simp only [Option.some.injEq] at hstep
        subst hstep
        simp only [c7]
        omega
      · simp only [Option.some.injEq] at hstep
        subst hstep
        have := h4 (by omega)
        simp only [c7]
        omega
  | pop =>
    simp only [step, Option.some.injEq] at hstep
    subst hstep
    unfold pop
    split_ifs with he
    · exact hred
    · simp only
      omega
  | top =>
    simp only [step, Option.some.injEq] at hstep
    subst hstep
    exact hred
  | top_set obj =>
    simp only [step, Option.some.injEq] at hstep
    subst hstep
    unfold top_set
    split_ifs <;> exact hred
  | stack idx =>
    simp only [step, Option.some.injEq] at hstep
    subst hstep
    unfold stack
    split_ifs <;> exact hred
  | stack_set idx obj =>
    simp only [step, Option.some.injEq] at hstep
    subst hstep
    unfold stack_set
    split_ifs <;> exact hred
  | call callee =>
    simp only [step, call] at hstep
    split at hstep
    · cases hstep
    · rename_i rt1 avail hroom
      obtain ⟨hc, h2, -, h4⟩ := available_size_redzone W size hsz rt rt1 W avail hred
        (fun h => hwf (by simp [collects, h])) hroom
      obtain ⟨-, -, -, -, -, -, c7, -, -, -⟩ := hc
      simp only at c7
      split_ifs at hstep with hlt
      · simp only [Option.some.injEq] at hstep
        subst hstep
        simp only [error, c7]
        omega
      · simp only [Option.some.injEq] at hstep
        subst hstep
        have := h4 (by omega)
        simp only [c7]
        omega
  | ret =>
    simp only [step, Option.some.injEq] at hstep
    subst hstep
    by_cases he : rt.HighMem ≤ rt.Returns
    · rw [ret_of_empty W rt he]
      exact hred
    · rw [ret_of_caller W rt (by omega)]
      simp only
      omega
  | gc =>
    simp only [step, Option.map_eq_some'] at hstep
    obtain ⟨⟨r1, rec⟩, hgc, rfl⟩ := hstep
    obtain ⟨g1, g2⟩ := gc_bounds W size hsz rt r1 rec (hwf rfl) hgc
    obtain ⟨-, -, -, -, -, -, c7, -, -, -⟩ := gc_cursors W size rt r1 rec hgc
    simp only [c7]
    omega

/-- C12: starting from `memory(buf, size)` on an arena of at least `redzone`
    bytes, every state reached by a sequence of make, dispose, push, pop, top,
    stack, call, ret and gc operations has at least `redzone` bytes between
    `Temporaries` and `StackTop`. -/
theorem redzone_invariant (W : Nat) (size : (Nat → Nat) → Nat → Nat)
    (hsz : SizeByContent size) (rt : runtime) (h : Reachable W size rt) :
    rt.Temporaries + redzone ≤ rt.StackTop := by
  induction h with
  | init rt0 mem sz h =>
    simp only [memory]
    omega
  | caller rt b g e _ ih => exact ih
  | op rt rt' o _ hwf hstep ih =>
    exact step_redzone W size hsz rt rt' o ih hwf hstep

/-- Witness for `redzone_invariant`: in the arena `memory(100, 20)`, eight
    bytes are allocated and one object is pushed, which leaves exactly the red
    zone between `Temporaries = 108` and `StackTop = 116`. -/
theorem redzone_invariant_witness :
    (make 4 demoSize (memory demoStack 100 20) 8 0).map (fun r => r.2)
      = some { memory demoStack 100 20 with Temporaries := 108 } ∧
    push 4 demoSize { memory demoStack 100 20 with Temporaries := 108 } 100
      = some { memory demoStack 100 20 with
          Temporaries := 108
          StackTop := 116
          slots := Function.update demoStack.slots 116 100 } ∧
    ({ memory demoStack 100 20 with
        Temporaries := 108
        StackTop := 116
        slots := Function.update demoStack.slots 116 100 } : runtime).Temporaries
      + redzone ≤ 116 := by
  have h0 : Reachable 4 demoSize (memory demoStack 100 20) :=
    Reachable.init demoStack 100 20 (by decide)
  have h1 : Reachable 4 demoSize { memory demoStack 100 20 with Temporaries := 108 } :=
    Reachable.op _ _ (Op.make 8 0) h0 (fun hc => absurd hc (by decide)) rfl
  have h2 : Reachable 4 demoSize { memory demoStack 100 20 with
      Temporaries := 108
      StackTop := 116
      slots := Function.update demoStack.slots 116 100 } :=
    Reachable.op _ _ (Op.push 100) h1 (fun hc => absurd hc (by decide)) rfl
  exact ⟨rfl, rfl, redzone_invariant 4 demoSize demoSize_byContent _ h2⟩


/-! ## Display loop -/

/-- C30 (evaluation of the code): the test `dawdle_time > 10000` is a plain
    `if`, not an `else if`, so it overrides the two tests before it: after
    200 s and after 70 s of inactivity the period is 3000 ms, whatever it was
    before, where the comments announce 60000 ms and 10000 ms; after 30 s it is
    3000 ms and after 5 s it is the default 60000 ms, as announced. -/
theorem redraw_periodics_backoff :
    (∀ period, redraw_periodics period 200000 0 = 3000) ∧
    (∀ period, redraw_periodics period 70000 0 = 3000) ∧
    redraw_periodics 60000 30000 0 = 3000 ∧
    redraw_periodics 60000 5000 0 = 60000 := by
  refine ⟨fun period => ?_, fun period => ?_, by decide, by decide⟩
  · unfold redraw_periodics
    simp
  · unfold redraw_periodics
    simp

/-! ## Typed arguments -/

/-- C24: `arg<Obj>(level, def)` returns the object of slot `level` when the
    slot exists, is not null and holds an object whose type is
    `Obj::static_type()`; it returns `def` when the slot is null, holds another
    type, or does not exist; in every case the cursors, the depth, the slots and
    the bytes of the arena are unchanged. -/
theorem arg_contract (W : Nat) (type : (Nat → Nat) → Nat → Nat)
    (static_type : Nat) (rt : runtime) (level def_ : Nat) :
    (level < depth W rt → rt.slots (rt.StackTop + level * W) ≠ 0 →
      type rt.bytes (rt.slots (rt.StackTop + level * W)) = static_type →
      arg W type static_type rt level def_
        = (rt.slots (rt.StackTop + level * W), rt)) ∧
    (level < depth W rt →
      (rt.slots (rt.StackTop + level * W) = 0 ∨
        type rt.bytes (rt.slots (rt.StackTop + level * W)) ≠ static_type) →
      arg W type static_type rt level def_ = (def_, rt)) ∧
    (depth W rt ≤ level → (arg W type static_type rt level def_).1 = def_) ∧
    (arg W type static_type rt level def_).2.slots = rt.slots ∧
    (arg W type static_type rt level def_).2.StackTop = rt.StackTop ∧
    (arg W type static_type rt level def_).2.StackBottom = rt.StackBottom ∧
    depth W (arg W type static_type rt level def_).2 = depth W rt ∧
    (arg W type static_type rt level def_).2.bytes = rt.bytes := by
  have hin : level < depth W rt →
      stack W rt level = (rt.slots (rt.StackTop + level * W), rt) := by
    intro h
    unfold stack
    rw [if_neg (by omega)]
  have hout : depth W rt ≤ level →
      stack W rt level = (0, error rt "Insufficient stack depth") := by
    intro h
    unfold stack
    rw [if_pos h]
  have hstate : (arg W type static_type rt level def_).2 = (stack W rt level).2 := by
    unfold arg
    simp only
    split_ifs <;> rfl
  refine ⟨?_, ?_, ?_, ?_, ?_, ?_, ?_, ?_⟩
  · intro h h0 ht
    unfold arg
    simp only [hin h]
    rw [if_pos ⟨h0, ht⟩]
  · intro h hbad
    unfold arg
    simp only [hin h]
    rw [if_neg]
    rintro ⟨h0, ht⟩
    rcases hbad with hb | hb
    · exact h0 hb
    · exact hb ht
  · intro h
    unfold arg
    simp only [hout h]
    rw [if_neg (by simp)]
  all_goals
    rw [hstate]
    by_cases h : level < depth W rt
    · rw [hin h]
    · rw [hout (by omega)]
      rfl

/-- Witness for `arg_contract`: in `demoHeap 4` the slot of level 0 holds the
    object at 104, whose type byte is 0; level 1 does not exist. -/
theorem arg_contract_witness :
    (0 < depth 4 (demoHeap 4) ∧
      arg 4 demoType 0 (demoHeap 4) 0 77 = (104, demoHeap 4)) ∧
    (0 < depth 4 (demoHeap 4) ∧
      arg 4 demoType 9 (demoHeap 4) 0 77 = (77, demoHeap 4)) ∧
    (depth 4 (demoHeap 4) ≤ 1 ∧ (arg 4 demoType 0 (demoHeap 4) 1 77).1 = 77) := by
  have h1 := (arg_contract 4 demoType 0 (demoHeap 4) 0 77).1 (by decide) (by decide)
    (by decide)
  have h2 := (arg_contract 4 demoType 9 (demoHeap 4) 0 77).2.1 (by decide)
    (Or.inr (by decide))
  have h3 := (arg_contract 4 demoType 0 (demoHeap 4) 1 77).2.2.1 (by decide)
  exact ⟨⟨by decide, h1⟩, ⟨by decide, h2⟩, ⟨by decide, h3⟩⟩

/-! ## Termination of the heap walk -/

/-- The iterations of the heap walk on a chain of objects: one per object, in
    order, with `free` between its initial value and the object examined. -/
theorem gc_walk_spec (W : Nat) (size : (Nat → Nat) → Nat → Nat)
    (hsz : SizeByContent size) (last : Nat) :
    ∀ (os : List (Nat × Nat)) (fuel : Nat) (rt : runtime) (obj free : Nat),
      IsChain size rt.bytes obj last os → os.length < fuel → free ≤ obj →
      (gc_walk W size last fuel rt obj free).map (fun v => (v.1, v.2.1)) = os ∧
      ∀ v ∈ gc_walk W size last fuel rt obj free, free ≤ v.2.2 ∧ v.2.2 ≤ v.1 := by
  intro os
  induction os with
  | nil =>
    intro fuel rt obj free hch hf _
    simp only [IsChain] at hch
    cases fuel with
    | zero => simp at hf
    | succ n =>
      simp only [gc_walk]
      rw [if_neg (by omega)]
      simp
  | cons hd rest ih =>
    intro fuel rt obj free hch hf hfree
    obtain ⟨h1, h2, h3, h4, h5⟩ := hch
    obtain ⟨o, nx⟩ := hd
    simp only at h1 h2 h3 h4 h5
    subst h1
    cases fuel with
    | zero => simp at hf
    | succ n =>
      have hlen : rest.length < n := by simp at hf; omega
      have hnext : skip size rt o = nx := by rw [h2]; rfl
      simp only [gc_walk]
      rw [if_pos (by omega), hnext]
      by_cases hk : found W rt o nx = true
      · rw [if_pos hk]
        have hbytes_hi : ∀ x, nx ≤ x →
            (move W rt o nx free).bytes x = rt.bytes x := by
          intro x hx
          rw [move_bytes, if_neg (by omega)]
        obtain ⟨e1, e2⟩ := ih n (move W rt o nx free) nx (free + (nx - o))
          (IsChain_congr size hsz rt.bytes _ rest _ _ hbytes_hi h5) hlen (by omega)
        refine ⟨by simp only [List.map_cons, e1], ?_⟩
        intro v hv
        rcases List.mem_cons.mp hv with rfl | hr
        · exact ⟨le_refl _, hfree⟩
        · have := e2 v hr
          omega
      · rw [if_neg hk]
        obtain ⟨e1, e2⟩ := ih n rt nx free h5 hlen (by omega)
        refine ⟨by simp only [List.map_cons, e1], ?_⟩
        intro v hv
        rcases List.mem_cons.mp hv with rfl | hr
        · exact ⟨le_refl _, hfree⟩
        · exact e2 v hr

/-- C29: on a heap whose objects have positive sizes and reach `Temporaries`
    exactly, `gc()` returns; its heap walk examines each object once, in
    address order, and whenever it examines an object `o` the destination
    cursor `free` satisfies `Globals <= free <= o`. -/
theorem gc_terminates (W : Nat) (size : (Nat → Nat) → Nat → Nat)
    (hsz : SizeByContent size) (rt : runtime) (os : List (Nat × Nat))
    (hwf : heapObjects size rt = some os) :
    (∃ rt' recycled, gc W size rt = some (rt', recycled)) ∧
    (gc_walk W size rt.Temporaries (rt.Temporaries - rt.Globals + 1) rt
        rt.Globals rt.Globals).map (fun v => (v.1, v.2.1)) = os ∧
    ∀ v ∈ gc_walk W size rt.Temporaries (rt.Temporaries - rt.Globals + 1) rt
        rt.Globals rt.Globals,
      rt.Globals ≤ v.2.2 ∧ v.2.2 ≤ v.1 := by
  have hch : IsChain size rt.bytes rt.Globals rt.Temporaries os :=
    heapWalk_chain size rt.bytes rt.Temporaries _ _ _ hwf
  obtain ⟨htot, hlen⟩ := IsChain_totalSize size rt.bytes os _ _ hch
  obtain ⟨rt', hgc, -⟩ := gc_spec W size hsz rt os hwf
  exact ⟨⟨rt', _, hgc⟩,
    gc_walk_spec W size hsz rt.Temporaries os _ rt rt.Globals rt.Globals hch
      (by omega) (le_refl _)⟩

/-- Witness for `gc_terminates`: the two objects of `demoHeap 4`. -/
theorem gc_terminates_witness :
    heapObjects demoSize (demoHeap 4) = some [(100, 104), (104, 107)] ∧
    (∃ rt' recycled, gc 4 demoSize (demoHeap 4) = some (rt', recycled)) ∧
    (gc_walk 4 demoSize (demoHeap 4).Temporaries
        ((demoHeap 4).Temporaries - (demoHeap 4).Globals + 1) (demoHeap 4)
        (demoHeap 4).Globals (demoHeap 4).Globals).map (fun v => (v.1, v.2.1))
      = [(100, 104), (104, 107)] := by
  have h := gc_terminates 4 demoSize demoSize_byContent (demoHeap 4)
    [(100, 104), (104, 107)] (by decide)
  exact ⟨by decide, h.1, h.2.1⟩


/-! ## The editor buffer during a collection -/

/-- The bytes of `gc_finish`: when an editor is open, the range of `Editing`
    bytes that starts at `Temporaries - recycled` receives the bytes of the
    editor buffer. -/
theorem gc_finish_editor (W : Nat) (rt : runtime) (recycled i : Nat)
    (hi : i < rt.Editing) :
    (gc_finish W rt recycled).bytes (rt.Temporaries - recycled + i)
      = rt.bytes (rt.Temporaries + i) := by
  unfold gc_finish
  have hE : rt.Editing ≠ 0 := by omega
  simp only [hE, if_true, ne_eq, not_false_eq_true]
  rw [move_bytes, if_pos (by omega)]
  congr 1
  omega

/-- The editor buffer after a collection of a well-formed heap whose editor
    buffer ends at or below `StackTop`: `Temporaries` is lower by the recycled
    count, `Editing` is unchanged, the bytes of the buffer follow the new
    `Temporaries`, and the buffer still ends at or below `StackTop`. -/
theorem gc_editor_bytes (W : Nat) (size : (Nat → Nat) → Nat → Nat)
    (hsz : SizeByContent size) (rt : runtime) (os : List (Nat × Nat))
    (hwf : heapObjects size rt = some os)
    (hlayout : rt.Temporaries + rt.Editing ≤ rt.StackTop)
    (rt' : runtime) (recycled : Nat)
    (hgc : gc W size rt = some (rt', recycled)) :
    rt'.Temporaries + recycled = rt.Temporaries ∧
    rt'.Editing = rt.Editing ∧
    (∀ i, i < rt.Editing →
      rt'.bytes (rt'.Temporaries + i) = rt.bytes (rt.Temporaries + i)) ∧
    rt'.Temporaries + rt'.Editing ≤ rt'.StackTop := by
  have hch : IsChain size rt.bytes rt.Globals rt.Temporaries os :=
    heapWalk_chain size rt.bytes rt.Temporaries _ _ _ hwf
  obtain ⟨htot, hlen⟩ := IsChain_totalSize size rt.bytes os _ _ hch
  have hsplit := totalSize_split (found W rt) os
  obtain ⟨rt1, e1, -, -, e4, -⟩ := gc_loop_spec W size hsz (found W rt)
    rt.Temporaries os (rt.Temporaries - rt.Globals + 1) rt rt.Globals rt.Globals 0
    hch (by omega) (le_refl _) (fun _ _ => rfl)
  have hc := gc_loop_sameCursors W size _ _ _ _ _ _ _ e1
  obtain ⟨-, -, -, -, c5, c6, -, -, -, -⟩ := hc
  simp only at c5 c6
  have hgc2 : gc W size rt = some (gc_finish W rt1
      (totalSize (recycledObjects (found W rt) os)),
      totalSize (recycledObjects (found W rt) os)) := by
    unfold gc
    rw [e1]
    simp only [Nat.zero_add]
  rw [hgc2] at hgc
  simp only [Option.some.injEq, Prod.mk.injEq] at hgc
  obtain ⟨g1, g2⟩ := hgc
  subst g1
  subst g2
  have hT : (gc_finish W rt1 (totalSize (recycledObjects (found W rt) os))).Temporaries
      = rt.Temporaries - totalSize (recycledObjects (found W rt) os) := by
    rw [(gc_finish_sameCursors W rt1 _).2, c5]
  obtain ⟨-, -, -, -, -, d6, d7, -, -, -⟩ := gc_cursors W size rt _ _ hgc2
  refine ⟨by rw [hT]; omega, d6, ?_, by rw [hT, d6, d7]; omega⟩
  intro i hi
  have h := gc_finish_editor W rt1 (totalSize (recycledObjects (found W rt) os)) i
    (by omega)
  rw [c5] at h
  rw [hT, h]
  exact e4 _ (Or.inr (by omega))

/-- C23: on a well-formed heap with an editor buffer of `Editing` bytes at
    `Temporaries` that ends at or below `StackTop`, `gc()` returns with the new
    `Temporaries` lower by the recycled count, `Editing` unchanged, and byte
    `i` of the buffer (for every `i < Editing`) found at the new
    `Temporaries + i`; when nothing is recycled `Temporaries` and the bytes of
    the buffer are where they were. -/
theorem gc_moves_editor (W : Nat) (size : (Nat → Nat) → Nat → Nat)
    (hsz : SizeByContent size) (rt : runtime) (os : List (Nat × Nat))
    (hwf : heapObjects size rt = some os)
    (hlayout : rt.Temporaries + rt.Editing ≤ rt.StackTop) :
    ∃ rt' recycled, gc W size rt = some (rt', recycled) ∧
      rt'.Temporaries + recycled = rt.Temporaries ∧
      rt'.Editing = rt.Editing ∧
      (∀ i, i < rt.Editing →
        rt'.bytes (rt'.Temporaries + i) = rt.bytes (rt.Temporaries + i)) ∧
      (recycled = 0 → rt'.Temporaries = rt.Temporaries ∧
        ∀ i, i < rt.Editing →
          rt'.bytes (rt.Temporaries + i) = rt.bytes (rt.Temporaries + i)) := by
  obtain ⟨rt', hgc, -⟩ := gc_spec W size hsz rt os hwf
  obtain ⟨h1, h2, h3, -⟩ := gc_editor_bytes W size hsz rt os hwf hlayout rt' _ hgc
  refine ⟨rt', _, hgc, h1, h2, h3, ?_⟩
  intro h0
  have hT : rt'.Temporaries = rt.Temporaries := by omega
  refine ⟨hT, ?_⟩
  intro i hi
  have := h3 i hi
  rw [hT] at this
  exact this

/-- Witness for `gc_moves_editor`: in `demoEditorText` the 2-byte object at 100
    is recycled and the buffer 72, 105, 33 moves from 102 down to 100. -/
theorem gc_moves_editor_witness :
    heapObjects demoSize demoEditorText = some [(100, 102)] ∧
    demoEditorText.Temporaries + demoEditorText.Editing ≤ demoEditorText.StackTop ∧
    ∃ rt' recycled, gc 4 demoSize demoEditorText = some (rt', recycled) ∧
      recycled = 2 ∧ rt'.Temporaries = 100 ∧ rt'.Editing = 3 ∧
      rt'.bytes 100 = 72 ∧ rt'.bytes 101 = 105 ∧ rt'.bytes 102 = 33 := by
  obtain ⟨rt', recycled, h1, h2, h3, h4, -⟩ :=
    gc_moves_editor 4 demoSize demoSize_byContent demoEditorText [(100, 102)]
      (by decide) (by decide)
  have hr : gc 4 demoSize demoEditorText
      = some (gc_finish 4 demoEditorText 2, 2) := rfl
  rw [hr] at h1
  simp only [Option.some.injEq, Prod.mk.injEq] at h1
  obtain ⟨h1a, h1b⟩ := h1
  subst h1b
  have hT : rt'.Temporaries = 100 := by
    have : demoEditorText.Temporaries = 102 := rfl
    omega
  refine ⟨by decide, by decide, rt', 2, by rw [hr, h1a], rfl, hT, h3, ?_, ?_, ?_⟩
  · have := h4 0 (by decide)
    rw [hT] at this
    exact this
  · have := h4 1 (by decide)
    rw [hT] at this
    exact this
  · have := h4 2 (by decide)
    rw [hT] at this
    exact this

/-! ## Repeated collection -/

/-- The heap walk changes nothing when the scan finds every object: each
    object is "moved" to where it is. -/
theorem gc_loop_fixpoint (W : Nat) (size : (Nat → Nat) → Nat → Nat) (last : Nat) :
    ∀ (os : List (Nat × Nat)) (fuel : Nat) (rt : runtime) (obj recycled : Nat),
      IsChain size rt.bytes obj last os → os.length < fuel →
      (∀ ob ∈ os, found W rt ob.1 ob.2 = true) →
      gc_loop W size last fuel rt obj obj recycled = some (rt, last, recycled) := by
  intro os
  induction os with
  | nil =>
    intro fuel rt obj recycled hch hf _
    simp only [IsChain] at hch
    cases fuel with
    | zero => simp at hf
    | succ n =>
      simp only [gc_loop]
      rw [if_neg (by omega), hch]
  | cons hd rest ih =>
    intro fuel rt obj recycled hch hf hall
    obtain ⟨h1, h2, h3, h4, h5⟩ := hch
    obtain ⟨o, nx⟩ := hd
    simp only at h1 h2 h3 h4 h5
    subst h1
    cases fuel with
    | zero => simp at hf
    | succ n =>
      have hlen : rest.length < n := by simp at hf; omega
      have hnext : skip size rt o = nx := by rw [h2]; rfl
      have hk : found W rt o nx = true := hall (o, nx) (List.mem_cons_self _ _)
      have hmove : move W rt o nx o = rt := by
        unfold move
        rw [if_pos rfl]
      have hfree : o + (nx - o) = nx := by omega
      simp only [gc_loop]
      rw [if_pos (by omega), hnext, if_pos hk, hmove, hfree]
      exact ih n rt nx recycled h5 hlen
        (fun ob hob => hall ob (List.mem_cons_of_mem _ hob))

theorem gc_finish_zero (W : Nat) (rt : runtime) : gc_finish W rt 0 = rt := by
  unfold gc_finish
  have hmove : move W rt rt.Temporaries (rt.Temporaries + rt.Editing)
      (rt.Temporaries - 0) = rt := by
    unfold move
    rw [if_pos (Nat.sub_zero _)]
  rw [hmove]
  cases rt
  simp

/-- A collection changes nothing, and recycles nothing, on a well-formed heap
    where the scan finds every object. -/
theorem gc_fixpoint (W : Nat) (size : (Nat → Nat) → Nat → Nat) (rt : runtime)
    (os : List (Nat × Nat))
    (hch : IsChain size rt.bytes rt.Globals rt.Temporaries os)
    (hall : ∀ ob ∈ os, found W rt ob.1 ob.2 = true) :
    gc W size rt = some (rt, 0) := by
  obtain ⟨htot, hlen⟩ := IsChain_totalSize size rt.bytes os _ _ hch
  unfold gc
  rw [gc_loop_fixpoint W size rt.Temporaries os _ rt rt.Globals 0 hch (by omega) hall]
  simp only [gc_finish_zero]

/-- Where the end of a retained object goes: it is the end of the packed
    heap when the object is the last one; otherwise it is the start of the next
    object, which lands right after the object when it is retained too. -/
theorem relocate_end (size : (Nat → Nat) → Nat → Nat) (m : Nat → Nat)
    (keep : Nat → Nat → Bool) :
    ∀ (os : List (Nat × Nat)) (a b free : Nat), IsChain size m a b os →
      ∀ ob ∈ os, keep ob.1 ob.2 = true →
        (ob.2 = b ∧ relocate keep os free ob.1 + (ob.2 - ob.1)
            = free + totalSize (survivors keep os)) ∨
        (∃ ob2 ∈ os, ob2.1 = ob.2 ∧
          (keep ob2.1 ob2.2 = true →
            relocate keep os free ob2.1
              = relocate keep os free ob.1 + (ob.2 - ob.1))) := by
  intro os
  induction os with
  | nil => intro a b free _ ob hob; simp at hob
  | cons hd rest ih =>
    intro a b free h ob hob hk
    obtain ⟨h1, h2, h3, h4, h5⟩ := h
    rcases List.mem_cons.mp hob with rfl | hr
    · have hhead : relocate keep (ob :: rest) free ob.1 = free := by
        simp only [relocate]
        rw [if_pos hk, if_pos ⟨le_refl _, by omega⟩]
        omega
      cases rest with
      | nil =>
        left
        simp only [IsChain] at h5
        refine ⟨h5, ?_⟩
        rw [hhead, totalSize_survivors_cons, if_pos hk]
        simp [survivors, totalSize]
      | cons c rest' =>
        right
        obtain ⟨c1, c2, c3, c4, c5⟩ := h5
        refine ⟨c, by simp, c1, ?_⟩
        intro hkc
        rw [hhead]
        simp only [relocate]
        rw [if_pos hk, if_neg (by omega), if_pos hkc, if_pos ⟨le_refl _, by omega⟩]
        omega
    · obtain ⟨g1, g2, g3, g4⟩ := IsChain_mem size m rest _ _ h5 ob hr
      have hshift : ∀ x, hd.2 ≤ x →
          relocate keep (hd :: rest) free x
            = relocate keep rest
                (free + (if keep hd.1 hd.2 = true then hd.2 - hd.1 else 0)) x := by
        intro x hx
        simp only [relocate]
        by_cases hkh : keep hd.1 hd.2 = true
        · rw [if_pos hkh, if_neg (by omega), if_pos hkh]
        · rw [if_neg hkh, if_neg hkh, Nat.add_zero]
      rcases ih _ _ (free + (if keep hd.1 hd.2 = true then hd.2 - hd.1 else 0)) h5 ob hr hk
        with ⟨e1, e2⟩ | ⟨ob2, hob2, e1, e2⟩
      · left
        refine ⟨e1, ?_⟩
        rw [hshift _ g1, e2, totalSize_survivors_cons]
        omega
      · right
        obtain ⟨k1, -, -, -⟩ := IsChain_mem size m rest _ _ h5 ob2 hob2
        refine ⟨ob2, List.mem_cons_of_mem _ hob2, e1, ?_⟩
        intro hk2
        rw [hshift _ k1, hshift _ g1]
        exact e2 hk2


/-- A second collection right after a collection of a well-formed heap
    recycles nothing and changes nothing, provided no safe pointer holds the
    address `Temporaries` while no editor is open. -/
theorem gc_twice_of_safe (W : Nat) (size : (Nat → Nat) → Nat → Nat)
    (hsz : SizeByContent size) (rt : runtime) (os : List (Nat × Nat))
    (hwf : heapObjects size rt = some os)
    (hsafe : ∀ p ∈ rt.GCSafe, p.safe = rt.Temporaries → rt.Editing ≠ 0) :
    ∃ rt' recycled, gc W size rt = some (rt', recycled) ∧
      gc W size rt' = some (rt', 0) := by
  have hch : IsChain size rt.bytes rt.Globals rt.Temporaries os :=
    heapWalk_chain size rt.bytes rt.Temporaries _ _ _ hwf
  obtain ⟨rt', hgc, htot, hT, hslots, hptrs, hbytes⟩ := gc_spec W size hsz rt os hwf
  obtain ⟨-, -, -, cG, -, -, cST, cSB, -, -⟩ := gc_cursors W size rt rt' _ hgc
  have haddrs : stackAddrs W rt' = stackAddrs W rt := by
    unfold stackAddrs
    rw [cST, cSB]
  have hnew := survivors_chain size hsz (found W rt) rt.bytes rt'.bytes os
    rt.Globals rt.Temporaries rt.Globals hch hbytes
  refine ⟨rt', _, hgc, ?_⟩
  apply gc_fixpoint W size rt' _ (by rw [cG, hT]; exact hnew)
  intro ob' hob'
  obtain ⟨ob, hsurv, rfl⟩ := List.mem_map.mp hob'
  obtain ⟨hob, hk⟩ := (mem_survivors _ _ _).mp hsurv
  obtain ⟨m1, m2, m3, -⟩ := IsChain_mem size rt.bytes os _ _ hch ob hob
  simp only
  rw [found_iff]
  rcases (found_iff W rt _ _).mp hk with ⟨s, hs, b1, b2⟩ | ⟨p, hp, b1, b2⟩
  · left
    refine ⟨s, by rw [haddrs]; exact hs, ?_⟩
    rw [hslots s, if_pos hs, (newAddress_inside W size rt os hch ob hob hk _ b1 b2).1]
    unfold newAddress
    omega
  · right
    refine ⟨{ p with safe := (editorShift rt
        (totalSize (recycledObjects (found W rt) os)) (newAddress W rt os p.safe)) },
      by rw [hptrs]; exact List.mem_map.mpr ⟨p, hp, rfl⟩, ?_⟩
    simp only
    by_cases hlt : p.safe < ob.2
    · rw [(newAddress_inside W size rt os hch ob hob hk _ b1 hlt).1]
      unfold newAddress
      omega
    · have hend : p.safe = ob.2 := by omega
      rcases relocate_end size rt.bytes (found W rt) os _ _ rt.Globals hch ob hob hk
        with ⟨e1, e2⟩ | ⟨ob2, hob2, e1, e2⟩
      · have hE := hsafe p hp (by omega)
        have hout : newAddress W rt os p.safe = p.safe := by
          unfold newAddress
          exact relocate_outside size rt.bytes (found W rt) os _ _ _ _ hch
            (Or.inr (by omega))
        rw [hout]
        unfold editorShift
        rw [if_pos ⟨by omega, by omega⟩]
        omega
      · obtain ⟨k1, k2, k3, -⟩ := IsChain_mem size rt.bytes os _ _ hch ob2 hob2
        have hk2 : found W rt ob2.1 ob2.2 = true :=
          (found_iff W rt _ _).mpr (Or.inr ⟨p, hp, by omega, by omega⟩)
        have hin := (newAddress_inside W size rt os hch ob2 hob2 hk2 p.safe
          (by omega) (by omega)).1
        rw [hin]
        have := e2 hk2
        unfold newAddress
        omega

/-- C28 (evaluation of the code): in `demoSafeEnd` the heap holds the objects
    `[100, 102)` and `[102, 105)`, the stack is empty, no editor is open and
    the only safe pointer holds 105.  The first `gc()` recycles 2 bytes: the
    scan accepts `p->safe <= next` for the second object, which moves to 100,
    while `move` shifts only the pointers with `p->safe < next`, so the safe
    pointer stays at 105.  The second `gc()` then finds no reference to the
    object and recycles 3 more bytes, leaving `Temporaries` at 100. -/
theorem gc_twice_recycles_more :
    heapObjects demoSize demoSafeEnd = some [(100, 102), (102, 105)] ∧
    (gc 4 demoSize demoSafeEnd).map (fun r => (r.2, r.1.Temporaries, r.1.GCSafe))
      = some (2, 103, [{ self := 1000, safe := 105 }]) ∧
    ((gc 4 demoSize demoSafeEnd).bind (fun r => gc 4 demoSize r.1)).map
        (fun r => (r.2, r.1.Temporaries))
      = some (3, 100) := by
  decide


/-! ## Closing the editor -/

theorem writeBytes_inside (m : Nat → Nat) (p : Nat) (bs : List Nat) (i : Nat)
    (hi : i < bs.length) : writeBytes m p bs (p + i) = bs.getD i 0 := by
  unfold writeBytes
  rw [if_pos (by omega)]
  congr 1
  omega

theorem writeBytes_outside (m : Nat → Nat) (p : Nat) (bs : List Nat) (a : Nat)
    (ha : a < p ∨ p + bs.length ≤ a) : writeBytes m p bs a = m a := by
  unfold writeBytes
  rw [if_neg (by omega)]

/-- What `close_editor()` does once the availability check has left the state
    `rt1` and a count `avail`. -/
theorem close_editor_of_room (W : Nat) (size : (Nat → Nat) → Nat → Nat)
    (ID_string : Nat) (rt rt1 : runtime) (avail : Nat)
    (hroom : available_size W size rt
      (leb128size ID_string + leb128size (rt.Editing + 1)) = some (rt1, avail))
    (hE : rt1.Editing = rt.Editing) :
    (avail < leb128size ID_string + leb128size (rt.Editing + 1) →
      close_editor W size ID_string rt = some (0, rt1)) ∧
    (leb128size ID_string + leb128size (rt.Editing + 1) ≤ avail →
      ∃ rt', close_editor W size ID_string rt
          = some (rt1.Temporaries + (leb128size ID_string
              + leb128size (rt.Editing + 1)), rt') ∧
        (∀ i, i < leb128size ID_string →
          rt'.bytes (rt1.Temporaries + i) = (leb128bytes ID_string).getD i 0) ∧
        (∀ i, i < leb128size (rt.Editing + 1) →
          rt'.bytes (rt1.Temporaries + leb128size ID_string + i)
            = (leb128bytes (rt.Editing + 1)).getD i 0) ∧
        (∀ i, i < rt.Editing →
          rt'.bytes (rt1.Temporaries + (leb128size ID_string
              + leb128size (rt.Editing + 1)) + i)
            = rt1.bytes (rt1.Temporaries + i)) ∧
        rt'.bytes (rt1.Temporaries + (leb128size ID_string
            + leb128size (rt.Editing + 1)) + rt.Editing) = 0 ∧
        rt'.Editing = 0 ∧
        rt'.Temporaries = rt1.Temporaries + (leb128size ID_string
            + leb128size (rt.Editing + 1)) + rt.Editing + 1) := by
  constructor
  · intro h
    unfold close_editor
    simp only [hroom]
    rw [if_pos h]
  · intro h
    unfold close_editor
    simp only [hroom]
    rw [if_neg (by omega)]
    refine ⟨_, rfl, ?_, ?_, ?_, ?_, ?_, ?_⟩
    · intro i hi
      show (leb128 (leb128 _ _ _).1 (leb128 _ _ _).2 _).1 _ = _
      simp only [leb128]
      rw [writeBytes_outside _ _ _ _ (Or.inl (by omega))]
      exact writeBytes_inside _ _ _ i hi
    · intro i hi
      show (leb128 (leb128 _ _ _).1 (leb128 _ _ _).2 _).1 _ = _
      simp only [leb128, hE]
      exact writeBytes_inside _ _ _ i hi
    · intro i hi
      show (leb128 (leb128 _ _ _).1 (leb128 _ _ _).2 _).1 _ = _
      simp only [leb128, hE]
      rw [writeBytes_outside _ _ _ _ (Or.inr (by unfold leb128size; omega)),
        writeBytes_outside _ _ _ _ (Or.inr (by unfold leb128size; omega)),
        Function.update_noteq (by omega)]
      unfold memcpy
      rw [if_pos (by omega)]
      congr 1
      omega
    · show (leb128 (leb128 _ _ _).1 (leb128 _ _ _).2 _).1 _ = _
      simp only [leb128, hE]
      rw [writeBytes_outside _ _ _ _ (Or.inr (by unfold leb128size; omega)),
        writeBytes_outside _ _ _ _ (Or.inr (by unfold leb128size; omega)),
        Function.update_same]
    · rfl
    · show _ + rt1.Editing + 1 = _
      rw [hE]


/-- C22 (counterexample): in `demoClose` the editor buffer sits at
    `Temporaries = 104` and no room is available, so the availability check of
    `close_editor()` collects the dead object at 100 and the buffer moves to
    100.  With `ID_string = 5` the string object is built at 100 (bytes 5, 4,
    72, 105, 33, 0), the returned pointer is 102 and the new `Temporaries` is
    106: the byte at the old `Temporaries` is the last character, not the type
    id, and `Temporaries` is not the end of an object that starts at 104. -/
theorem close_editor_after_collection :
    demoClose.Temporaries = 104 ∧
    (close_editor 4 demoSize 5 demoClose).map (fun r =>
        (r.1, r.2.Temporaries, r.2.Editing,
          (List.range 6).map (fun i => r.2.bytes (100 + i))))
      = some (102, 106, 0, [5, 4, 72, 105, 33, 0]) := by
  decide

/-- C22 (amended): on a well-formed heap whose editor buffer ends at or below
    `StackTop`, the availability check of
    `close_editor()` returns a state `rt1` whose `Temporaries` is at most the
    old one, and is the old state when the header fits in `available()`.  When
    the check grants the header size, `close_editor()` builds at
    `rt1.Temporaries` the LEB128 bytes of `ID_string`, the LEB128 bytes of
    `Editing + 1`, the `Editing` bytes of the editor buffer in order and a 0
    byte; it returns the address of the first of the copied editor bytes, sets
    `Editing` to 0 and `Temporaries` to the address after the 0 byte.  When the
    check grants less, `close_editor()` returns null. -/
theorem close_editor_contract (W : Nat) (size : (Nat → Nat) → Nat → Nat)
    (hsz : SizeByContent size) (ID_string : Nat) (rt : runtime)
    (os : List (Nat × Nat)) (hwf : heapObjects size rt = some os)
    (hlayout : rt.Temporaries + rt.Editing ≤ rt.StackTop) :
    ∃ rt1 avail,
      available_size W size rt (leb128size ID_string + leb128size (rt.Editing + 1))
        = some (rt1, avail) ∧
      rt1.Temporaries ≤ rt.Temporaries ∧
      (leb128size ID_string + leb128size (rt.Editing + 1) ≤ available W rt →
        rt1 = rt) ∧
      (avail < leb128size ID_string + leb128size (rt.Editing + 1) →
        close_editor W size ID_string rt = some (0, rt1)) ∧
      (leb128size ID_string + leb128size (rt.Editing + 1) ≤ avail →
        ∃ rt', close_editor W size ID_string rt
            = some (rt1.Temporaries + (leb128size ID_string
                + leb128size (rt.Editing + 1)), rt') ∧
          (∀ i, i < leb128size ID_string →
            rt'.bytes (rt1.Temporaries + i) = (leb128bytes ID_string).getD i 0) ∧
          (∀ i, i < leb128size (rt.Editing + 1) →
            rt'.bytes (rt1.Temporaries + leb128size ID_string + i)
              = (leb128bytes (rt.Editing + 1)).getD i 0) ∧
          (∀ i, i < rt.Editing →
            rt'.bytes (rt1.Temporaries + (leb128size ID_string
                + leb128size (rt.Editing + 1)) + i)
              = rt.bytes (rt.Temporaries + i)) ∧
          rt'.bytes (rt1.Temporaries + (leb128size ID_string
              + leb128size (rt.Editing + 1)) + rt.Editing) = 0 ∧
          rt'.Editing = 0 ∧
          rt'.Temporaries = rt1.Temporaries + (leb128size ID_string
              + leb128size (rt.Editing + 1)) + rt.Editing + 1) := by
  by_cases hlt : available W rt < leb128size ID_string + leb128size (rt.Editing + 1)
  · obtain ⟨rt1, hgc, -⟩ := gc_spec W size hsz rt os hwf
    obtain ⟨g1, g2, g3, -⟩ := gc_editor_bytes W size hsz rt os hwf hlayout rt1 _ hgc
    have hroom : available_size W size rt
        (leb128size ID_string + leb128size (rt.Editing + 1))
        = some (rt1, totalSize (recycledObjects (found W rt) os)) := by
      unfold available_size
      rw [if_pos hlt, hgc]
    obtain ⟨c1, c2⟩ := close_editor_of_room W size ID_string rt rt1 _ hroom g2
    refine ⟨rt1, _, hroom, by omega, fun h => absurd hlt (by omega), c1, ?_⟩
    intro h
    obtain ⟨rt', d1, d2, d3, d4, d5, d6, d7⟩ := c2 h
    refine ⟨rt', d1, d2, d3, ?_, d5, d6, d7⟩
    intro i hi
    rw [d4 i hi]
    exact g3 i hi
  · have hroom : available_size W size rt
        (leb128size ID_string + leb128size (rt.Editing + 1))
        = some (rt, leb128size ID_string + leb128size (rt.Editing + 1)) := by
      unfold available_size
      rw [if_neg hlt]
    obtain ⟨c1, c2⟩ := close_editor_of_room W size ID_string rt rt _ hroom rfl
    exact ⟨rt, _, hroom, le_refl _, fun _ => rfl, c1, c2⟩

/-- Witness for `close_editor_contract`: the state `demoClose`, whose heap is
    the single object `[100, 104)`, with `ID_string = 5`. -/
theorem close_editor_contract_witness :
    heapObjects demoSize demoClose = some [(100, 104)] ∧
    demoClose.Temporaries + demoClose.Editing ≤ demoClose.StackTop ∧
    ∃ rt1 avail,
      available_size 4 demoSize demoClose
          (leb128size 5 + leb128size (demoClose.Editing + 1)) = some (rt1, avail) ∧
      rt1.Temporaries ≤ demoClose.Temporaries ∧
      (leb128size 5 + leb128size (demoClose.Editing + 1) ≤ available 4 demoClose →
        rt1 = demoClose) ∧
      (avail < leb128size 5 + leb128size (demoClose.Editing + 1) →
        close_editor 4 demoSize 5 demoClose = some (0, rt1)) ∧
      (leb128size 5 + leb128size (demoClose.Editing + 1) ≤ avail →
        ∃ rt', close_editor 4 demoSize 5 demoClose
            = some (rt1.Temporaries + (leb128size 5
                + leb128size (demoClose.Editing + 1)), rt') ∧
          (∀ i, i < leb128size 5 →
            rt'.bytes (rt1.Temporaries + i) = (leb128bytes 5).getD i 0) ∧
          (∀ i, i < leb128size (demoClose.Editing + 1) →
            rt'.bytes (rt1.Temporaries + leb128size 5 + i)
              = (leb128bytes (demoClose.Editing + 1)).getD i 0) ∧
          (∀ i, i < demoClose.Editing →
            rt'.bytes (rt1.Temporaries + (leb128size 5
                + leb128size (demoClose.Editing + 1)) + i)
              = demoClose.bytes (demoClose.Temporaries + i)) ∧
          rt'.bytes (rt1.Temporaries + (leb128size 5
              + leb128size (demoClose.Editing + 1)) + demoClose.Editing) = 0 ∧
          rt'.Editing = 0 ∧
          rt'.Temporaries = rt1.Temporaries + (leb128size 5
              + leb128size (demoClose.Editing + 1)) + demoClose.Editing + 1) :=
  ⟨by decide, by decide,
    close_editor_contract 4 demoSize demoSize_byContent 5 demoClose [(100, 104)]
      (by decide) (by decide)⟩


/-! ## Complex numbers -/

theorem memcpy_inside (m : Nat → Nat) (dst src n i : Nat) (hi : i < n) :
    memcpy m dst src n (dst + i) = m (src + i) := by
  unfold memcpy
  rw [if_pos (by omega)]
  congr 1
  omega

theorem memcpy_outside (m : Nat → Nat) (dst src n a : Nat)
    (ha : a < dst ∨ dst + n ≤ a) : memcpy m dst src n a = m a := by
  unfold memcpy
  rw [if_neg (by omega)]

/-- C27: let `x` and `y` be objects that do not overlap the
    `required_memory(id, x, y) = leb128size(id) + size(x) + size(y)` bytes at
    `this`, and let `payload` skip the encoded type id.  After
    `complex(x, y, id)` has run at `this`, the type id is followed by the bytes
    of `x` and then by the bytes of `y`: `x()` is the start of the payload and
    designates a byte-identical copy of `x` of the same size, `y()` is
    `payload + size(x)` and designates a byte-identical copy of `y` of the same
    size, and the copy of `y` ends where the `required_memory` bytes end. -/
theorem complex_payload (size : (Nat → Nat) → Nat → Nat) (hsz : SizeByContent size)
    (payload : (Nat → Nat) → Nat → Nat) (m : Nat → Nat) (this x y ty : Nat)
    (hpay : ∀ m' : Nat → Nat,
      (∀ i, i < leb128size ty → m' (this + i) = (leb128bytes ty).getD i 0) →
      payload m' this = this + leb128size ty)
    (hx : x + size m x ≤ this ∨ this + required_memory size m ty x y ≤ x)
    (hy : y + size m y ≤ this ∨ this + required_memory size m ty x y ≤ y) :
    (∀ i, i < leb128size ty →
      complex_ctor size payload m this x y ty (this + i)
        = (leb128bytes ty).getD i 0) ∧
    complex_x payload (complex_ctor size payload m this x y ty) this
      = this + leb128size ty ∧
    (∀ i, i < size m x →
      complex_ctor size payload m this x y ty
          (complex_x payload (complex_ctor size payload m this x y ty) this + i)
        = m (x + i)) ∧
    size (complex_ctor size payload m this x y ty)
        (complex_x payload (complex_ctor size payload m this x y ty) this)
      = size m x ∧
    complex_y size payload (complex_ctor size payload m this x y ty) this
      = this + leb128size ty + size m x ∧
    (∀ i, i < size m y →
      complex_ctor size payload m this x y ty
          (complex_y size payload (complex_ctor size payload m this x y ty) this + i)
        = m (y + i)) ∧
    size (complex_ctor size payload m this x y ty)
        (complex_y size payload (complex_ctor size payload m this x y ty) this)
      = size m y ∧
    complex_y size payload (complex_ctor size payload m this x y ty) this + size m y
      = this + required_memory size m ty x y := by
  unfold required_memory at hx hy
  -- the memory after `object(id)`
  have h0in : ∀ i, i < leb128size ty →
      object_ctor m this ty (this + i) = (leb128bytes ty).getD i 0 := by
    intro i hi
    exact writeBytes_inside _ _ _ i hi
  have h0out : ∀ a, a < this ∨ this + leb128size ty ≤ a →
      object_ctor m this ty a = m a := by
    intro a ha
    exact writeBytes_outside _ _ _ _ ha
  have hxs : size (object_ctor m this ty) x = size m x := by
    apply hsz
    intro i hi
    exact h0out _ (by omega)
  have hys : size (object_ctor m this ty) y = size m y := by
    apply hsz
    intro i hi
    exact h0out _ (by omega)
  have hp0 : payload (object_ctor m this ty) this = this + leb128size ty :=
    hpay _ h0in
  -- the memory after the two copies
  have hm : complex_ctor size payload m this x y ty
      = memcpy (memcpy (object_ctor m this ty) (this + leb128size ty) x (size m x))
          (this + leb128size ty + size m x) y (size m y) := by
    unfold complex_ctor
    simp only [hp0, hxs, hys]
  have hhdr : ∀ i, i < leb128size ty →
      complex_ctor size payload m this x y ty (this + i)
        = (leb128bytes ty).getD i 0 := by
    intro i hi
    rw [hm, memcpy_outside _ _ _ _ _ (Or.inl (by omega)),
      memcpy_outside _ _ _ _ _ (Or.inl (by omega))]
    exact h0in i hi
  have hpx : complex_x payload (complex_ctor size payload m this x y ty) this
      = this + leb128size ty := hpay _ hhdr
  have hxb : ∀ i, i < size m x →
      complex_ctor size payload m this x y ty (this + leb128size ty + i)
        = m (x + i) := by
    intro i hi
    rw [hm, memcpy_outside _ _ _ _ _ (Or.inl (by omega)), memcpy_inside _ _ _ _ _ hi]
    exact h0out _ (by omega)
  have hyb : ∀ i, i < size m y →
      complex_ctor size payload m this x y ty (this + leb128size ty + size m x + i)
        = m (y + i) := by
    intro i hi
    rw [hm, memcpy_inside _ _ _ _ _ hi, memcpy_outside _ _ _ _ _ (by omega)]
    exact h0out _ (by omega)
  have hsx : size (complex_ctor size payload m this x y ty) (this + leb128size ty)
      = size m x := hsz _ _ _ _ hxb
  have hpy : complex_y size payload (complex_ctor size payload m this x y ty) this
      = this + leb128size ty + size m x := by
    unfold complex_y
    simp only
    have : payload (complex_ctor size payload m this x y ty) this
        = this + leb128size ty := hpx
    rw [this, hsx]
  refine ⟨hhdr, hpx, ?_, ?_, hpy, ?_, ?_, ?_⟩
  · intro i hi
    rw [hpx]
    exact hxb i hi
  · rw [hpx]
    exact hsx
  · intro i hi
    rw [hpy]
    exact hyb i hi
  · rw [hpy]
    exact hsz _ _ _ _ hyb
  · rw [hpy]
    unfold required_memory
    omega

/-- Witness for `complex_payload`: the objects of `demoPair` at 200 (2 bytes)
    and 210 (3 bytes), a complex object of type id 5 built at 300. -/
theorem complex_payload_witness :
    complex_x demoPayload (complex_ctor demoSize demoPayload demoPair 300 200 210 5) 300
      = 301 ∧
    complex_y demoSize demoPayload
        (complex_ctor demoSize demoPayload demoPair 300 200 210 5) 300 = 303 ∧
    (List.range 6).map
        (fun i => complex_ctor demoSize demoPayload demoPair 300 200 210 5 (300 + i))
      = [5, 1, 7, 2, 8, 9] ∧
    required_memory demoSize demoPair 5 200 210 = 6 := by
  have h := complex_payload demoSize demoSize_byContent demoPayload demoPair
    300 200 210 5 (fun _ _ => rfl) (Or.inl (by decide)) (Or.inl (by decide))
  exact ⟨h.2.1, h.2.2.2.2.1, by decide, by decide⟩


/-! ## Validity of the stack slots -/

theorem mem_stackAddrs (W : Nat) (rt : runtime) (s : Nat) :
    s ∈ stackAddrs W rt ↔
      ∃ i, i < (rt.StackBottom - rt.StackTop + W - 1) / W ∧ s = rt.StackTop + i * W := by
  unfold stackAddrs
  simp only [List.mem_map, List.mem_range]
  constructor
  · rintro ⟨i, hi, rfl⟩; exact ⟨i, hi, rfl⟩
  · rintro ⟨i, hi, rfl⟩; exact ⟨i, hi, rfl⟩

theorem mem_returnAddrs (W : Nat) (rt : runtime) (s : Nat) :
    s ∈ returnAddrs W rt ↔
      ∃ i, i < (rt.HighMem - rt.Returns + W - 1) / W ∧ s = rt.Returns + i * W := by
  unfold returnAddrs
  simp only [List.mem_map, List.mem_range]
  constructor
  · rintro ⟨i, hi, rfl⟩; exact ⟨i, hi, rfl⟩
  · rintro ⟨i, hi, rfl⟩; exact ⟨i, hi, rfl⟩

/-- Every address of `[a, b)` lies in one object of a chain from `a` to `b`. -/
theorem IsChain_cover (size : (Nat → Nat) → Nat → Nat) (m : Nat → Nat) :
    ∀ (os : List (Nat × Nat)) (a b v : Nat), IsChain size m a b os →
      a ≤ v → v < b → ∃ ob ∈ os, ob.1 ≤ v ∧ v < ob.2 := by
  intro os
  induction os with
  | nil =>
    intro a b v h h1 h2
    simp only [IsChain] at h
    omega
  | cons hd rest ih =>
    intro a b v h h1 h2
    obtain ⟨e1, e2, e3, e4, e5⟩ := h
    by_cases hv : v < hd.2
    · exact ⟨hd, List.mem_cons_self _ _, by omega, hv⟩
    · obtain ⟨ob, hob, g1, g2⟩ := ih _ _ v e5 (by omega) h2
      exact ⟨ob, List.mem_cons_of_mem _ hob, g1, g2⟩

/-- A collection of a well-formed heap whose editor buffer ends at or below
    `StackTop` leaves every slot of the data stack with an acceptable value,
    when no static address lies in the editor buffer; the buffer still ends at
    or below `StackTop`. -/
theorem gc_dataValid (W : Nat) (size : (Nat → Nat) → Nat → Nat)
    (hsz : SizeByContent size) (isStatic : Nat → Bool) (rt : runtime)
    (os : List (Nat × Nat)) (hwf : heapObjects size rt = some os)
    (hstatic : ∀ v, isStatic v = true →
      v < rt.Temporaries ∨ rt.Temporaries + rt.Editing ≤ v)
    (hlayout : rt.Temporaries + rt.Editing ≤ rt.StackTop)
    (hd : dataValid W isStatic rt) (rt' : runtime) (recycled : Nat)
    (hgc : gc W size rt = some (rt', recycled)) :
    dataValid W isStatic rt' ∧ rt'.Temporaries + rt'.Editing ≤ rt'.StackTop := by
  have hch : IsChain size rt.bytes rt.Globals rt.Temporaries os :=
    heapWalk_chain size rt.bytes rt.Temporaries _ _ _ hwf
  obtain ⟨rt2, hgc2, htot, hT, hslots, -, -⟩ := gc_spec W size hsz rt os hwf
  rw [hgc] at hgc2
  simp only [Option.some.injEq, Prod.mk.injEq] at hgc2
  obtain ⟨g1, g2⟩ := hgc2
  subst g1
  obtain ⟨-, -, -, cG, -, cE, cST, cSB, -, -⟩ := gc_cursors W size rt rt' _ hgc
  have haddrs : stackAddrs W rt' = stackAddrs W rt := by
    unfold stackAddrs
    rw [cST, cSB]
  refine ⟨?_, by rw [hT, cE, cST]; omega⟩
  intro s hs
  rw [haddrs] at hs
  rw [hslots s, if_pos hs]
  have hv := hd s hs
  unfold validSlot at hv ⊢
  rw [cG, hT]
  by_cases hin : rt.Globals ≤ rt.slots s ∧ rt.slots s < rt.Temporaries
  · obtain ⟨ob, hob, b1, b2⟩ := IsChain_cover size rt.bytes os _ _ _ hch hin.1 hin.2
    have hfound : found W rt ob.1 ob.2 = true :=
      (found_iff W rt _ _).mpr (Or.inl ⟨s, hs, b1, b2⟩)
    obtain ⟨n1, n2⟩ := newAddress_inside W size rt os hch ob hob hfound _ b1 b2
    obtain ⟨r1, -, -⟩ := relocate_inside size rt.bytes (found W rt) os _ _ rt.Globals
      hch ob hob hfound
    rw [n1]
    unfold newAddress at n2 ⊢
    right; left
    omega
  · have hout : newAddress W rt os (rt.slots s) = rt.slots s := by
      unfold newAddress
      exact relocate_outside size rt.bytes (found W rt) os _ _ _ _ hch (by omega)
    rw [hout]
    rcases hv with h0 | hheap | hst
    · left
      unfold editorShift
      split_ifs <;> omega
    · exact absurd hheap hin
    · right; right
      unfold editorShift
      rw [if_neg (by have := hstatic _ hst; omega)]
      exact hst

/-- The availability check keeps the data stack valid on a well-formed heap,
    and keeps a value valid when it does not collect or when the value is null
    or static. -/
theorem available_size_dataValid (W : Nat) (size : (Nat → Nat) → Nat → Nat)
    (hsz : SizeByContent size) (isStatic : Nat → Bool) (rt : runtime)
    (os : List (Nat × Nat)) (hwf : heapObjects size rt = some os)
    (hstatic : ∀ v, isStatic v = true →
      v < rt.Temporaries ∨ rt.Temporaries + rt.Editing ≤ v)
    (hlayout : rt.Temporaries + rt.Editing ≤ rt.StackTop)
    (hd : dataValid W isStatic rt) (sz : Nat) :
    ∃ rt1 avail, available_size W size rt sz = some (rt1, avail) ∧
      dataValid W isStatic rt1 ∧ rt1.Globals = rt.Globals ∧
      rt1.StackTop = rt.StackTop ∧ rt1.StackBottom = rt.StackBottom ∧
      (sz ≤ available W rt → rt1 = rt) := by
  unfold available_size
  by_cases hlt : available W rt < sz
  · rw [if_pos hlt]
    obtain ⟨rt1, hgc, -⟩ := gc_spec W size hsz rt os hwf
    obtain ⟨-, -, -, cG, -, -, cST, cSB, -, -⟩ := gc_cursors W size rt rt1 _ hgc
    exact ⟨rt1, _, hgc,
      (gc_dataValid W size hsz isStatic rt os hwf hstatic hlayout hd rt1 _ hgc).1,
      cG, cST, cSB, fun h => absurd hlt (by omega)⟩
  · rw [if_neg hlt]
    exact ⟨rt, sz, rfl, hd, rfl, rfl, rfl, fun _ => rfl⟩


theorem cells_succ (d W : Nat) (hW : 0 < W) :
    (d + W + W - 1) / W = (d + W - 1) / W + 1 := by
  have : d + W + W - 1 = (d + W - 1) + W := by omega
  rw [this, Nat.add_div_right _ hW]

/-- The cells of a window `[lo + W, hi)` are cells of the window `[lo, hi)`. -/
theorem cells_tail (lo hi W i : Nat) (hi' : i < (hi - (lo + W) + W - 1) / W) :
    i + 1 < (hi - lo + W - 1) / W := by
  rcases Nat.eq_zero_or_pos W with hW | hW
  · subst hW; simp at hi'
  · by_cases hd : W ≤ hi - lo
    · have : hi - lo + W - 1 = (hi - (lo + W) + W - 1) + W := by omega
      rw [this, Nat.add_div_right _ hW]
      omega
    · have h0 : (hi - (lo + W) + W - 1) / W = 0 := by
        apply Nat.div_eq_of_lt; omega
      omega

theorem pop_dataValid (W : Nat) (isStatic : Nat → Bool) (rt : runtime)
    (hd : dataValid W isStatic rt) : dataValid W isStatic (pop W rt).2 := by
  unfold pop
  split_ifs with h
  · exact hd
  · intro s hs
    obtain ⟨i, hi, rfl⟩ := (mem_stackAddrs W _ s).mp hs
    have hmem : rt.StackTop + W + i * W ∈ stackAddrs W rt := by
      apply (mem_stackAddrs W rt _).mpr
      refine ⟨i + 1, cells_tail _ _ _ _ hi, ?_⟩
      rw [Nat.add_mul]
      omega
    exact hd _ hmem

theorem pop_returnValid (W : Nat) (isStatic : Nat → Bool) (rt : runtime)
    (hr : returnValid W isStatic rt) : returnValid W isStatic (pop W rt).2 := by
  unfold pop
  split_ifs with h
  · exact hr
  · exact hr

/-- After `ret()`, the data stack is the old one without its top cell and with
    the cell at the old `StackBottom`, which was the top cell of the return
    stack. -/
theorem ret_valid (W : Nat) (isStatic : Nat → Bool) (rt : runtime)
    (hd : dataValid W isStatic rt) (hr : returnValid W isStatic rt)
    (hR : rt.StackBottom = rt.Returns) (hal : W ∣ rt.StackBottom - rt.StackTop)
    (hord : rt.StackTop ≤ rt.StackBottom) :
    dataValid W isStatic (ret W rt) ∧ returnValid W isStatic (ret W rt) := by
  by_cases hcaller : rt.Returns < rt.HighMem
  · rw [ret_of_caller W rt hcaller]
    constructor
    · intro s hs
      obtain ⟨i, hi, rfl⟩ := (mem_stackAddrs W _ s).mp hs
      simp only at hi ⊢
      rcases Nat.eq_zero_or_pos W with hW | hW
      · subst hW; simp at hi
      · obtain ⟨k, hk⟩ := hal
        have hcount : (rt.StackBottom + W - (rt.StackTop + W) + W - 1) / W = k := by
          have : rt.StackBottom + W - (rt.StackTop + W) + W - 1 = W - 1 + W * k := by
            omega
          rw [this, Nat.add_mul_div_left _ _ hW, Nat.div_eq_of_lt (by omega)]
          omega
        rw [hcount] at hi
        by_cases hlast : i + 1 < k
        · have hmem : rt.StackTop + W + i * W ∈ stackAddrs W rt := by
            apply (mem_stackAddrs W rt _).mpr
            refine ⟨i + 1, ?_, ?_⟩
            · have : rt.StackBottom - rt.StackTop + W - 1 = W - 1 + W * k := by omega
              rw [this, Nat.add_mul_div_left _ _ hW, Nat.div_eq_of_lt (by omega)]
              omega
            · rw [Nat.add_mul]
              omega
          exact hd _ hmem
        · have hik : i + 1 = k := by omega
          have haddr : rt.StackTop + W + i * W = rt.Returns := by
            have : W * k = W + i * W := by
              rw [← hik, Nat.mul_add, Nat.mul_comm W i]
              omega
            omega
          rw [haddr]
          have hmem : rt.Returns ∈ returnAddrs W rt := by
            apply (mem_returnAddrs W rt _).mpr
            refine ⟨0, ?_, by omega⟩
            apply Nat.div_pos <;> omega
          exact hr _ hmem
    · intro s hs
      obtain ⟨i, hi, rfl⟩ := (mem_returnAddrs W _ s).mp hs
      simp only at hi ⊢
      have hmem : rt.Returns + W + i * W ∈ returnAddrs W rt := by
        apply (mem_returnAddrs W rt _).mpr
        refine ⟨i + 1, cells_tail _ _ _ _ hi, ?_⟩
        rw [Nat.add_mul]
        omega
      exact hr _ hmem
  · rw [ret_of_empty W rt (by omega)]
    exact ⟨hd, hr⟩

theorem make_dataValid (W : Nat) (size : (Nat → Nat) → Nat → Nat)
    (hsz : SizeByContent size) (isStatic : Nat → Bool) (rt : runtime)
    (os : List (Nat × Nat)) (hwf : heapObjects size rt = some os)
    (hstatic : ∀ v, isStatic v = true →
      v < rt.Temporaries ∨ rt.Temporaries + rt.Editing ≤ v)
    (hlayout : rt.Temporaries + rt.Editing ≤ rt.StackTop)
    (hd : dataValid W isStatic rt) (sz ty : Nat) :
    ∃ p rt', make W size rt sz ty = some (p, rt') ∧ dataValid W isStatic rt' := by
  obtain ⟨rt1, avail, hroom, hd1, -, -, -, -⟩ :=
    available_size_dataValid W size hsz isStatic rt os hwf hstatic hlayout hd sz
  unfold make
  rw [hroom]
  simp only
  split_ifs with h
  · exact ⟨_, _, rfl, hd1⟩
  · refine ⟨_, _, rfl, ?_⟩
    intro s hs
    have hv := hd1 s hs
    unfold validSlot at hv ⊢
    rcases hv with h0 | hheap | hst
    · exact Or.inl h0
    · right; left
      show rt1.Globals ≤ rt1.slots s ∧ rt1.slots s < rt1.Temporaries + sz
      omega
    · exact Or.inr (Or.inr hst)

theorem push_dataValid (W : Nat) (size : (Nat → Nat) → Nat → Nat)
    (hsz : SizeByContent size) (isStatic : Nat → Bool) (rt : runtime)
    (os : List (Nat × Nat)) (hwf : heapObjects size rt = some os)
    (hstatic : ∀ v, isStatic v = true →
      v < rt.Temporaries ∨ rt.Temporaries + rt.Editing ≤ v)
    (hlayout : rt.Temporaries + rt.Editing ≤ rt.StackTop)
    (hd : dataValid W isStatic rt) (hW : 0 < W) (hlow : W ≤ rt.StackTop)
    (hord : rt.StackTop ≤ rt.StackBottom) (x : Nat) (hx : validSlot isStatic rt x)
    (hkeep : W ≤ available W rt ∨ x = 0 ∨ isStatic x = true) :
    ∃ rt', push W size rt x = some rt' ∧ dataValid W isStatic rt' := by
  obtain ⟨rt1, avail, hroom, hd1, -, cST, cSB, hsame⟩ :=
    available_size_dataValid W size hsz isStatic rt os hwf hstatic hlayout hd W
  have hx1 : validSlot isStatic rt1 x := by
    rcases hkeep with h | h | h
    · rw [hsame h]; exact hx
    · exact Or.inl h
    · exact Or.inr (Or.inr h)
  by_cases hav : avail < W
  · refine ⟨rt1, ?_, hd1⟩
    unfold push
    rw [hroom]
    simp only
    rw [if_pos hav]
  · refine ⟨_, push_of_room W size rt rt1 avail x hroom (by omega), ?_⟩
    intro s hs
    obtain ⟨i, hi, rfl⟩ := (mem_stackAddrs W _ s).mp hs
    simp only at hi ⊢
    have hcount : (rt1.StackBottom - (rt1.StackTop - W) + W - 1) / W
        = (rt1.StackBottom - rt1.StackTop + W - 1) / W + 1 := by
      have : rt1.StackBottom - (rt1.StackTop - W) + W - 1
          = rt1.StackBottom - rt1.StackTop + W + W - 1 := by omega
      rw [this, cells_succ _ _ hW]
    rw [hcount] at hi
    cases i with
    | zero =>
      have h0 : rt1.StackTop - W + 0 * W = rt1.StackTop - W := by omega
      rw [h0, Function.update_same]
      exact hx1
    | succ j =>
      have haddr : rt1.StackTop - W + (j + 1) * W = rt1.StackTop + j * W := by
        rw [Nat.add_mul]
        omega
      rw [haddr, Function.update_noteq (by
        have : 0 ≤ j * W := Nat.zero_le _
        omega)]
      have hmem : rt1.StackTop + j * W ∈ stackAddrs W rt1 :=
        (mem_stackAddrs W rt1 _).mpr ⟨j, by omega, rfl⟩
      exact hd1 _ hmem


/-- C21 (counterexample): in `demoReturn` the data stack is empty and the only
    cell of the return stack holds the address 100 of the only temporary, so
    every slot is valid.  `gc()` scans the data stack and the safe pointers
    only: it recycles the object, `Temporaries` becomes 100, and the cell of
    the return stack still holds 100, an address that is not below the new
    `Temporaries` and that designates the recycled object. -/
theorem gc_leaves_return_slot :
    dataValid 4 (fun _ => false) demoReturn ∧
    returnValid 4 (fun _ => false) demoReturn ∧
    heapObjects demoSize demoReturn = some [(100, 104)] ∧
    (gc 4 demoSize demoReturn).map (fun r =>
        (r.2, r.1.Temporaries, r.1.slots 116,
          decide (returnValid 4 (fun _ => false) r.1)))
      = some (4, 100, 100, false) := by
  decide

/-- C21 (amended): on a well-formed heap whose editor buffer ends at or below
    `StackTop`, when no static address lies in the
    editor buffer and every slot of the data stack holds null, an address of
    `[Globals, Temporaries)` or a static address, the same holds of the data
    stack after `gc()`, after `make`, after `pop()`, and after `push(x)` of a
    valid `x` when the push does not collect or `x` is null or static; after
    `ret()` it holds of the data stack and of the return stack when it held of
    both before, with `StackBottom = Returns`; `pop()` keeps the return stack
    valid.  After `gc()` every slot of the data stack that is neither null
    nor static holds an address below the new `Temporaries`. -/
theorem slot_validity (W : Nat) (size : (Nat → Nat) → Nat → Nat)
    (hsz : SizeByContent size) (isStatic : Nat → Bool) (rt : runtime)
    (os : List (Nat × Nat)) (hW : 0 < W) (hwf : heapObjects size rt = some os)
    (hstatic : ∀ v, isStatic v = true →
      v < rt.Temporaries ∨ rt.Temporaries + rt.Editing ≤ v)
    (hlayout : rt.Temporaries + rt.Editing ≤ rt.StackTop)
    (hd : dataValid W isStatic rt) :
    (∃ rt' recycled, gc W size rt = some (rt', recycled) ∧
      dataValid W isStatic rt' ∧
      ∀ s ∈ stackAddrs W rt', rt'.slots s ≠ 0 → isStatic (rt'.slots s) = false →
        rt'.slots s < rt'.Temporaries) ∧
    (∀ sz ty, ∃ p rt', make W size rt sz ty = some (p, rt') ∧
      dataValid W isStatic rt') ∧
    dataValid W isStatic (pop W rt).2 ∧
    (returnValid W isStatic rt → returnValid W isStatic (pop W rt).2) ∧
    (∀ x, validSlot isStatic rt x →
      (W ≤ available W rt ∨ x = 0 ∨ isStatic x = true) →
      W ≤ rt.StackTop → rt.StackTop ≤ rt.StackBottom →
      ∃ rt', push W size rt x = some rt' ∧ dataValid W isStatic rt') ∧
    (returnValid W isStatic rt → rt.StackBottom = rt.Returns →
      W ∣ rt.StackBottom - rt.StackTop → rt.StackTop ≤ rt.StackBottom →
      dataValid W isStatic (ret W rt) ∧ returnValid W isStatic (ret W rt)) := by
  refine ⟨?_, ?_, pop_dataValid W isStatic rt hd, pop_returnValid W isStatic rt, ?_, ?_⟩
  · obtain ⟨rt', hgc, -⟩ := gc_spec W size hsz rt os hwf
    have hv := (gc_dataValid W size hsz isStatic rt os hwf hstatic hlayout hd rt' _ hgc).1
    refine ⟨rt', _, hgc, hv, ?_⟩
    intro s hs h0 hst
    rcases hv s hs with h | h | h
    · exact absurd h h0
    · exact h.2
    · rw [hst] at h
      exact absurd h (by decide)
  · intro sz ty
    exact make_dataValid W size hsz isStatic rt os hwf hstatic hlayout hd sz ty
  · intro x hx hkeep hlow hord
    exact push_dataValid W size hsz isStatic rt os hwf hstatic hlayout hd hW hlow hord x hx
      hkeep
  · intro hr hR hal hord
    exact ret_valid W isStatic rt hd hr hR hal hord

/-- Witness for `slot_validity`: the state `demoHeap 4`, whose only stack slot
    holds the address 104 of the second temporary. -/
theorem slot_validity_witness :
    dataValid 4 (fun _ => false) (demoHeap 4) ∧
    (demoHeap 4).Temporaries + (demoHeap 4).Editing ≤ (demoHeap 4).StackTop ∧
    (∃ rt' recycled, gc 4 demoSize (demoHeap 4) = some (rt', recycled) ∧
      dataValid 4 (fun _ => false) rt' ∧
      ∀ s ∈ stackAddrs 4 rt', rt'.slots s ≠ 0 →
        (fun _ => false) (rt'.slots s) = false → rt'.slots s < rt'.Temporaries) ∧
    dataValid 4 (fun _ => false) (pop 4 (demoHeap 4)).2 := by
  have h := slot_validity 4 demoSize demoSize_byContent (fun _ => false) (demoHeap 4)
    [(100, 104), (104, 107)] (by decide) (by decide)
    (fun _ hv => absurd hv Bool.false_ne_true) (by decide) (by decide)
  exact ⟨by decide, by decide, h.1, h.2.2.1⟩


/-! ## Integer addition -/

/-- The rendering of an object of the integer family whose magnitude is not
    zero when its type id is negative is the decimal form of its value. -/
theorem integer_render_value (o : integer_object)
    (h : is_negative o.type = true → o.magnitude ≠ 0) :
    integer_render o = toString (integer_value o) := by
  unfold integer_render integer_value
  by_cases hn : is_negative o.type = true
  · rw [if_pos hn, if_pos hn]
    obtain ⟨k, hk⟩ := Nat.exists_eq_succ_of_ne_zero (h hn)
    rw [hk]
    rfl
  · rw [if_neg hn, if_neg hn]
    rfl

theorem make_integer_spec (negative : Bool) (m : Nat) :
    integer_value (make_integer negative m)
      = (if negative = true then -(m : Int) else (m : Int)) ∧
    (make_integer negative m).type
      = (if negative = true ∧ m ≠ 0 then object_id.ID_neg_integer
          else object_id.ID_integer) ∧
    (is_negative (make_integer negative m).type = true →
      (make_integer negative m).magnitude ≠ 0) := by
  unfold make_integer integer_value
  cases negative
  · simp [is_negative]
  · by_cases hm : m = 0
    · subst hm
      simp [is_negative]
    · simp [is_negative, hm]

theorem make_bignum_spec (negative : Bool) (m : Nat) :
    integer_value (make_bignum negative m)
      = (if negative = true then -(m : Int) else (m : Int)) ∧
    (make_bignum negative m).type
      = (if negative = true then object_id.ID_neg_bignum else object_id.ID_bignum) ∧
    (make_bignum negative m).magnitude = m := by
  unfold make_bignum integer_value
  cases negative <;> simp [is_negative]

theorem integer_operand_value (o : integer_object) (h : integer_operand o) :
    integer_value o
      = (if is_negative o.type = true then -(o.magnitude : Int)
          else (o.magnitude : Int)) ∧
    (is_negative o.type = true → o.magnitude ≠ 0) ∧ o.magnitude < 2 ^ 64 := by
  obtain ⟨ht, hm⟩ := h
  refine ⟨rfl, ?_, hm⟩
  intro hn
  rcases ht with h1 | ⟨-, h2⟩
  · rw [h1] at hn
    exact absurd hn (by decide)
  · exact h2


/-- What follows from the value and the type id of a result. -/
theorem integer_result_facts (r : integer_object) (s : Int)
    (hv : integer_value r = s)
    (hnz : is_negative r.type = true → r.magnitude ≠ 0)
    (htype : r.type =
      (if 2 ^ 64 ≤ s then object_id.ID_bignum
        else if 0 ≤ s then object_id.ID_integer
        else if -(2 ^ 64) < s then object_id.ID_neg_integer
        else object_id.ID_neg_bignum)) :
    integer_value r = s ∧
    integer_render r = toString s ∧
    (0 ≤ s → s < 2 ^ 64 → r.type = object_id.ID_integer) ∧
    (s < 0 → -(2 ^ 64) < s → r.type = object_id.ID_neg_integer) ∧
    (2 ^ 64 ≤ s → r.type = object_id.ID_bignum) ∧
    (s ≤ -(2 ^ 64) → r.type = object_id.ID_neg_bignum) := by
  refine ⟨hv, by rw [integer_render_value r hnz, hv], ?_, ?_, ?_, ?_⟩
  · intro h1 h2
    rw [htype, if_neg (by omega), if_pos h1]
  · intro h1 h2
    rw [htype, if_neg (by omega), if_neg (by omega), if_pos h2]
  · intro h1
    rw [htype, if_pos h1]
  · intro h1
    rw [htype, if_neg (by omega), if_neg (by omega), if_neg (by omega)]

/-- C26: for operands `x` and `y` of type `ID_integer` or `ID_neg_integer` with
    64-bit magnitudes, `+` gives an object whose value is the sum of the values
    and whose rendering is the decimal form of that sum; its type is
    `ID_integer` for a sum from 0 to `2^64 - 1`, `ID_neg_integer` for a sum
    from `-(2^64 - 1)` to -1, `ID_bignum` for a sum above `2^64 - 1` and
    `ID_neg_bignum` for a sum below `-(2^64 - 1)`: the magnitude never wraps. -/
theorem add_integers_exact (x y : integer_object)
    (hx : integer_operand x) (hy : integer_operand y) :
    integer_value (add_integers x y) = integer_value x + integer_value y ∧
    integer_render (add_integers x y)
      = toString (integer_value x + integer_value y) ∧
    (0 ≤ integer_value x + integer_value y →
      integer_value x + integer_value y < 2 ^ 64 →
      (add_integers x y).type = object_id.ID_integer) ∧
    (integer_value x + integer_value y < 0 →
      -(2 ^ 64) < integer_value x + integer_value y →
      (add_integers x y).type = object_id.ID_neg_integer) ∧
    (2 ^ 64 ≤ integer_value x + integer_value y →
      (add_integers x y).type = object_id.ID_bignum) ∧
    (integer_value x + integer_value y ≤ -(2 ^ 64) →
      (add_integers x y).type = object_id.ID_neg_bignum) := by
  obtain ⟨vx, nzx, bx⟩ := integer_operand_value x hx
  obtain ⟨vy, nzy, by'⟩ := integer_operand_value y hy
  have hxm : x.magnitude % 2 ^ 64 = x.magnitude := Nat.mod_eq_of_lt bx
  have hym : y.magnitude % 2 ^ 64 = y.magnitude := Nat.mod_eq_of_lt by'
  have hres : ∀ (b : Bool) (m : Nat), m < 2 ^ 64 →
      (if b = true then -(m : Int) else (m : Int))
        = integer_value x + integer_value y →
      integer_value (make_integer b m) = integer_value x + integer_value y ∧
      (is_negative (make_integer b m).type = true →
        (make_integer b m).magnitude ≠ 0) ∧
      (make_integer b m).type =
        (if 2 ^ 64 ≤ integer_value x + integer_value y then object_id.ID_bignum
          else if 0 ≤ integer_value x + integer_value y then object_id.ID_integer
          else if -(2 ^ 64) < integer_value x + integer_value y then
            object_id.ID_neg_integer
          else object_id.ID_neg_bignum) := by
    intro b m hm hs
    obtain ⟨a1, a2, a3⟩ := make_integer_spec b m
    refine ⟨by rw [a1, hs], a3, ?_⟩
    rw [a2, ← hs]
    cases b
    · simp only [Bool.false_eq_true, false_and, if_false]
      rw [if_neg (by omega), if_pos (by omega)]
    · simp only [true_and, if_true]
      by_cases h0 : m = 0
      · subst h0
        simp
      · rw [if_pos h0, if_neg (by omega), if_neg (by omega), if_pos (by omega)]
  have hbig : ∀ (b : Bool) (m : Nat), 2 ^ 64 ≤ m →
      (if b = true then -(m : Int) else (m : Int))
        = integer_value x + integer_value y →
      integer_value (make_bignum b m) = integer_value x + integer_value y ∧
      (is_negative (make_bignum b m).type = true →
        (make_bignum b m).magnitude ≠ 0) ∧
      (make_bignum b m).type =
        (if 2 ^ 64 ≤ integer_value x + integer_value y then object_id.ID_bignum
          else if 0 ≤ integer_value x + integer_value y then object_id.ID_integer
          else if -(2 ^ 64) < integer_value x + integer_value y then
            object_id.ID_neg_integer
          else object_id.ID_neg_bignum) := by
    intro b m hm hs
    obtain ⟨a1, a2, a3⟩ := make_bignum_spec b m
    refine ⟨by rw [a1, hs], fun _ => by rw [a3]; omega, ?_⟩
    rw [a2, ← hs]
    cases b
    · simp only [Bool.false_eq_true, if_false]
      rw [if_pos (by omega)]
    · simp only [if_true]
      rw [if_neg (by omega), if_neg (by omega), if_neg (by omega)]
  have hall : integer_value (add_integers x y) = integer_value x + integer_value y ∧
      (is_negative (add_integers x y).type = true →
        (add_integers x y).magnitude ≠ 0) ∧
      (add_integers x y).type =
        (if 2 ^ 64 ≤ integer_value x + integer_value y then object_id.ID_bignum
          else if 0 ≤ integer_value x + integer_value y then object_id.ID_integer
          else if -(2 ^ 64) < integer_value x + integer_value y then
            object_id.ID_neg_integer
          else object_id.ID_neg_bignum) := by
    unfold add_integers
    simp only [hxm, hym]
    cases hnx : is_negative x.type <;> cases hny : is_negative y.type <;>
      simp only [hnx, hny, if_true, if_false, Bool.false_eq_true, Bool.true_eq_false]
        at vx vy ⊢
    · by_cases h1 : (x.magnitude + y.magnitude) % 2 ^ 64 < x.magnitude
      · rw [if_pos h1]
        exact hbig false (x.magnitude + y.magnitude) (by omega)
          (by simp only [Bool.false_eq_true, if_false]; omega)
      · rw [if_neg h1]
        exact hres false ((x.magnitude + y.magnitude) % 2 ^ 64)
          (Nat.mod_lt _ (by norm_num))
          (by simp only [Bool.false_eq_true, if_false]; omega)
    · by_cases h1 : y.magnitude ≤ x.magnitude
      · rw [if_pos h1]
        exact hres false (x.magnitude - y.magnitude) (by omega)
          (by simp only [Bool.false_eq_true, if_false]; omega)
      · rw [if_neg h1]
        exact hres true (y.magnitude - x.magnitude) (by omega)
          (by simp only [if_true]; omega)
    · by_cases h1 : y.magnitude ≤ x.magnitude
      · rw [if_pos h1]
        exact hres true (x.magnitude - y.magnitude) (by omega)
          (by simp only [if_true]; omega)
      · rw [if_neg h1]
        exact hres false (y.magnitude - x.magnitude) (by omega)
          (by simp only [Bool.false_eq_true, if_false]; omega)
    · by_cases h1 : (x.magnitude + y.magnitude) % 2 ^ 64 < x.magnitude
      · rw [if_pos h1]
        exact hbig true (x.magnitude + y.magnitude) (by omega)
          (by simp only [if_true]; omega)
      · rw [if_neg h1]
        exact hres true ((x.magnitude + y.magnitude) % 2 ^ 64)
          (Nat.mod_lt _ (by norm_num)) (by simp only [if_true]; omega)
  exact integer_result_facts _ _ hall.1 hall.2.1 hall.2.2


/-- Witness for `add_integers_exact`: the vectors of `tests::arithmetic`,
    `18446744073709551615 + 1` (a bignum), `-18446744073709551615 + -2` (a
    negative bignum), `9223372036854775806 + 1` and `1 + -1` (integers). -/
theorem add_integers_exact_witness :
    (integer_operand { type := object_id.ID_integer, magnitude := 18446744073709551615 } ∧
      integer_operand { type := object_id.ID_integer, magnitude := 1 } ∧
      (add_integers { type := object_id.ID_integer, magnitude := 18446744073709551615 }
        { type := object_id.ID_integer, magnitude := 1 }).type = object_id.ID_bignum ∧
      integer_render
          (add_integers { type := object_id.ID_integer, magnitude := 18446744073709551615 }
            { type := object_id.ID_integer, magnitude := 1 })
        = "18446744073709551616") ∧
    (add_integers { type := object_id.ID_neg_integer, magnitude := 18446744073709551615 }
        { type := object_id.ID_neg_integer, magnitude := 2 }
      = { type := object_id.ID_neg_bignum, magnitude := 18446744073709551617 } ∧
      integer_render
          (add_integers
            { type := object_id.ID_neg_integer, magnitude := 18446744073709551615 }
            { type := object_id.ID_neg_integer, magnitude := 2 })
        = "-18446744073709551617") ∧
    (add_integers { type := object_id.ID_integer, magnitude := 9223372036854775806 }
        { type := object_id.ID_integer, magnitude := 1 }
      = { type := object_id.ID_integer, magnitude := 9223372036854775807 }) ∧
    (add_integers { type := object_id.ID_integer, magnitude := 1 }
        { type := object_id.ID_neg_integer, magnitude := 1 }
      = { type := object_id.ID_integer, magnitude := 0 }) := by
  have h := add_integers_exact
    { type := object_id.ID_integer, magnitude := 18446744073709551615 }
    { type := object_id.ID_integer, magnitude := 1 } (by decide) (by decide)
  refine ⟨⟨by decide, by decide, h.2.2.2.2.1 (by decide), ?_⟩,
    ⟨by decide, by decide⟩, by decide, by decide⟩
  rw [h.2.1]
  decide


/-! ## Parsing what the renderer wrote -/

theorem number_snoc (b : Nat) (cs : List Nat) (c : Nat) :
    number b (cs ++ [c]) = number b cs * b + (digit_value c).getD 0 := by
  simp [number, List.foldl_append]

theorem digit_char_facts (d : Nat) (h : d < 16) :
    digit_value (digit_char d) = some d ∧ is_alnum (digit_char d) = true ∧
    (d < 10 → is_digit (digit_char d) = true) ∧
    digit_char d ≠ 32 ∧ digit_char d ≠ 125 ∧ digit_char d ≠ 187 := by
  interval_cases d <;> decide

/-- The digits of `n` in a base from 2 to 16: they spell `n`, there is at
    least one, and each is the character of a digit of the base. -/
theorem digits_aux_spec (b : Nat) (hb : 2 ≤ b) (hb' : b ≤ 16) :
    ∀ fuel n, n < fuel →
      number b (digits_aux b fuel n) = n ∧ digits_aux b fuel n ≠ [] ∧
      ∀ c ∈ digits_aux b fuel n, ∃ d, d < b ∧ c = digit_char d := by
  intro fuel
  induction fuel with
  | zero => intro n h; omega
  | succ k ih =>
    intro n hn
    simp only [digits_aux]
    by_cases hlt : n < b
    · rw [if_pos hlt]
      refine ⟨?_, by simp, ?_⟩
      · have := (digit_char_facts n (by omega)).1
        simp [number, this]
      · intro c hc
        simp only [List.mem_singleton] at hc
        exact ⟨n, hlt, hc⟩
    · rw [if_neg hlt]
      have hdiv : n / b < k := by
        have : n / b < n := Nat.div_lt_self (by omega) (by omega)
        omega
      obtain ⟨i1, i2, i3⟩ := ih (n / b) hdiv
      have hmod : n % b < b := Nat.mod_lt _ (by omega)
      refine ⟨?_, by simp, ?_⟩
      · rw [number_snoc, i1, (digit_char_facts (n % b) (by omega)).1]
        simp only [Option.getD_some]
        rw [Nat.mul_comm]
        exact Nat.div_add_mod n b
      · intro c hc
        rcases List.mem_append.mp hc with h | h
        · exact i3 c h
        · simp only [List.mem_singleton] at h
          exact ⟨n % b, hmod, h⟩

theorem digits_spec (b : Nat) (hb : 2 ≤ b) (hb' : b ≤ 16) (n : Nat) :
    number b (digits b n) = n ∧
    (∃ c tl, digits b n = c :: tl ∧ ∃ d, d < b ∧ c = digit_char d) ∧
    ∀ c ∈ digits b n, ∃ d, d < b ∧ c = digit_char d := by
  obtain ⟨h1, h2, h3⟩ := digits_aux_spec b hb hb' (n + 1) n (by omega)
  refine ⟨h1, ?_, h3⟩
  unfold digits
  cases hds : digits_aux b (n + 1) n with
  | nil => exact absurd hds h2
  | cons c tl =>
    refine ⟨c, tl, rfl, ?_⟩
    apply h3
    rw [hds]
    exact List.mem_cons_self _ _

theorem radix_facts (b : radix) :
    2 ≤ b.base ∧ b.base ≤ 16 ∧ radix_of_suffix b.letter = some b ∧
    is_alnum b.letter = true := by
  cases b <;> decide

/-- Scanning with `p` a text that starts with characters that satisfy `p` and
    goes on with one that does not, or with nothing. -/
theorem scan_append (p : Nat → Bool) (xs rest : List Nat)
    (hall : ∀ x ∈ xs, p x = true) (hrest : ∀ c r, rest = c :: r → p c = false) :
    (xs ++ rest).takeWhile p = xs ∧ (xs ++ rest).dropWhile p = rest := by
  induction xs with
  | nil =>
    cases rest with
    | nil => simp
    | cons c r => simp [hrest c r rfl]
  | cons x tl ih =>
    have hx := hall x (List.mem_cons_self _ _)
    obtain ⟨i1, i2⟩ := ih (fun y hy => hall y (List.mem_cons_of_mem _ hy))
    simp [List.takeWhile, List.dropWhile, hx, i1, i2]

theorem terminated_scan (p : Nat → Bool) (hp : p 32 = false) (rest : List Nat)
    (h : terminated rest) : ∀ c r, rest = c :: r → p c = false := by
  intro c r hc
  rcases h with h | ⟨r', h⟩
  · rw [h] at hc; cases hc
  · rw [h] at hc
    simp only [List.cons.injEq] at hc
    rw [← hc.1]
    exact hp


theorem is_alpha_facts (c : Nat) (h : is_alpha c = true) :
    is_digit c = false ∧ is_alnum c = true ∧ c ≠ 32 ∧ c ≠ 34 ∧ c ≠ 35 ∧ c ≠ 45 ∧
    c ≠ 123 ∧ c ≠ 125 ∧ c ≠ 171 ∧ c ≠ 187 := by
  unfold is_alpha at h
  simp only [decide_eq_true_eq] at h
  unfold is_alnum is_alpha is_digit
  simp only [Bool.or_eq_true, decide_eq_true_eq, decide_eq_false_iff_not]
  refine ⟨by omega, Or.inl h, ?_, ?_, ?_, ?_, ?_, ?_, ?_, ?_⟩ <;> omega

theorem is_operator_facts (c : Nat) (h : is_operator c = true) :
    is_digit c = false ∧ is_alpha c = false ∧ c ≠ 32 ∧ c ≠ 34 ∧ c ≠ 35 ∧
    c ≠ 123 ∧ c ≠ 125 ∧ c ≠ 171 ∧ c ≠ 187 := by
  unfold is_operator is_alnum at h
  simp only [Bool.and_eq_true, decide_eq_true_eq, Bool.not_eq_true', Bool.or_eq_false_iff]
    at h
  obtain ⟨⟨h1, h2, h3⟩, h4⟩ := h
  exact ⟨h3, h2, by omega, h4.1, h4.2.1, h4.2.2.2.1, h4.2.2.2.2.1, h4.2.2.2.2.2.1,
    h4.2.2.2.2.2.2⟩

theorem is_identifier_facts (name : List Nat) (h : is_identifier name = true) :
    (∃ c tl, name = c :: tl ∧ is_alpha c = true) ∧ ∀ x ∈ name, is_alnum x = true := by
  cases name with
  | nil => simp [is_identifier] at h
  | cons c tl =>
    simp only [is_identifier, Bool.and_eq_true, List.all_eq_true] at h
    exact ⟨⟨c, tl, rfl, h.1⟩, h.2⟩

theorem is_operator_name_facts (name : List Nat) (h : is_operator_name name = true) :
    (∃ c tl, name = c :: tl ∧ is_operator c = true) ∧
    ∀ x ∈ name, is_operator x = true := by
  cases name with
  | nil => simp [is_operator_name] at h
  | cons c tl =>
    simp only [is_operator_name, List.all_eq_true] at h
    exact ⟨⟨c, tl, rfl, h c (List.mem_cons_self _ _)⟩, h⟩

/-- The rendering of a constructable object starts with a character that is
    neither a space nor a closing delimiter. -/
theorem render_head (command_of : List Nat → Option (List Nat)) (o : rpl_object)
    (hwf : well_formed command_of false o) :
    ∃ c tl, render o = c :: tl ∧ c ≠ 32 ∧ c ≠ 125 ∧ c ≠ 187 := by
  cases o with
  | integer n =>
    obtain ⟨-, ⟨c, tl, hc, d, hd, rfl⟩, -⟩ := digits_spec 10 (by omega) (by omega) n
    obtain ⟨-, -, -, f1, f2, f3⟩ := digit_char_facts d (by omega)
    exact ⟨_, tl, hc, f1, f2, f3⟩
  | neg_integer n => exact ⟨45, _, rfl, by decide, by decide, by decide⟩
  | based_integer b n => exact ⟨35, _, rfl, by decide, by decide, by decide⟩
  | symbol name =>
    simp only [well_formed] at hwf
    obtain ⟨⟨c, tl, rfl, hc⟩, -⟩ := is_identifier_facts name hwf.1
    obtain ⟨-, -, f1, -, -, -, -, f2, -, f3⟩ := is_alpha_facts c hc
    exact ⟨c, tl, rfl, f1, f2, f3⟩
  | text chars => exact ⟨34, _, rfl, by decide, by decide, by decide⟩
  | command name =>
    simp only [well_formed] at hwf
    rcases hwf.2 with h | h
    · obtain ⟨⟨c, tl, rfl, hc⟩, -⟩ := is_identifier_facts name h
      obtain ⟨-, -, f1, -, -, -, -, f2, -, f3⟩ := is_alpha_facts c hc
      exact ⟨c, tl, rfl, f1, f2, f3⟩
    · obtain ⟨⟨c, tl, rfl, hc⟩, -⟩ := is_operator_name_facts name h
      obtain ⟨-, -, f1, -, -, -, f2, -, f3⟩ := is_operator_facts c hc
      exact ⟨c, tl, rfl, f1, f2, f3⟩
  | list items => exact ⟨123, _, rfl, by decide, by decide, by decide⟩
  | program items => exact ⟨171, _, rfl, by decide, by decide, by decide⟩
  | no_item => simp [well_formed] at hwf
  | item head tail => simp [well_formed] at hwf


theorem parse_integer (command_of : List Nat → Option (List Nat)) (fuel n : Nat) (rest : List Nat)
    (hrest : terminated rest) :
    parse_at command_of (fuel + 1) none (digits 10 n ++ rest)
      = some (rpl_object.integer n, rest) := by
  obtain ⟨h1, ⟨c, tl, hc, d, hd, hcd⟩, h3⟩ := digits_spec 10 (by omega) (by omega) n
  have hscan := scan_append is_digit (digits 10 n) rest
    (fun x hx => by
      obtain ⟨e, he, rfl⟩ := h3 x hx
      exact (digit_char_facts e (by omega)).2.2.1 he)
    (terminated_scan is_digit (by decide) rest hrest)
  have hdig : is_digit c = true := by
    rw [hcd]
    exact (digit_char_facts d (by omega)).2.2.1 hd
  have hs : digits 10 n ++ rest = c :: (tl ++ rest) := by rw [hc]; rfl
  rw [hs] at hscan ⊢
  simp only [parse_at, hdig, if_true, hscan.1, hscan.2, h1]

theorem parse_neg_integer (command_of : List Nat → Option (List Nat)) (fuel n : Nat)
    (rest : List Nat) (hrest : terminated rest) :
    parse_at command_of (fuel + 1) none (45 :: digits 10 n ++ rest)
      = some (rpl_object.neg_integer n, rest) := by
  obtain ⟨h1, ⟨c, tl, hc, d, hd, hcd⟩, h3⟩ := digits_spec 10 (by omega) (by omega) n
  have hscan := scan_append is_digit (digits 10 n) rest
    (fun x hx => by
      obtain ⟨e, he, rfl⟩ := h3 x hx
      exact (digit_char_facts e (by omega)).2.2.1 he)
    (terminated_scan is_digit (by decide) rest hrest)
  have hdig : is_digit c = true := by
    rw [hcd]
    exact (digit_char_facts d (by omega)).2.2.1 hd
  have hs : digits 10 n ++ rest = c :: (tl ++ rest) := by rw [hc]; rfl
  have h45 : is_digit 45 = false := by decide
  show parse_at command_of (fuel + 1) none (45 :: (digits 10 n ++ rest)) = _
  have hhead : ((digits 10 n ++ rest).head?.map is_digit) = some true := by
    rw [hs]
    simp [hdig]
  simp only [parse_at, h45, Bool.false_eq_true, if_false, hhead, and_self, if_true,
    hscan.1, hscan.2, h1]

theorem parse_based_integer (command_of : List Nat → Option (List Nat)) (fuel : Nat) (b : radix)
    (n : Nat) (rest : List Nat) (hrest : terminated rest) :
    parse_at command_of (fuel + 1) none (35 :: (digits b.base n ++ [b.letter]) ++ rest)
      = some (rpl_object.based_integer b n, rest) := by
  obtain ⟨b1, b2, b3, b4⟩ := radix_facts b
  obtain ⟨h1, ⟨c, tl, hc, -⟩, h3⟩ := digits_spec b.base b1 b2 n
  have hscan := scan_append is_alnum (digits b.base n ++ [b.letter]) rest
    (fun x hx => by
      rcases List.mem_append.mp hx with h | h
      · obtain ⟨e, he, rfl⟩ := h3 x h
        exact (digit_char_facts e (by omega)).2.1
      · simp only [List.mem_singleton] at h
        rw [h]
        exact b4)
    (terminated_scan is_alnum (by decide) rest hrest)
  have hvalid : (digits b.base n).all (valid_digit b.base) = true := by
    rw [List.all_eq_true]
    intro x hx
    obtain ⟨e, he, rfl⟩ := h3 x hx
    unfold valid_digit
    rw [(digit_char_facts e (by omega)).1]
    simpa using he
  have hne : (digits b.base n).reverse ≠ [] := by
    rw [hc]
    simp
  have hbased : parse_based (digits b.base n ++ [b.letter])
      = some (rpl_object.based_integer b n) := by
    unfold parse_based
    rw [List.reverse_append]
    simp only [List.reverse_cons, List.reverse_nil, List.nil_append, List.singleton_append,
      b3, List.reverse_reverse, hvalid, h1]
    rw [if_pos ⟨hne, trivial⟩]
  have h35 : is_digit 35 = false := by decide
  show parse_at command_of (fuel + 1) none
    (35 :: ((digits b.base n ++ [b.letter]) ++ rest)) = _
  simp only [parse_at, h35, Bool.false_eq_true, if_false, if_true, hscan.1, hscan.2,
    hbased, Option.map_some']
  simp

theorem parse_text (command_of : List Nat → Option (List Nat)) (fuel : Nat) (chars rest : List Nat)
    (hq : 34 ∉ chars) :
    parse_at command_of (fuel + 1) none (34 :: (chars ++ [34]) ++ rest)
      = some (rpl_object.text chars, rest) := by
  have hscan := scan_append (fun x => decide (x ≠ 34)) chars (34 :: rest)
    (fun x hx => by
      simp only [decide_eq_true_eq]
      intro h
      exact hq (h ▸ hx))
    (fun c r hc => by
      simp only [List.cons.injEq] at hc
      simp [← hc.1])
  have h34 : is_digit 34 = false := by decide
  have hs : 34 :: (chars ++ [34]) ++ rest = 34 :: (chars ++ 34 :: rest) := by simp
  rw [hs]
  simp only [parse_at, h34, Bool.false_eq_true, if_false, if_true, hscan.1, hscan.2]
  simp

theorem parse_symbol (command_of : List Nat → Option (List Nat)) (fuel : Nat)
    (name rest : List Nat) (hid : is_identifier name = true)
    (hnone : command_of name = none) (hrest : terminated rest) :
    parse_at command_of (fuel + 1) none (name ++ rest)
      = some (rpl_object.symbol name, rest) := by
  obtain ⟨⟨c, tl, hc, ha⟩, hall⟩ := is_identifier_facts name hid
  have hscan := scan_append is_alnum name rest hall
    (terminated_scan is_alnum (by decide) rest hrest)
  obtain ⟨f1, -, -, f4, f5, f6, f7, -, f9, -⟩ := is_alpha_facts c ha
  have hs : name ++ rest = c :: (tl ++ rest) := by rw [hc]; rfl
  rw [hs] at hscan ⊢
  simp only [parse_at, f1, Bool.false_eq_true, if_false, f4, f5, f6, f7, f9, false_and,
    ha, if_true, hscan.1, hscan.2, hnone]

theorem parse_command_word (command_of : List Nat → Option (List Nat)) (fuel : Nat)
    (name rest : List Nat) (hid : is_identifier name = true)
    (hcmd : command_of name = some name) (hrest : terminated rest) :
    parse_at command_of (fuel + 1) none (name ++ rest)
      = some (rpl_object.command name, rest) := by
  obtain ⟨⟨c, tl, hc, ha⟩, hall⟩ := is_identifier_facts name hid
  have hscan := scan_append is_alnum name rest hall
    (terminated_scan is_alnum (by decide) rest hrest)
  obtain ⟨f1, -, -, f4, f5, f6, f7, -, f9, -⟩ := is_alpha_facts c ha
  have hs : name ++ rest = c :: (tl ++ rest) := by rw [hc]; rfl
  rw [hs] at hscan ⊢
  simp only [parse_at, f1, Bool.false_eq_true, if_false, f4, f5, f6, f7, f9, false_and,
    ha, if_true, hscan.1, hscan.2, hcmd]

theorem parse_operator (command_of : List Nat → Option (List Nat)) (fuel : Nat)
    (name rest : List Nat) (hcmd : command_of name = some name)
    (hop : is_operator_name name = true) (hrest : terminated rest) :
    parse_at command_of (fuel + 1) none (name ++ rest)
      = some (rpl_object.command name, rest) := by
  obtain ⟨⟨c, tl, hc, ho⟩, hall⟩ := is_operator_name_facts name hop
  have hscan := scan_append is_operator name rest hall
    (terminated_scan is_operator (by decide) rest hrest)
  obtain ⟨f1, f2, -, f4, f5, f6, -, f8, -⟩ := is_operator_facts c ho
  have hs : name ++ rest = c :: (tl ++ rest) := by rw [hc]; rfl
  have hnext : ¬ (c = 45 ∧ ((tl ++ rest).head?.map is_digit) = some true) := by
    rintro ⟨-, h⟩
    cases tl with
    | nil =>
      rcases hrest with h0 | ⟨r, h0⟩
      · rw [h0] at h; simp at h
      · rw [h0] at h
        simp at h
        exact absurd h (by decide)
    | cons x tl' =>
      have hx := hall x (by rw [hc]; simp)
      simp at h
      rw [(is_operator_facts x hx).1] at h
      exact absurd h (by decide)
  rw [hs] at hscan ⊢
  simp only [parse_at, f1, Bool.false_eq_true, if_false, hnext, f4, f5, f6, f8, f2,
    hscan.1, hscan.2, hcmd, if_true]


theorem parse_at_space (command_of : List Nat → Option (List Nat)) (fuel close : Nat)
    (s : List Nat) :
    parse_at command_of fuel (some close) (32 :: s)
      = parse_at command_of fuel (some close) s := by
  cases fuel with
  | zero => rfl
  | succ k => simp [parse_at, List.dropWhile]

/-- The parser on the rendering of a constructable object followed by a
    terminated text, and on the rendering of a chain of children followed by
    the closing delimiter: with enough fuel it returns the object and the text
    that follows. -/
theorem parse_at_render (command_of : List Nat → Option (List Nat)) :
    ∀ o : rpl_object,
      (well_formed command_of false o → ∀ fuel rest, parse_fuel o ≤ fuel →
        terminated rest →
        parse_at command_of fuel none (render o ++ rest) = some (o, rest)) ∧
      (well_formed command_of true o → ∀ fuel close rest, parse_fuel o ≤ fuel →
        (close = 125 ∨ close = 187) →
        parse_at command_of fuel (some close) (render o ++ close :: rest)
          = some (o, rest)) := by
  intro o
  induction o with
  | integer n =>
    refine ⟨fun _ fuel rest hf ht => ?_, fun h => by simp [well_formed] at h⟩
    obtain ⟨k, rfl⟩ : ∃ k, fuel = k + 1 := ⟨fuel - 1, by simp [parse_fuel] at hf; omega⟩
    exact parse_integer command_of k n rest ht
  | neg_integer n =>
    refine ⟨fun _ fuel rest hf ht => ?_, fun h => by simp [well_formed] at h⟩
    obtain ⟨k, rfl⟩ : ∃ k, fuel = k + 1 := ⟨fuel - 1, by simp [parse_fuel] at hf; omega⟩
    exact parse_neg_integer command_of k n rest ht
  | based_integer b n =>
    refine ⟨fun _ fuel rest hf ht => ?_, fun h => by simp [well_formed] at h⟩
    obtain ⟨k, rfl⟩ : ∃ k, fuel = k + 1 := ⟨fuel - 1, by simp [parse_fuel] at hf; omega⟩
    exact parse_based_integer command_of k b n rest ht
  | symbol name =>
    refine ⟨fun hwf fuel rest hf ht => ?_, fun h => by simp [well_formed] at h⟩
    obtain ⟨k, rfl⟩ : ∃ k, fuel = k + 1 := ⟨fuel - 1, by simp [parse_fuel] at hf; omega⟩
    simp only [well_formed] at hwf
    exact parse_symbol command_of k name rest hwf.1 hwf.2 ht
  | text chars =>
    refine ⟨fun hwf fuel rest hf _ => ?_, fun h => by simp [well_formed] at h⟩
    obtain ⟨k, rfl⟩ : ∃ k, fuel = k + 1 := ⟨fuel - 1, by simp [parse_fuel] at hf; omega⟩
    simp only [well_formed] at hwf
    exact parse_text command_of k chars rest hwf
  | command name =>
    refine ⟨fun hwf fuel rest hf ht => ?_, fun h => by simp [well_formed] at h⟩
    obtain ⟨k, rfl⟩ : ∃ k, fuel = k + 1 := ⟨fuel - 1, by simp [parse_fuel] at hf; omega⟩
    simp only [well_formed] at hwf
    rcases hwf.2 with h | h
    · exact parse_command_word command_of k name rest h hwf.1 ht
    · exact parse_operator command_of k name rest hwf.1 h ht
  | list items ih =>
    refine ⟨fun hwf fuel rest hf _ => ?_, fun h => by simp [well_formed] at h⟩
    obtain ⟨k, rfl⟩ : ∃ k, fuel = k + 1 := ⟨fuel - 1, by simp [parse_fuel] at hf; omega⟩
    simp only [well_formed] at hwf
    have hk : parse_fuel items ≤ k := by simp [parse_fuel] at hf; omega
    have hitems := ih.2 hwf k 125 rest hk (Or.inl rfl)
    have h123 : is_digit 123 = false := by decide
    have hs : render (rpl_object.list items) ++ rest
        = 123 :: 32 :: (render items ++ 125 :: rest) := by simp [render]
    rw [hs]
    simp only [parse_at, h123, Bool.false_eq_true, if_false, if_true]
    simp [parse_at_space, hitems]
  | program items ih =>
    refine ⟨fun hwf fuel rest hf _ => ?_, fun h => by simp [well_formed] at h⟩
    obtain ⟨k, rfl⟩ : ∃ k, fuel = k + 1 := ⟨fuel - 1, by simp [parse_fuel] at hf; omega⟩
    simp only [well_formed] at hwf
    have hk : parse_fuel items ≤ k := by simp [parse_fuel] at hf; omega
    have hitems := ih.2 hwf k 187 rest hk (Or.inr rfl)
    have h171 : is_digit 171 = false := by decide
    have hs : render (rpl_object.program items) ++ rest
        = 171 :: 32 :: (render items ++ 187 :: rest) := by simp [render]
    rw [hs]
    simp only [parse_at, h171, Bool.false_eq_true, if_false, if_true]
    simp [parse_at_space, hitems]
  | no_item =>
    refine ⟨fun h => by simp [well_formed] at h, fun _ fuel close rest hf hc => ?_⟩
    obtain ⟨k, rfl⟩ : ∃ k, fuel = k + 1 := ⟨fuel - 1, by simp [parse_fuel] at hf; omega⟩
    have hne : close ≠ 32 := by omega
    simp [render, parse_at, List.dropWhile, hne]
  | item head tail ihh iht =>
    refine ⟨fun h => by simp [well_formed] at h, fun hwf fuel close rest hf hc => ?_⟩
    obtain ⟨k, rfl⟩ : ∃ k, fuel = k + 1 := ⟨fuel - 1, by simp [parse_fuel] at hf; omega⟩
    simp only [well_formed] at hwf
    have hkh : parse_fuel head ≤ k := by simp [parse_fuel] at hf; omega
    have hkt : parse_fuel tail ≤ k := by simp [parse_fuel] at hf; omega
    obtain ⟨c, tl, hc', n1, n2, n3⟩ := render_head command_of head hwf.1
    have hhead := ihh.1 hwf.1 k (32 :: (render tail ++ close :: rest)) hkh
      (Or.inr ⟨_, rfl⟩)
    have htail := iht.2 hwf.2 k close rest hkt hc
    have hs : render (rpl_object.item head tail) ++ close :: rest
        = c :: (tl ++ 32 :: (render tail ++ close :: rest)) := by
      simp [render, hc']
    have hs' : render head ++ 32 :: (render tail ++ close :: rest)
        = c :: (tl ++ 32 :: (render tail ++ close :: rest)) := by
      simp [hc']
    rw [hs'] at hhead
    have hcc : c ≠ close := by omega
    rw [hs]
    simp only [parse_at, List.dropWhile, n1, decide_False, hcc, if_false, hhead]
    simp [parse_at_space, htail]


/-- The fuel that the parser needs is bounded by the length of the text. -/
theorem parse_fuel_le (command_of : List Nat → Option (List Nat)) :
    ∀ o : rpl_object,
      (well_formed command_of false o → parse_fuel o ≤ (render o).length) ∧
      (well_formed command_of true o → parse_fuel o ≤ (render o).length + 1) := by
  intro o
  have hleaf : ∀ p : rpl_object, well_formed command_of false p → parse_fuel p = 1 →
      parse_fuel p ≤ (render p).length := by
    intro p hp h1
    obtain ⟨c, tl, hc, -⟩ := render_head command_of p hp
    rw [h1, hc]
    simp
  induction o with
  | integer n => exact ⟨fun h => hleaf _ h rfl, fun h => by simp [well_formed] at h⟩
  | neg_integer n => exact ⟨fun h => hleaf _ h rfl, fun h => by simp [well_formed] at h⟩
  | based_integer b n =>
    exact ⟨fun h => hleaf _ h rfl, fun h => by simp [well_formed] at h⟩
  | symbol name => exact ⟨fun h => hleaf _ h rfl, fun h => by simp [well_formed] at h⟩
  | text chars => exact ⟨fun h => hleaf _ h rfl, fun h => by simp [well_formed] at h⟩
  | command name => exact ⟨fun h => hleaf _ h rfl, fun h => by simp [well_formed] at h⟩
  | list items ih =>
    refine ⟨fun h => ?_, fun h => by simp [well_formed] at h⟩
    simp only [well_formed] at h
    have := ih.2 h
    simp [parse_fuel, render]
    omega
  | program items ih =>
    refine ⟨fun h => ?_, fun h => by simp [well_formed] at h⟩
    simp only [well_formed] at h
    have := ih.2 h
    simp [parse_fuel, render]
    omega
  | no_item =>
    exact ⟨fun h => by simp [well_formed] at h, fun _ => by simp [parse_fuel, render]⟩
  | item head tail ihh iht =>
    refine ⟨fun h => by simp [well_formed] at h, fun h => ?_⟩
    simp only [well_formed] at h
    have h1 := ihh.1 h.1
    have h2 := iht.2 h.2
    simp [parse_fuel, render]
    omega

/-- C25: for every constructable object `o` (an integer, a negative integer,
    a based integer, a symbol whose name is an identifier that spells no
    command, a text without double quote, a command of the table, a list or a
    program of such objects), parsing the rendering of `o` gives `o` itself: an
    object of the same type that renders to the same text. -/
theorem parse_render_roundtrip (command_of : List Nat → Option (List Nat))
    (o : rpl_object) (hwf : well_formed command_of false o) :
    parse command_of (render o) = some o ∧
    (parse command_of (render o)).map rpl_type = some (rpl_type o) ∧
    (parse command_of (render o)).map render = some (render o) := by
  have hfuel := (parse_fuel_le command_of o).1 hwf
  have h := (parse_at_render command_of o).1 hwf ((render o).length + 1) []
    (by omega) (Or.inl rfl)
  rw [List.append_nil] at h
  have hp : parse command_of (render o) = some o := by
    unfold parse
    rw [h]
  rw [hp]
  exact ⟨rfl, rfl, rfl⟩

/-- Witness for `parse_render_roundtrip`: the program `« 1 + sin »` and the
    list `{ A 1 3 }` of `tests::data_types`, with the sample table of commands;
    `SIN` typed in upper case is the command `sin`. -/
theorem parse_render_roundtrip_witness :
    (render (rpl_object.program
        (rpl_object.item (rpl_object.integer 1)
          (rpl_object.item (rpl_object.command [43])
            (rpl_object.item (rpl_object.command [115, 105, 110])
              rpl_object.no_item))))
      = "« 1 + sin »".toList.map Char.toNat ∧
      parse demoCommands ("« 1 + sin »".toList.map Char.toNat)
        = some (rpl_object.program
            (rpl_object.item (rpl_object.integer 1)
              (rpl_object.item (rpl_object.command [43])
                (rpl_object.item (rpl_object.command [115, 105, 110])
                  rpl_object.no_item))))) ∧
    parse demoCommands ("\x7b A 1 3 \x7d".toList.map Char.toNat)
      = some (rpl_object.list
          (rpl_object.item (rpl_object.symbol [65])
            (rpl_object.item (rpl_object.integer 1)
              (rpl_object.item (rpl_object.integer 3) rpl_object.no_item)))) ∧
    parse demoCommands ("SIN".toList.map Char.toNat)
      = some (rpl_object.command [115, 105, 110]) := by
  have h := (parse_render_roundtrip demoCommands
    (rpl_object.program
      (rpl_object.item (rpl_object.integer 1)
        (rpl_object.item (rpl_object.command [43])
          (rpl_object.item (rpl_object.command [115, 105, 110])
            rpl_object.no_item))))
    (by simp only [well_formed]; decide)).1
  have hr : render (rpl_object.program
      (rpl_object.item (rpl_object.integer 1)
        (rpl_object.item (rpl_object.command [43])
          (rpl_object.item (rpl_object.command [115, 105, 110])
            rpl_object.no_item))))
      = "« 1 + sin »".toList.map Char.toNat := by decide
  rw [hr] at h
  exact ⟨⟨hr, h⟩, by decide, by decide⟩

end DB48X
